import Mathlib

/-!
# go-twitch: the IRC frame tokenizer, the typed event factory, the bucket and the session

A shallow embedding of `pkg/twitchchat/ircMessages.go`, of
`pkg/twitchchat/events.go`, of the senders of `pkg/twitchchat/irc.go` and of
the session of `pkg/twitchchat/twitchchat.go`.

* A Go `[]byte` and a Go `string` are both a list of bytes (`Bytes`); the
  conversions `string(b)` and `[]byte(s)` are the identity.
* A Go `map[string]string` is an association list with pairwise distinct keys
  (`TagMap`); `mapSet` is the assignment `m[k] = v`, `mapGet` the lookup
  `v, ok := m[k]`.
* A Go run-time panic (index out of range) is the result `none`.
* `uint` is `Nat`, `int` is `Int`; the 64-bit arithmetic inside
  `strconv.ParseUint` is written with an explicit `% 2^64`.
-/

set_option autoImplicit false

namespace Twitchchat

/-- A byte sequence: a Go `[]byte` or a Go `string`. -/
abbrev Bytes := List UInt8

/-- The bytes of an ASCII string literal. -/
def ascii (s : String) : Bytes := s.toList.map (fun c => c.toNat.toUInt8)

/-! ## Library functions used by the parser -/

/-- Go `bytes.Split(s, sep)` for a one-byte separator: the pieces of `s` between
the occurrences of `sep`; `Count(s, sep) + 1` pieces, so one empty piece for an
empty `s`. -/
def bytesSplit (sep : UInt8) : Bytes → List Bytes
  | [] => [[]]
  | c :: cs =>
    if c = sep then [] :: bytesSplit sep cs
    else
      match bytesSplit sep cs with
      | [] => [[c]]
      | p :: ps => (c :: p) :: ps

/-- Go `bytes.HasPrefix(s, pre)`. -/
def bytesHasPrefix : Bytes → Bytes → Bool
  | _, [] => true
  | [], _ :: _ => false
  | c :: cs, p :: ps => if c = p then bytesHasPrefix cs ps else false

/-- Go `bytes.TrimPrefix(s, pre)` and `strings.TrimPrefix(s, pre)`: `s` without
the leading `pre` when `s` starts with it, and `s` itself otherwise. -/
def bytesTrimPrefix (s pre : Bytes) : Bytes :=
  if bytesHasPrefix s pre then s.drop pre.length else s

/-- Go `bytes.Join(s, sep)`: the elements of `s` with `sep` between neighbours. -/
def bytesJoin : List Bytes → Bytes → Bytes
  | [], _ => []
  | [a], _ => a
  | a :: b :: rest, sep => a ++ sep ++ bytesJoin (b :: rest) sep

/-- Go `regexp.MustCompile("!|@").Split(s, -1)`: every byte `!` (33) or `@` (64)
is a match of length one, and the result is the substrings between the matches;
an empty `s` gives the single empty string. -/
def regexpSplit : Bytes → List Bytes
  | [] => [[]]
  | c :: cs =>
    if c = 33 ∨ c = 64 then [] :: regexpSplit cs
    else
      match regexpSplit cs with
      | [] => [[c]]
      | p :: ps => (c :: p) :: ps

/-- The error kinds of `strconv.NumError`. -/
inductive NumError where
  | ErrSyntax
  | ErrRange
  deriving DecidableEq, Repr

/-- The largest `uint64`. -/
def maxUint64 : Nat := 18446744073709551615

/-- The function `lower` of package strconv: `c | ('x' - 'X')`. -/
def lower (c : UInt8) : UInt8 := c ||| 32

/-- The digit switch inside the loop of `strconv.ParseUint` (base not 0, so an
underscore is not skipped): the digit value of `c`, or `none` for the default
case. -/
def digitOf (c : UInt8) : Option Nat :=
  if 48 ≤ c.toNat ∧ c.toNat ≤ 57 then some (c.toNat - 48)
  else if 97 ≤ (lower c).toNat ∧ (lower c).toNat ≤ 122 then some ((lower c).toNat - 97 + 10)
  else none

/-- The loop of `strconv.ParseUint` for base 10: `n` is the accumulator, the
result is the returned pair `(value, error)`. -/
def parseUintLoop (maxVal : Nat) : Bytes → Nat → Nat × Option NumError
  | [], n => (n, none)
  | c :: cs, n =>
    match digitOf c with
    | none => (0, some NumError.ErrSyntax)
    | some d =>
      if d ≥ 10 then (0, some NumError.ErrSyntax)
      else if n ≥ maxUint64 / 10 + 1 then (maxVal, some NumError.ErrRange)
      else
        let n10 := (n * 10) % 2 ^ 64
        let n1 := (n10 + d) % 2 ^ 64
        if n1 < n10 ∨ n1 > maxVal then (maxVal, some NumError.ErrRange)
        else parseUintLoop maxVal cs n1

/-- Go `strconv.ParseUint(s, 10, bitSize)` for `0 < bitSize ≤ 64`: the returned
pair `(value, error)`. -/
def ParseUint (s : Bytes) (bitSize : Nat) : Nat × Option NumError :=
  if s = [] then (0, some NumError.ErrSyntax)
  else parseUintLoop (2 ^ bitSize - 1) s 0

/-- Go `strconv.ParseInt(s, 10, bitSize)` for `0 < bitSize ≤ 64`: the returned
pair `(value, error)`. -/
def ParseInt (s : Bytes) (bitSize : Nat) : Int × Option NumError :=
  match s with
  | [] => (0, some NumError.ErrSyntax)
  | c :: cs =>
    let neg : Bool := c = 45
    let s1 : Bytes := if c = 43 then cs else if c = 45 then cs else c :: cs
    let r := ParseUint s1 64
    let un := r.1
    if r.2 = some NumError.ErrSyntax then (0, some NumError.ErrSyntax)
    else
      let cutoff : Nat := 2 ^ (bitSize - 1)
      if !neg ∧ un ≥ cutoff then (((cutoff - 1 : Nat) : Int), some NumError.ErrRange)
      else if neg ∧ un > cutoff then (-(cutoff : Int), some NumError.ErrRange)
      else
        let n : Int := (un : Int)
        (if neg then -n else n, none)

/-! ## The tag map -/

/-- A Go `map[string]string`: keys are pairwise distinct. -/
abbrev TagMap := List (Bytes × Bytes)

/-- The lookup `v, ok := m[key]`. -/
def mapGet : TagMap → Bytes → Option Bytes
  | [], _ => none
  | (k, v) :: rest, key => if k = key then some v else mapGet rest key

/-- The assignment `m[key] = val`: an existing entry is overwritten. -/
def mapSet : TagMap → Bytes → Bytes → TagMap
  | [], key, val => [(key, val)]
  | (k, v) :: rest, key, val =>
    if k = key then (key, val) :: rest else (k, v) :: mapSet rest key val

/-- The number of entries `len(m)`. -/
def mapLen (m : TagMap) : Nat := m.length

/-! ## The data model -/

inductive MessageCommand where
  | UNKNOWN
  | CLEARCHAT
  | CLEARMSG
  | GLOBALUSERSTATE
  | HOSTTARGET
  | JOIN
  | NOTICE
  | PART
  | PING
  | PRIVMSG
  | RECONNECT
  | ROOMSTATE
  | USERNOTICE
  | USERSTATE
  deriving DecidableEq, Repr

/-- The table `MessageCommandLookup`, read as `MessageCommandLookup[name]`: a
name that is not a key gives the zero value `UNKNOWN`. -/
def MessageCommandLookup (name : Bytes) : MessageCommand :=
  if name = ascii "CLEARCHAT" then MessageCommand.CLEARCHAT
  else if name = ascii "CLEARMSG" then MessageCommand.CLEARMSG
  else if name = ascii "GLOBALUSERSTATE" then MessageCommand.GLOBALUSERSTATE
  else if name = ascii "HOSTTARGET" then MessageCommand.HOSTTARGET
  else if name = ascii "JOIN" then MessageCommand.JOIN
  else if name = ascii "NOTICE" then MessageCommand.NOTICE
  else if name = ascii "PART" then MessageCommand.PART
  else if name = ascii "PING" then MessageCommand.PING
  else if name = ascii "PRIVMSG" then MessageCommand.PRIVMSG
  else if name = ascii "RECONNECT" then MessageCommand.RECONNECT
  else if name = ascii "ROOMSTATE" then MessageCommand.ROOMSTATE
  else if name = ascii "USERNOTICE" then MessageCommand.USERNOTICE
  else if name = ascii "USERSTATE" then MessageCommand.USERSTATE
  else MessageCommand.UNKNOWN

structure ircPrefix where
  Nickname : Bytes
  User : Bytes
  Host : Bytes
  deriving DecidableEq, Repr

structure RawIrcMessage extends ircPrefix where
  RawMessage : Bytes
  RawTags : TagMap
  RawCommand : MessageCommand
  RawParams : List Bytes
  deriving DecidableEq, Repr

structure ClearChat where
  RawIrcMessage : RawIrcMessage
  BanDuration : Nat
  Channel : Bytes
  User : Bytes
  deriving DecidableEq, Repr

structure ClearMsg where
  RawIrcMessage : RawIrcMessage
  Channel : Bytes
  Login : Bytes
  Message : Bytes
  TargetMsgId : Bytes
  deriving DecidableEq, Repr

structure GlobalUserState where
  RawIrcMessage : RawIrcMessage
  BadgeInfo : Bytes
  Badges : Bytes
  Color : Bytes
  DisplayName : Bytes
  EmoteSets : Bytes
  Turbo : Bytes
  UserId : Bytes
  UserType : Bytes
  deriving DecidableEq, Repr

structure HostTarget where
  RawIrcMessage : RawIrcMessage
  Channel : Bytes
  NumberOfViewers : Nat
  TargetChannel : Bytes
  deriving DecidableEq, Repr

structure Join where
  RawIrcMessage : RawIrcMessage
  Channel : Bytes
  deriving DecidableEq, Repr

structure Notice where
  RawIrcMessage : RawIrcMessage
  Channel : Bytes
  Message : Bytes
  MsgId : Bytes
  deriving DecidableEq, Repr

structure Part where
  RawIrcMessage : RawIrcMessage
  Channel : Bytes
  deriving DecidableEq, Repr

structure Ping where
  RawIrcMessage : RawIrcMessage
  Servers : List Bytes
  deriving DecidableEq, Repr

structure PrivMsg where
  RawIrcMessage : RawIrcMessage
  BadgeInfo : Bytes
  Badges : Bytes
  Bits : Bytes
  Channel : Bytes
  Color : Bytes
  DisplayName : Bytes
  Emotes : Bytes
  Id : Bytes
  Message : Bytes
  Mod : Bytes
  RoomId : Bytes
  Subscriber : Bytes
  TmiSentTs : Bytes
  Turbo : Bytes
  UserId : Bytes
  UserType : Bytes
  deriving DecidableEq, Repr

structure Reconnect where
  RawIrcMessage : RawIrcMessage
  deriving DecidableEq, Repr

structure RoomState where
  RawIrcMessage : RawIrcMessage
  Channel : Bytes
  EmoteOnly : Bool
  FollowersOnly : Int
  R9K : Bool
  Slow : Nat
  SubsOnly : Bool
  deriving DecidableEq, Repr

structure UserNotice where
  RawIrcMessage : RawIrcMessage
  BadgeInfo : Bytes
  Badges : Bytes
  Channel : Bytes
  Color : Bytes
  DisplayName : Bytes
  Emotes : Bytes
  Id : Bytes
  Login : Bytes
  Message : Bytes
  Mod : Bytes
  MsgId : Bytes
  RoomId : Bytes
  Subscriber : Bool
  SystemMsg : Bytes
  TmiSentTs : Bytes
  Turbo : Bytes
  UserId : Bytes
  UserType : Bytes
  deriving DecidableEq, Repr

structure UserState where
  RawIrcMessage : RawIrcMessage
  BadgeInfo : Bytes
  Badges : Bytes
  Channel : Bytes
  Color : Bytes
  DisplayName : Bytes
  EmoteSets : Bytes
  Mod : Bytes
  Subscriber : Bool
  Turbo : Bytes
  UserType : Bytes
  deriving DecidableEq, Repr

/-- The value behind the empty interface `IrcMessage`: a pointer to the raw
message or to one of the thirteen typed events. -/
inductive IrcMessage where
  | raw (m : RawIrcMessage)
  | clearChat (m : ClearChat)
  | clearMsg (m : ClearMsg)
  | globalUserState (m : GlobalUserState)
  | hostTarget (m : HostTarget)
  | join (m : Join)
  | notice (m : Notice)
  | part (m : Part)
  | ping (m : Ping)
  | privMsg (m : PrivMsg)
  | reconnect (m : Reconnect)
  | roomState (m : RoomState)
  | userNotice (m : UserNotice)
  | userState (m : UserState)
  deriving DecidableEq, Repr

/-- The raw message embedded in an event. -/
def IrcMessage.rawOf : IrcMessage → RawIrcMessage
  | IrcMessage.raw m => m
  | IrcMessage.clearChat m => m.RawIrcMessage
  | IrcMessage.clearMsg m => m.RawIrcMessage
  | IrcMessage.globalUserState m => m.RawIrcMessage
  | IrcMessage.hostTarget m => m.RawIrcMessage
  | IrcMessage.join m => m.RawIrcMessage
  | IrcMessage.notice m => m.RawIrcMessage
  | IrcMessage.part m => m.RawIrcMessage
  | IrcMessage.ping m => m.RawIrcMessage
  | IrcMessage.privMsg m => m.RawIrcMessage
  | IrcMessage.reconnect m => m.RawIrcMessage
  | IrcMessage.roomState m => m.RawIrcMessage
  | IrcMessage.userNotice m => m.RawIrcMessage
  | IrcMessage.userState m => m.RawIrcMessage

/-! ## Tag and parameter accessors -/

def getStringFromTags (tags : TagMap) (key : Bytes) : Bytes :=
  match mapGet tags key with
  | some str => str
  | none => []

def getChannel (params : List Bytes) : Bytes :=
  match params with
  | [] => []
  | p0 :: _ => if bytesHasPrefix p0 [35] then p0.drop 1 else []

def getUintFromTags (tags : TagMap) (key : Bytes) : Nat :=
  let str := getStringFromTags tags key
  if str ≠ [] then
    match ParseUint str 32 with
    | (num, none) => num
    | (_, some _) => 0
  else 0

def getIntFromTags (tags : TagMap) (key : Bytes) : Int :=
  let str := getStringFromTags tags key
  if str ≠ [] then
    match ParseInt str 32 with
    | (num, none) => num
    | (_, some _) => 0
  else 0

def getBoolFromTags (tags : TagMap) (key : Bytes) : Bool :=
  let str := getStringFromTags tags key
  if str ≠ [] then
    match ParseUint str 32 with
    | (num, none) => num == 1
    | (_, some _) => false
  else false

/-- The block shared by the constructors of the events that carry text:
`Params[0]` should be the channel, the rest are the message. -/
def messageText (params : List Bytes) : Bytes :=
  if params.length > 1 then bytesTrimPrefix (bytesJoin (params.drop 1) [32]) [58]
  else []

/-! ## The typed event factory -/

def newClearChatMsg (rawMsg : RawIrcMessage) : ClearChat :=
  let msg : ClearChat :=
    { RawIrcMessage := rawMsg
      BanDuration := getUintFromTags rawMsg.RawTags (ascii "ban-duration")
      Channel := getChannel rawMsg.RawParams
      User := [] }
  match rawMsg.RawParams with
  | _ :: p1 :: _ => if bytesHasPrefix p1 [58] then { msg with User := p1.drop 1 } else msg
  | _ => msg

def newClearMsgMsg (rawMsg : RawIrcMessage) : ClearMsg :=
  { RawIrcMessage := rawMsg
    Channel := getChannel rawMsg.RawParams
    Login := getStringFromTags rawMsg.RawTags (ascii "login")
    TargetMsgId := getStringFromTags rawMsg.RawTags (ascii "target-msg-id")
    Message := messageText rawMsg.RawParams }

def newGlobalUserStateMsg (rawMsg : RawIrcMessage) : GlobalUserState :=
  { RawIrcMessage := rawMsg
    BadgeInfo := getStringFromTags rawMsg.RawTags (ascii "badge-info")
    Badges := getStringFromTags rawMsg.RawTags (ascii "badges")
    Color := getStringFromTags rawMsg.RawTags (ascii "color")
    DisplayName := getStringFromTags rawMsg.RawTags (ascii "display-name")
    EmoteSets := getStringFromTags rawMsg.RawTags (ascii "emote-sets")
    Turbo := getStringFromTags rawMsg.RawTags (ascii "turbo")
    UserId := getStringFromTags rawMsg.RawTags (ascii "user-id")
    UserType := getStringFromTags rawMsg.RawTags (ascii "user-type") }

def newHostTargetMsg (rawMsg : RawIrcMessage) : HostTarget :=
  { RawIrcMessage := rawMsg
    Channel := getChannel rawMsg.RawParams
    TargetChannel :=
      match rawMsg.RawParams with
      | _ :: p1 :: _ => bytesTrimPrefix p1 [58]
      | _ => []
    NumberOfViewers :=
      match rawMsg.RawParams with
      | _ :: _ :: p2 :: _ =>
        (match ParseUint p2 32 with
         | (num, none) => num
         | (_, some _) => 0)
      | _ => 0 }

def newJoinMsg (rawMsg : RawIrcMessage) : Join :=
  { RawIrcMessage := rawMsg
    Channel := getChannel rawMsg.RawParams }

def newNoticeMsg (rawMsg : RawIrcMessage) : Notice :=
  { RawIrcMessage := rawMsg
    Channel := getChannel rawMsg.RawParams
    MsgId := getStringFromTags rawMsg.RawTags (ascii "msg-id")
    Message := messageText rawMsg.RawParams }

def newPartMsg (rawMsg : RawIrcMessage) : Part :=
  { RawIrcMessage := rawMsg
    Channel := getChannel rawMsg.RawParams }

def newPingMsg (rawMsg : RawIrcMessage) : Ping :=
  { RawIrcMessage := rawMsg
    Servers := rawMsg.RawParams.map (fun server => server) }

def newPrivMsgMsg (rawMsg : RawIrcMessage) : PrivMsg :=
  { RawIrcMessage := rawMsg
    BadgeInfo := getStringFromTags rawMsg.RawTags (ascii "badge-info")
    Badges := getStringFromTags rawMsg.RawTags (ascii "badges")
    Bits := getStringFromTags rawMsg.RawTags (ascii "bits")
    Channel := getChannel rawMsg.RawParams
    Color := getStringFromTags rawMsg.RawTags (ascii "color")
    DisplayName := getStringFromTags rawMsg.RawTags (ascii "display-name")
    Emotes := getStringFromTags rawMsg.RawTags (ascii "emotes")
    Id := getStringFromTags rawMsg.RawTags (ascii "id")
    Mod := getStringFromTags rawMsg.RawTags (ascii "mod")
    RoomId := getStringFromTags rawMsg.RawTags (ascii "room-id")
    Subscriber := getStringFromTags rawMsg.RawTags (ascii "subscriber")
    TmiSentTs := getStringFromTags rawMsg.RawTags (ascii "tmi-sent-ts")
    Turbo := getStringFromTags rawMsg.RawTags (ascii "turbo")
    UserId := getStringFromTags rawMsg.RawTags (ascii "user-id")
    UserType := getStringFromTags rawMsg.RawTags (ascii "user-type")
    Message := messageText rawMsg.RawParams }

def newReconnectMsg (rawMsg : RawIrcMessage) : Reconnect :=
  { RawIrcMessage := rawMsg }

/-- The constructor assigns no `Channel`: the field keeps its zero value. -/
def newRoomStateMsg (rawMsg : RawIrcMessage) : RoomState :=
  { RawIrcMessage := rawMsg
    Channel := []
    EmoteOnly := getBoolFromTags rawMsg.RawTags (ascii "emote-only")
    FollowersOnly := getIntFromTags rawMsg.RawTags (ascii "emote-only")
    R9K := getBoolFromTags rawMsg.RawTags (ascii "r9k")
    Slow := getUintFromTags rawMsg.RawTags (ascii "slow")
    SubsOnly := getBoolFromTags rawMsg.RawTags (ascii "subs-only") }

/-- The constructor assigns no `SystemMsg`: the field keeps its zero value. -/
def newUserNoticeMsg (rawMsg : RawIrcMessage) : UserNotice :=
  { RawIrcMessage := rawMsg
    BadgeInfo := getStringFromTags rawMsg.RawTags (ascii "badge-info")
    Badges := getStringFromTags rawMsg.RawTags (ascii "badges")
    Channel := getChannel rawMsg.RawParams
    Color := getStringFromTags rawMsg.RawTags (ascii "color")
    DisplayName := getStringFromTags rawMsg.RawTags (ascii "display-name")
    Emotes := getStringFromTags rawMsg.RawTags (ascii "emotes")
    Id := getStringFromTags rawMsg.RawTags (ascii "id")
    Login := getStringFromTags rawMsg.RawTags (ascii "login")
    Mod := getStringFromTags rawMsg.RawTags (ascii "mod")
    MsgId := getStringFromTags rawMsg.RawTags (ascii "msg-id")
    RoomId := getStringFromTags rawMsg.RawTags (ascii "room-id")
    Subscriber := getBoolFromTags rawMsg.RawTags (ascii "subscriber")
    SystemMsg := []
    TmiSentTs := getStringFromTags rawMsg.RawTags (ascii "tmi-sent-ts")
    Turbo := getStringFromTags rawMsg.RawTags (ascii "turbo")
    UserId := getStringFromTags rawMsg.RawTags (ascii "user-id")
    UserType := getStringFromTags rawMsg.RawTags (ascii "user-type")
    Message := messageText rawMsg.RawParams }

def newUserStateMsg (rawMsg : RawIrcMessage) : UserState :=
  { RawIrcMessage := rawMsg
    BadgeInfo := getStringFromTags rawMsg.RawTags (ascii "badge-info")
    Badges := getStringFromTags rawMsg.RawTags (ascii "badges")
    Channel := getChannel rawMsg.RawParams
    Color := getStringFromTags rawMsg.RawTags (ascii "color")
    DisplayName := getStringFromTags rawMsg.RawTags (ascii "display-name")
    EmoteSets := getStringFromTags rawMsg.RawTags (ascii "emote-sets")
    Mod := getStringFromTags rawMsg.RawTags (ascii "mod")
    Subscriber := getBoolFromTags rawMsg.RawTags (ascii "subscriber")
    Turbo := getStringFromTags rawMsg.RawTags (ascii "turbo")
    UserType := getStringFromTags rawMsg.RawTags (ascii "user-type") }

def newIrcMessage (rawMsg : RawIrcMessage) : IrcMessage :=
  match rawMsg.RawCommand with
  | MessageCommand.CLEARCHAT => IrcMessage.clearChat (newClearChatMsg rawMsg)
  | MessageCommand.CLEARMSG => IrcMessage.clearMsg (newClearMsgMsg rawMsg)
  | MessageCommand.GLOBALUSERSTATE => IrcMessage.globalUserState (newGlobalUserStateMsg rawMsg)
  | MessageCommand.HOSTTARGET => IrcMessage.hostTarget (newHostTargetMsg rawMsg)
  | MessageCommand.JOIN => IrcMessage.join (newJoinMsg rawMsg)
  | MessageCommand.NOTICE => IrcMessage.notice (newNoticeMsg rawMsg)
  | MessageCommand.PART => IrcMessage.part (newPartMsg rawMsg)
  | MessageCommand.PING => IrcMessage.ping (newPingMsg rawMsg)
  | MessageCommand.PRIVMSG => IrcMessage.privMsg (newPrivMsgMsg rawMsg)
  | MessageCommand.RECONNECT => IrcMessage.reconnect (newReconnectMsg rawMsg)
  | MessageCommand.ROOMSTATE => IrcMessage.roomState (newRoomStateMsg rawMsg)
  | MessageCommand.USERNOTICE => IrcMessage.userNotice (newUserNoticeMsg rawMsg)
  | MessageCommand.USERSTATE => IrcMessage.userState (newUserStateMsg rawMsg)
  | MessageCommand.UNKNOWN => IrcMessage.raw rawMsg

/-! ## The frame tokenizer -/

/-- The local variables of `bytesToIrcMessage`. -/
structure Tokenizer where
  rawMsg : RawIrcMessage
  msgPieces : List Bytes
  currentIndex : Nat
  deriving DecidableEq, Repr

/-- The loop over the tag entries: an entry that splits on `=` into exactly two
parts is stored, any other entry is skipped. -/
def tagLoop : List Bytes → TagMap → TagMap
  | [], m => m
  | tag :: rest, m =>
    match bytesSplit 61 tag with
    | [key, val] => tagLoop rest (mapSet m key val)
    | _ => tagLoop rest m

/-- The block "Tags are included": reads `msgPieces[currentIndex]`, which panics
when the index is out of range. -/
def tagsStep (st : Tokenizer) : Option Tokenizer :=
  match st.msgPieces[st.currentIndex]? with
  | none => none
  | some piece =>
    if bytesHasPrefix piece [64] then
      let trimmed := bytesTrimPrefix piece [64]
      let tags := bytesSplit 59 trimmed
      some
        { rawMsg := { st.rawMsg with RawTags := tagLoop tags st.rawMsg.RawTags }
          msgPieces := st.msgPieces.set st.currentIndex trimmed
          currentIndex := st.currentIndex + 1 }
    else some st

/-- The `switch len(pieces)` of the source block: one part is the host, three
parts are nickname, user and host, any other count is only logged. -/
def prefixSwitch (rawMsg : RawIrcMessage) (pieces : List Bytes) : RawIrcMessage :=
  match pieces with
  | [p0] => { rawMsg with Host := p0 }
  | [p0, p1, p2] => { rawMsg with Nickname := p0, User := p1, Host := p2 }
  | _ => rawMsg

/-- The block "Message contains source information": reads
`msgPieces[currentIndex]`, which panics when the index is out of range. -/
def sourceStep (st : Tokenizer) : Option Tokenizer :=
  match st.msgPieces[st.currentIndex]? with
  | none => none
  | some piece =>
    if bytesHasPrefix piece [58] then
      let trimmed := bytesTrimPrefix piece [58]
      let pieces := regexpSplit trimmed
      some
        { rawMsg := prefixSwitch st.rawMsg pieces
          msgPieces := st.msgPieces.set st.currentIndex trimmed
          currentIndex := st.currentIndex + 1 }
    else some st

/-- The guarded command lookup. -/
def commandStep (st : Tokenizer) : Tokenizer :=
  if st.msgPieces.length > st.currentIndex then
    { st with
      rawMsg :=
        { st.rawMsg with
          RawCommand := MessageCommandLookup (st.msgPieces.getD st.currentIndex []) }
      currentIndex := st.currentIndex + 1 }
  else st

/-- The guarded parameter slice `msgPieces[currentIndex:]`. -/
def paramsStep (st : Tokenizer) : Tokenizer :=
  if st.msgPieces.length > st.currentIndex then
    { st with rawMsg := { st.rawMsg with RawParams := st.msgPieces.drop st.currentIndex } }
  else st

/-- The function `bytesToIrcMessage`; `none` is a run-time panic. -/
def bytesToIrcMessage (buffer : Bytes) : Option IrcMessage :=
  let rawMsg : RawIrcMessage :=
    { RawMessage := buffer
      RawCommand := MessageCommand.UNKNOWN
      RawTags := []
      Nickname := []
      User := []
      Host := []
      RawParams := [] }
  let msgPieces := bytesSplit 32 buffer
  let st0 : Tokenizer := { rawMsg := rawMsg, msgPieces := msgPieces, currentIndex := 0 }
  match tagsStep st0 with
  | none => none
  | some st1 =>
    match sourceStep st1 with
    | none => none
    | some st2 => some (newIrcMessage (paramsStep (commandStep st2)).rawMsg)

/-! ## The rate-limited dispatch queue (`events.go`)

The fields of a `Bucket` that its mutex guards are a state (`Bucket`); a call of
`AddEvent` and one pass of `next` are functions on it. The goroutines are a
step function on a `System`: every step is one critical section of the mutex,
or the work the drip goroutine does outside it. `cond.Wait()` ends a step and
leaves the goroutine in the list of waiters; `cond.Signal()` wakes the
goroutine that has waited longest. The time the drip goroutine spends in
`limiter.Wait` is not modelled: its step may come at any later moment. -/

/-- A Go `error` value: `ErrBucketClosed`, or any other error. -/
inductive GoError where
  | ErrBucketClosed
  | other (code : Nat)
  deriving DecidableEq, Repr

/-- The dynamic value of the empty interface `Event`: `none` is the nil
interface. -/
abbrev Event (ε : Type) := Option ε

/-- The mutex-guarded fields of a `Bucket`: the list `events`, front first, and
the flag `closed`. -/
structure Bucket (ε : Type) where
  events : List (Event ε)
  closed : Bool
  deriving DecidableEq, Repr

/-- What a call of `AddEvent` leaves and returns; `signal` tells whether it
called `cond.Signal()`. -/
structure AddEventResult (ε : Type) where
  bucket : Bucket ε
  err : Option GoError
  signal : Bool
  deriving DecidableEq, Repr

/-- The method `Bucket.AddEvent`. -/
def Bucket.AddEvent {ε : Type} (bucket : Bucket ε) (event : Event ε) (highPriority : Bool) :
    AddEventResult ε :=
  if bucket.closed then
    { bucket := bucket, err := some GoError.ErrBucketClosed, signal := false }
  else
    { bucket :=
        { bucket with
          events := if highPriority then event :: bucket.events else bucket.events ++ [event] }
      err := none
      signal := true }

/-- One pass of `Bucket.next` from the lock to its next blocking point. -/
inductive NextResult (ε : Type) where
  | wait
  | panic
  | event (event : Event ε) (bucket : Bucket ε)
  deriving DecidableEq, Repr

/-- The method `Bucket.next`: with no pending event it blocks in `cond.Wait()`;
otherwise it removes the front and returns it. The type assertion
`front.Value.(Event)` panics on a nil value. -/
def Bucket.next {ε : Type} (bucket : Bucket ε) : NextResult ε :=
  match bucket.events with
  | [] => NextResult.wait
  | none :: _ => NextResult.panic
  | some v :: rest => NextResult.event (some v) { bucket with events := rest }

/-- The goroutines that can block on the condition variable. -/
inductive Goroutine where
  | drip
  | close
  deriving DecidableEq, Repr

/-- Where the drip goroutine is: about to run `next`, blocked in `cond.Wait()`
inside `next`, holding the event that `next` returned, returned from `drip`, or
stopped by a panic. -/
inductive DripAt (ε : Type) where
  | next
  | condWait
  | limiter (event : Event ε)
  | returned
  | panicked
  deriving DecidableEq, Repr

/-- Where the goroutine that called `Close` on the open bucket is. -/
inductive CloseAt where
  | notCalled
  | condWait
  | woken
  | returned (err : Option GoError)
  deriving DecidableEq, Repr

/-- A call of a method of the emitter. -/
inductive EmitterCall (ε : Type) where
  | Emit (event : Event ε)
  | OnError (err : GoError)
  | Close
  deriving DecidableEq, Repr

/-- The bucket with its goroutines and the calls its emitter has received. -/
structure System (ε : Type) where
  bucket : Bucket ε
  waiters : List Goroutine
  drip : DripAt ε
  close : CloseAt
  calls : List (EmitterCall ε)
  deriving DecidableEq, Repr

/-- The function `NewBucket`: an open, empty bucket whose drip goroutine has
been started. -/
def NewBucket {ε : Type} : System ε :=
  { bucket := { events := [], closed := false }
    waiters := []
    drip := DripAt.next
    close := CloseAt.notCalled
    calls := [] }

/-- A goroutine returns from `cond.Wait()`. -/
def System.wake {ε : Type} (s : System ε) : Goroutine → System ε
  | Goroutine.drip =>
    match s.drip with
    | DripAt.condWait => { s with drip := DripAt.next }
    | _ => s
  | Goroutine.close =>
    match s.close with
    | CloseAt.condWait => { s with close := CloseAt.woken }
    | _ => s

/-- The call `cond.Signal()`: the goroutine that has waited longest is woken,
if there is one. -/
def System.signal {ε : Type} (s : System ε) : System ε :=
  match s.waiters with
  | [] => s
  | g :: rest => System.wake { s with waiters := rest } g

/-- A call of `AddEvent` by any goroutine. -/
def System.AddEvent {ε : Type} (s : System ε) (event : Event ε) (highPriority : Bool) :
    System ε :=
  let r := s.bucket.AddEvent event highPriority
  if r.signal then System.signal { s with bucket := r.bucket } else { s with bucket := r.bucket }

/-- A call of `Close`, up to its return or its `cond.Wait()`: on a closed bucket
it returns nil at once; on an open one it sets `closed`, signals and waits. -/
def System.Close {ε : Type} (s : System ε) : System ε :=
  if s.bucket.closed then s
  else
    let s1 := System.signal { s with bucket := { s.bucket with closed := true } }
    { s1 with waiters := s1.waiters ++ [Goroutine.close], close := CloseAt.condWait }

/-- The rest of `Close` after `cond.Wait()` has returned: `emitter.Close()` is
called and its error returned. -/
def System.closeResume {ε : Type} (s : System ε) (closeErr : Option GoError) : System ε :=
  match s.close with
  | CloseAt.woken =>
    { s with calls := s.calls ++ [EmitterCall.Close], close := CloseAt.returned closeErr }
  | _ => s

/-- The drip goroutine runs to its next blocking point: a pass of `next`, or,
with an event in hand, the nil check, `limiter.Wait` (its error is
`limiterErr`) and `emitter.Emit` (its error is `emitErr`). -/
def System.dripStep {ε : Type} (s : System ε) (limiterErr emitErr : Option GoError) :
    System ε :=
  match s.drip with
  | DripAt.next =>
    match s.bucket.next with
    | NextResult.wait =>
      { s with waiters := s.waiters ++ [Goroutine.drip], drip := DripAt.condWait }
    | NextResult.panic => { s with drip := DripAt.panicked }
    | NextResult.event event bucket => { s with bucket := bucket, drip := DripAt.limiter event }
  | DripAt.limiter none => { s with drip := DripAt.returned }
  | DripAt.limiter (some v) =>
    match limiterErr with
    | some _ => { s with drip := DripAt.returned }
    | none =>
      match emitErr with
      | none => { s with calls := s.calls ++ [EmitterCall.Emit (some v)], drip := DripAt.next }
      | some err =>
        { s with
          calls := s.calls ++ [EmitterCall.Emit (some v), EmitterCall.OnError err]
          drip := DripAt.next }
  | DripAt.condWait => s
  | DripAt.returned => s
  | DripAt.panicked => s

/-- What can happen next: a call of `AddEvent`, a call of `Close`, a step of the
drip goroutine, or the woken `Close` going on. -/
inductive Action (ε : Type) where
  | addEvent (event : Event ε) (highPriority : Bool)
  | close
  | drip (limiterErr emitErr : Option GoError)
  | closeResume (closeErr : Option GoError)
  deriving DecidableEq, Repr

/-- One step of the system. -/
def step {ε : Type} (s : System ε) : Action ε → System ε
  | Action.addEvent event highPriority => s.AddEvent event highPriority
  | Action.close => s.Close
  | Action.drip limiterErr emitErr => s.dripStep limiterErr emitErr
  | Action.closeResume closeErr => s.closeResume closeErr

/-- A run of the system. -/
def run {ε : Type} (s : System ε) (acts : List (Action ε)) : System ε :=
  acts.foldl step s

/-- The events delivered to the emitter, in the order of the `Emit` calls. -/
def System.emitted {ε : Type} (s : System ε) : List (Event ε) :=
  s.calls.filterMap
    (fun call =>
      match call with
      | EmitterCall.Emit event => some event
      | _ => none)

/-- The event that the drip goroutine has removed and not yet emitted. -/
def System.inFlight {ε : Type} (s : System ε) : List (Event ε) :=
  match s.drip with
  | DripAt.limiter event => [event]
  | _ => []

/-- The events in the order in which the drip goroutine handles them: those
delivered, the one in hand, those pending. -/
def System.handled {ε : Type} (s : System ε) : List (Event ε) :=
  s.emitted ++ (s.inFlight ++ s.bucket.events)

/-- The drip goroutine is still running. -/
def System.alive {ε : Type} (s : System ε) : Prop :=
  s.drip ≠ DripAt.returned ∧ s.drip ≠ DripAt.panicked

/-- The action enqueues the event `e`. -/
def Action.adds {ε : Type} (act : Action ε) (e : Event ε) : Prop :=
  match act with
  | Action.addEvent event _ => event = e
  | _ => False

instance {ε : Type} [DecidableEq ε] (act : Action ε) (e : Event ε) : Decidable (act.adds e) := by
  cases act <;> unfold Action.adds <;> infer_instance

/-- What a call of `Close` returns without blocking: on a closed bucket it
returns nil (`some none`); on an open bucket it blocks in `cond.Wait()` and has
returned nothing yet (`none`). -/
def System.CloseReturn {ε : Type} (s : System ε) : Option (Option GoError) :=
  if s.bucket.closed then some none else none

/-! ## The connection (`irc.go`)

Each function is the byte sequence that the method hands to `sendBytes`, which
writes it as one text message. -/

/-- The method `Irc.Join`. -/
def Irc.Join (channel : Bytes) : Bytes :=
  ascii "JOIN #" ++ channel ++ [13, 10]

/-- The method `Irc.Part`. -/
def Irc.Part (channel : Bytes) : Bytes :=
  ascii "PART #" ++ channel ++ [13, 10]

/-- The method `Irc.Pong`. -/
def Irc.Pong (server : Bytes) : Bytes :=
  ascii "PONG " ++ server ++ [13, 10]

/-- The method `Irc.Privmsg`. -/
def Irc.Privmsg (channel msg : Bytes) : Bytes :=
  ascii "PRIVMSG #" ++ channel ++ ascii " :" ++ msg ++ [13, 10]

/-- The method `Irc.Connect`: the text messages it writes, in order, when no
write fails: the capability request, then PASS and NICK. -/
def Irc.Connect (user pass : Bytes) : List Bytes :=
  [ascii "CAP REQ :twitch.tv/tags twitch.tv/commands twitch.tv/membership",
    ascii "PASS oauth:" ++ pass,
    ascii "NICK " ++ user]

/-! ## The session (`twitchchat.go`)

A Go map with string keys is an association list with pairwise distinct keys.
A value passed to `RegisterCallback` is what package `reflect` reports about
it. The limiter of a bucket is not part of `System`; the session records the
`time.Duration` that `NewTwitchChat` passes to `rate.Every`, in nanoseconds. -/

/-- The lookup `v, ok := m[key]` in a Go map with string keys. -/
def tableGet {β : Type} : List (Bytes × β) → Bytes → Option β
  | [], _ => none
  | (k, v) :: rest, key => if k = key then some v else tableGet rest key

/-- The assignment `m[key] = val` in a Go map with string keys. -/
def tableSet {β : Type} : List (Bytes × β) → Bytes → β → List (Bytes × β)
  | [], key, val => [(key, val)]
  | (k, v) :: rest, key, val =>
    if k = key then (key, val) :: rest else (k, v) :: tableSet rest key val

/-- The dynamic values that the session enqueues as `Event`: a `chatMsg` on the
chat bucket and a `string` on the join bucket. -/
inductive EventValue where
  | chatMsg (channel message : Bytes)
  | string (value : Bytes)
  deriving DecidableEq, Repr

structure Options where
  Nick : Bytes
  Pass : Bytes
  ChatLimit : Int
  JoinLimit : Int
  AuthLimit : Int
  EnableTags : Bool
  deriving DecidableEq, Repr

/-- What `reflect` reports about a parameter type: kind `Ptr` with the name of
its element type, `Elem().String()`, or another kind. -/
inductive ParamType where
  | ptr (elem : Bytes)
  | other
  deriving DecidableEq, Repr

/-- What `reflect` reports about a value passed as a callback: kind `Func` with
its parameter types, or another kind; `id` tells the values apart. -/
inductive Callback where
  | func (id : Nat) (params : List ParamType)
  | notFunc (id : Nat)
  deriving DecidableEq, Repr

structure TwitchChat where
  options : Options
  messageRouter : List (Bytes × Callback)
  privMsgBucket : System EventValue
  joinBucket : System EventValue
  privMsgEvery : Int
  joinEvery : Int
  joinedChannels : List (Bytes × Bool)
  deriving DecidableEq, Repr

/-- The error `errors.New("no nick provided")`. -/
def errNoNick : GoError := GoError.other 1

/-- The error `errors.New("no pass provided")`. -/
def errNoPass : GoError := GoError.other 2

/-- The error `errors.New("not a function")`. -/
def errNotAFunction : GoError := GoError.other 3

/-- The error `errors.New("too many args")`. -/
def errTooManyArgs : GoError := GoError.other 4

/-- The error `errors.New("wrong type of arg")`. -/
def errWrongTypeOfArg : GoError := GoError.other 5

/-- The method `TwitchChat.RegisterCallback`: the session it leaves and the
error it returns. -/
def TwitchChat.RegisterCallback (tc : TwitchChat) (cb : Callback) :
    TwitchChat × Option GoError :=
  match cb with
  | Callback.notFunc _ => (tc, some errNotAFunction)
  | Callback.func _ params =>
    if params.length ≠ 1 then (tc, some errTooManyArgs)
    else
      match params with
      | ParamType.ptr elem :: _ =>
        ({ tc with messageRouter := tableSet tc.messageRouter elem cb }, none)
      | _ => (tc, some errWrongTypeOfArg)

/-- The method value `tc.Pong`, a function of one `*Ping`. -/
def pongCallback : Callback :=
  Callback.func 0 [ParamType.ptr (ascii "twitchchat.Ping")]

/-- The duration `time.Duration(30/limit)*time.Second`, in nanoseconds; the
division of two `int` truncates toward zero. -/
def everyDuration (limit : Int) : Int :=
  Int.tdiv 30 limit * 1000000000

/-- The function `NewTwitchChat` on the options that its argument points to: the
session, if any, and the error; `NewIrc` never fails. -/
def NewTwitchChat (options : Options) : Option TwitchChat × Option GoError :=
  if options.Nick = [] then (none, some errNoNick)
  else if options.Pass = [] then (none, some errNoPass)
  else
    let opts : Options :=
      { options with
        ChatLimit := if options.ChatLimit = 0 then 20 else options.ChatLimit
        JoinLimit := if options.JoinLimit = 0 then 20 else options.JoinLimit
        AuthLimit := if options.AuthLimit = 0 then 20 else options.AuthLimit }
    let tc : TwitchChat :=
      { options := opts
        messageRouter := []
        privMsgBucket := NewBucket
        joinBucket := NewBucket
        privMsgEvery := 0
        joinEvery := 0
        joinedChannels := [] }
    let tc := (tc.RegisterCallback pongCallback).1
    (some
      { tc with
        privMsgBucket := NewBucket
        privMsgEvery := everyDuration tc.options.ChatLimit
        joinBucket := NewBucket
        joinEvery := everyDuration tc.options.JoinLimit },
      none)

/-- The method `TwitchChat.Chat`: the error that `AddEvent` returns is
dropped. -/
def TwitchChat.Chat (tc : TwitchChat) (channel msg : Bytes) : TwitchChat × Option GoError :=
  ({ tc with
      privMsgBucket :=
        tc.privMsgBucket.AddEvent (some (EventValue.chatMsg channel msg)) false },
    none)

/-- The method `TwitchChat.Join`: the error that `AddEvent` returns is
dropped. -/
def TwitchChat.Join (tc : TwitchChat) (channel : Bytes) : TwitchChat × Option GoError :=
  ({ tc with
      joinBucket := tc.joinBucket.AddEvent (some (EventValue.string channel)) false
      joinedChannels := tableSet tc.joinedChannels channel true },
    none)

/-- The statement `delete(m, key)` on a Go map with string keys. -/
def tableDelete {β : Type} : List (Bytes × β) → Bytes → List (Bytes × β)
  | [], _ => []
  | (k, v) :: rest, key => if k = key then rest else (k, v) :: tableDelete rest key

/-- The method `TwitchChat.Part`; `sendErr` is what `irc.Part` returns. -/
def TwitchChat.Part (tc : TwitchChat) (channel : Bytes) (sendErr : Option GoError) :
    TwitchChat × Option GoError :=
  ({ tc with joinedChannels := tableDelete tc.joinedChannels channel }, sendErr)

/-- A decimal digit `0` .. `9`. -/
def isDigit (c : UInt8) : Prop := 48 ≤ c.toNat ∧ c.toNat ≤ 57

instance (c : UInt8) : Decidable (isDigit c) := by
  unfold isDigit
  infer_instance

/-- The number a string of decimal digits denotes. -/
def decimalValue (s : Bytes) : Nat := s.foldl (fun n c => 10 * n + (c.toNat - 48)) 0

/-- Spec wording of the free-text rule: the parameters from index 1 onward joined
with a single space, then one leading `:` removed if present; empty with fewer
than two parameters. -/
def specFreeText (params : List Bytes) : Bytes :=
  if params.length < 2 then []
  else
    match List.intercalate [32] (params.drop 1) with
    | 58 :: text => text
    | text => text

/-- The raw message before any piece is read. -/
def emptyRaw (buffer : Bytes) : RawIrcMessage :=
  { RawMessage := buffer
    RawCommand := MessageCommand.UNKNOWN
    RawTags := []
    Nickname := []
    User := []
    Host := []
    RawParams := [] }

/-- The command piece and the parameters, taken from the pieces that follow the
optional tag and source pieces. -/
def withCommand (rawMsg : RawIrcMessage) (rest : List Bytes) : RawIrcMessage :=
  match rest with
  | [] => rawMsg
  | cmd :: params => { rawMsg with RawCommand := MessageCommandLookup cmd, RawParams := params }

/-- The `Channel` field of an event, for the variants that have one. -/
def IrcMessage.channelOf : IrcMessage → Option Bytes
  | IrcMessage.clearChat m => some m.Channel
  | IrcMessage.clearMsg m => some m.Channel
  | IrcMessage.hostTarget m => some m.Channel
  | IrcMessage.join m => some m.Channel
  | IrcMessage.notice m => some m.Channel
  | IrcMessage.part m => some m.Channel
  | IrcMessage.privMsg m => some m.Channel
  | IrcMessage.roomState m => some m.Channel
  | IrcMessage.userNotice m => some m.Channel
  | IrcMessage.userState m => some m.Channel
  | _ => none

/-- The command whose constructor builds the event; `UNKNOWN` for the raw
message. -/
def IrcMessage.kind : IrcMessage → MessageCommand
  | IrcMessage.raw _ => MessageCommand.UNKNOWN
  | IrcMessage.clearChat _ => MessageCommand.CLEARCHAT
  | IrcMessage.clearMsg _ => MessageCommand.CLEARMSG
  | IrcMessage.globalUserState _ => MessageCommand.GLOBALUSERSTATE
  | IrcMessage.hostTarget _ => MessageCommand.HOSTTARGET
  | IrcMessage.join _ => MessageCommand.JOIN
  | IrcMessage.notice _ => MessageCommand.NOTICE
  | IrcMessage.part _ => MessageCommand.PART
  | IrcMessage.ping _ => MessageCommand.PING
  | IrcMessage.privMsg _ => MessageCommand.PRIVMSG
  | IrcMessage.reconnect _ => MessageCommand.RECONNECT
  | IrcMessage.roomState _ => MessageCommand.ROOMSTATE
  | IrcMessage.userNotice _ => MessageCommand.USERNOTICE
  | IrcMessage.userState _ => MessageCommand.USERSTATE

/-- The optional tag section of an inbound line: `@`, the tags and a space. -/
def tagSection : Option Bytes → Bytes
  | none => []
  | some g => 64 :: g ++ [32]

/-- The optional source section of an inbound line: `:`, the source and a
space. -/
def sourceSection : Option Bytes → Bytes
  | none => []
  | some p => 58 :: p ++ [32]

/-- What follows the source piece of an inbound line: nothing, or a space and
the remaining bytes. -/
def tailSection : Option Bytes → Bytes
  | none => []
  | some r => 32 :: r

/-- The pieces of what follows the source piece. -/
def tailPieces : Option Bytes → List Bytes
  | none => []
  | some r => bytesSplit 32 r

/-- The pieces that follow the optional tag piece and the optional source piece:
the command piece, if any, and the parameters. -/
def commandPieces (pieces : List Bytes) : List Bytes :=
  let afterTags :=
    match pieces with
    | (64 :: _) :: rest => rest
    | other => other
  match afterTags with
  | (58 :: _) :: rest => rest
  | other => other

/-- One entry of a tag section: `key=value`, or a malformed text. -/
inductive TagEntry where
  | keyValue (key val : Bytes)
  | malformed (text : Bytes)
  deriving DecidableEq, Repr

/-- The bytes of an entry on the wire. -/
def TagEntry.text : TagEntry → Bytes
  | TagEntry.keyValue k v => k ++ 61 :: v
  | TagEntry.malformed t => t

/-- The key and the value of a `key=value` entry. -/
def TagEntry.pair : TagEntry → Option (Bytes × Bytes)
  | TagEntry.keyValue k v => some (k, v)
  | TagEntry.malformed _ => none

/-- An entry that fits in a tag section: no byte of it is `;` or a space, a key
and a value have no `=`, and a malformed entry has no `=` at all. -/
def TagEntry.valid : TagEntry → Prop
  | TagEntry.keyValue k v => 61 ∉ k ∧ 59 ∉ k ∧ 32 ∉ k ∧ 61 ∉ v ∧ 59 ∉ v ∧ 32 ∉ v
  | TagEntry.malformed t => 61 ∉ t ∧ 59 ∉ t ∧ 32 ∉ t

instance (e : TagEntry) : Decidable e.valid := by
  cases e <;> unfold TagEntry.valid <;> infer_instance

/-- The name of a command in the table `MessageCommandLookup`; `UNKNOWN` has
none. -/
def commandName : MessageCommand → Option Bytes
  | MessageCommand.UNKNOWN => none
  | MessageCommand.CLEARCHAT => some (ascii "CLEARCHAT")
  | MessageCommand.CLEARMSG => some (ascii "CLEARMSG")
  | MessageCommand.GLOBALUSERSTATE => some (ascii "GLOBALUSERSTATE")
  | MessageCommand.HOSTTARGET => some (ascii "HOSTTARGET")
  | MessageCommand.JOIN => some (ascii "JOIN")
  | MessageCommand.NOTICE => some (ascii "NOTICE")
  | MessageCommand.PART => some (ascii "PART")
  | MessageCommand.PING => some (ascii "PING")
  | MessageCommand.PRIVMSG => some (ascii "PRIVMSG")
  | MessageCommand.RECONNECT => some (ascii "RECONNECT")
  | MessageCommand.ROOMSTATE => some (ascii "ROOMSTATE")
  | MessageCommand.USERNOTICE => some (ascii "USERNOTICE")
  | MessageCommand.USERSTATE => some (ascii "USERSTATE")

/-- The parameters of an inbound line: a space before each one. -/
def paramSection (params : List Bytes) : Bytes :=
  (params.map (fun p => 32 :: p)).flatten

/-- The inbound wire format `[@tags ][:source ]COMMAND[ param1 ... paramN]`. -/
def inboundLine (tags source : Option Bytes) (cmd : Bytes) (params : List Bytes) : Bytes :=
  tagSection tags ++ (sourceSection source ++ (cmd ++ paramSection params))

/-- The tag map that the tokenizer builds from the optional tag section. -/
def lineTags : Option Bytes → TagMap
  | none => []
  | some g => tagLoop (bytesSplit 59 g) []

/-- The source switch applied for the optional source section. -/
def withSource (rawMsg : RawIrcMessage) : Option Bytes → RawIrcMessage
  | none => rawMsg
  | some p => prefixSwitch rawMsg (regexpSplit p)

/-- The raw message of an inbound line. -/
def lineRaw (tags source : Option Bytes) (cmd : Bytes) (params : List Bytes) : RawIrcMessage :=
  withCommand
    (withSource { emptyRaw (inboundLine tags source cmd params) with RawTags := lineTags tags }
      source)
    (cmd :: params)

/-- One leading `:` removed, if present. -/
def stripColon : Bytes → Bytes
  | 58 :: text => text
  | text => text

/-- Spec wording of "read as a base-10 unsigned 32-bit number, or 0": the number
that a non-empty string of decimal digits denotes when it is below `2^32`, and 0
for every other string. -/
def specUint32 (s : Bytes) : Nat :=
  if s ≠ [] ∧ (∀ c ∈ s, isDigit c) ∧ decimalValue s < 2 ^ 32 then decimalValue s else 0

/-- Spec wording of "the base-10 signed 32-bit value, or 0": an optional sign `+`
or `-` and a non-empty string of decimal digits, read as a number when it lies
in `-2^31 .. 2^31 - 1`, and 0 for every other string. -/
def specInt32 (s : Bytes) : Int :=
  let digits := if s.head? = some 43 ∨ s.head? = some 45 then s.drop 1 else s
  if digits ≠ [] ∧ (∀ c ∈ digits, isDigit c) then
    let v : Int := if s.head? = some 45 then -(decimalValue digits : Int) else decimalValue digits
    if -(2 : Int) ^ 31 ≤ v ∧ v < (2 : Int) ^ 31 then v else 0
  else 0

/-- The part of `strconv.ParseInt` after the sign is picked off: `neg` is the
sign flag and `r` the pair that `ParseUint(s, 10, 64)` returned. -/
def signedResult (neg : Bool) (r : Nat × Option NumError) (bitSize : Nat) :
    Int × Option NumError :=
  if r.2 = some NumError.ErrSyntax then (0, some NumError.ErrSyntax)
  else if !neg ∧ r.1 ≥ 2 ^ (bitSize - 1) then
    (((2 ^ (bitSize - 1) - 1 : Nat) : Int), some NumError.ErrRange)
  else if neg ∧ r.1 > 2 ^ (bitSize - 1) then
    (-((2 ^ (bitSize - 1) : Nat) : Int), some NumError.ErrRange)
  else (if neg then -(r.1 : Int) else (r.1 : Int), none)

/-- The value of `specInt32` for a given sign and digit string. -/
def specSigned (neg : Bool) (digits : Bytes) : Int :=
  if digits ≠ [] ∧ (∀ c ∈ digits, isDigit c) then
    let v : Int := if neg then -(decimalValue digits : Int) else decimalValue digits
    if -(2 : Int) ^ 31 ≤ v ∧ v < (2 : Int) ^ 31 then v else 0
  else 0

/-- The goroutine in `Close` is never woken: while it waits the bucket is
closed, and no call signals on a closed bucket. -/
def closeStuck {ε : Type} (s : System ε) : Prop :=
  EmitterCall.Close ∉ s.calls ∧
    (s.close = CloseAt.notCalled ∨ (s.close = CloseAt.condWait ∧ s.bucket.closed = true))

/-- The drip goroutine of a closed and empty bucket only waits. -/
def dripStuck {ε : Type} (s : System ε) : Prop :=
  s.bucket.closed = true ∧ s.bucket.events = [] ∧
    (s.drip = DripAt.next ∨ s.drip = DripAt.condWait)

/-- Each of `a` and `b` occurs at most once in `l`, and where both occur `a`
comes before `b`. -/
def Ordered {ε : Type} [DecidableEq ε] (a b : Event ε) (l : List (Event ε)) : Prop :=
  l.count a ≤ 1 ∧ l.count b ≤ 1 ∧ (a ∈ l → b ∈ l → List.Sublist [a, b] l)

/-- The order of `a` and `b` is kept: `a` is ahead of `b` among the handled
events, `b` is delivered only after `a`, and while the drip goroutine runs `b`
is handled only if `a` is. -/
def orderKept {ε : Type} [DecidableEq ε] (a b : Event ε) (s : System ε) : Prop :=
  Ordered a b s.handled ∧ (b ∈ s.emitted → List.Sublist [a, b] s.emitted) ∧
    (s.alive → b ∈ s.handled → a ∈ s.handled)

/-- The event `a` is enqueued and `b` is not yet. -/
def firstQueued {ε : Type} [DecidableEq ε] (a b : Event ε) (s : System ε) : Prop :=
  b ∉ s.handled ∧ s.handled.count a ≤ 1 ∧ (s.alive → a ∈ s.handled)

/-- What a step that enqueues neither `a` nor `b` does to the handled events:
nothing, the insertion of another event, the delivery of the event in hand, or
the loss of the event in hand when the drip goroutine ends. -/
def stepShape {ε : Type} [DecidableEq ε] (a b : Event ε) (s t : System ε) : Prop :=
  (t.handled = s.handled ∧ t.emitted = s.emitted ∧ (t.alive → s.alive)) ∨
  (∃ x y e, s.handled = x ++ y ∧ t.handled = x ++ e :: y ∧ e ≠ a ∧ e ≠ b ∧
    t.emitted = s.emitted ∧ (t.alive → s.alive)) ∨
  (s.alive ∧ ∃ e rest, s.handled = s.emitted ++ e :: rest ∧ t.emitted = s.emitted ++ [e] ∧
    t.handled = s.handled) ∨
  (¬ t.alive ∧ t.emitted = s.emitted ∧ ∃ x e y, s.handled = x ++ e :: y ∧ t.handled = x ++ y)

/-- The names, as `reflect` prints them, of the event types that the factory
produces. -/
def recognizedTypes : List Bytes :=
  [ascii "twitchchat.RawIrcMessage", ascii "twitchchat.ClearChat", ascii "twitchchat.ClearMsg",
    ascii "twitchchat.GlobalUserState", ascii "twitchchat.HostTarget", ascii "twitchchat.Join",
    ascii "twitchchat.Notice", ascii "twitchchat.Part", ascii "twitchchat.Ping",
    ascii "twitchchat.PrivMsg", ascii "twitchchat.Reconnect", ascii "twitchchat.RoomState",
    ascii "twitchchat.UserNotice", ascii "twitchchat.UserState"]

/-- A session as `NewTwitchChat` leaves it with the default limits, over the
two given buckets. -/
def sessionWith (privMsgBucket joinBucket : System EventValue) : TwitchChat :=
  { options :=
      { Nick := ascii "nick", Pass := ascii "pass", ChatLimit := 20, JoinLimit := 20,
        AuthLimit := 20, EnableTags := false }
    messageRouter := [(ascii "twitchchat.Ping", pongCallback)]
    privMsgBucket := privMsgBucket
    joinBucket := joinBucket
    privMsgEvery := 1000000000
    joinEvery := 1000000000
    joinedChannels := [] }

/-- The UserNotice event inside a message, if it is one. -/
def IrcMessage.userNoticeOf : IrcMessage → Option UserNotice
  | IrcMessage.userNotice m => some m
  | _ => none

/-- The options `Options{Nick: "nick", Pass: "pass"}`: every limit has its
zero value. -/
def defaultOptions : Options :=
  { Nick := ascii "nick", Pass := ascii "pass", ChatLimit := 0, JoinLimit := 0, AuthLimit := 0,
    EnableTags := false }

theorem bytesSplit_ne_nil (sep : UInt8) (s : Bytes) : bytesSplit sep s ≠ [] := by
  cases s with
  | nil => simp [bytesSplit]
  | cons c cs =>
    unfold bytesSplit
    split
    · simp
    · split <;> simp

theorem bytesSplit_cons_sep (sep : UInt8) (s : Bytes) :
    bytesSplit sep (sep :: s) = [] :: bytesSplit sep s := by
  simp [bytesSplit]

theorem bytesSplit_cons_ne (sep c : UInt8) (s p : Bytes) (ps : List Bytes) (hc : c ≠ sep)
    (h : bytesSplit sep s = p :: ps) : bytesSplit sep (c :: s) = (c :: p) :: ps := by
  simp [bytesSplit, hc, h]

theorem bytesSplit_of_not_mem (sep : UInt8) (s : Bytes) (h : sep ∉ s) :
    bytesSplit sep s = [s] := by
  induction s with
  | nil => rfl
  | cons c cs ih =>
    have hc : c ≠ sep := fun e => h (by simp [e])
    have hcs : sep ∉ cs := fun e => h (by simp [e])
    exact bytesSplit_cons_ne sep c cs cs [] hc (ih hcs)

theorem bytesSplit_append (sep : UInt8) (a rest : Bytes) (h : sep ∉ a) :
    bytesSplit sep (a ++ sep :: rest) = a :: bytesSplit sep rest := by
  induction a with
  | nil => simp [bytesSplit]
  | cons c cs ih =>
    have hc : c ≠ sep := fun e => h (by simp [e])
    have hcs : sep ∉ cs := fun e => h (by simp [e])
    exact bytesSplit_cons_ne sep c _ cs _ hc (ih hcs)

theorem bytesJoin_eq_intercalate (l : List Bytes) (sep : Bytes) :
    bytesJoin l sep = List.intercalate sep l := by
  induction l with
  | nil => rfl
  | cons a t ih =>
    cases t with
    | nil => simp [bytesJoin, List.intercalate]
    | cons b r =>
      simp only [bytesJoin, ih]
      simp [List.intercalate, List.intersperse]

theorem bytesJoin_cons_cons (c : UInt8) (a : Bytes) (l : List Bytes) (sep : Bytes) :
    bytesJoin ((c :: a) :: l) sep = c :: bytesJoin (a :: l) sep := by
  cases l <;> simp [bytesJoin]

theorem bytesJoin_bytesSplit (sep : UInt8) (s : Bytes) :
    bytesJoin (bytesSplit sep s) [sep] = s := by
  induction s with
  | nil => rfl
  | cons c cs ih =>
    by_cases hc : c = sep
    · subst hc
      rw [bytesSplit_cons_sep]
      obtain ⟨p, ps, hp⟩ := List.exists_cons_of_ne_nil (bytesSplit_ne_nil c cs)
      rw [hp] at ih ⊢
      simp [bytesJoin, ih]
    · obtain ⟨p, ps, hp⟩ := List.exists_cons_of_ne_nil (bytesSplit_ne_nil sep cs)
      rw [bytesSplit_cons_ne sep c cs p ps hc hp, bytesJoin_cons_cons]
      rw [hp] at ih
      rw [ih]

@[simp] theorem bytesHasPrefix_nil_one (d : UInt8) : bytesHasPrefix [] [d] = false := rfl

@[simp] theorem bytesHasPrefix_cons_one (c d : UInt8) (s : Bytes) :
    bytesHasPrefix (c :: s) [d] = decide (c = d) := by
  by_cases h : c = d <;> simp [bytesHasPrefix, h]

@[simp] theorem bytesTrimPrefix_cons_self (c : UInt8) (s : Bytes) :
    bytesTrimPrefix (c :: s) [c] = s := by
  simp [bytesTrimPrefix]

theorem bytesTrimPrefix_of_not (s : Bytes) (d : UInt8) (h : bytesHasPrefix s [d] = false) :
    bytesTrimPrefix s [d] = s := by
  simp [bytesTrimPrefix, h]

/-! ## Lemmas on `strconv.ParseUint` -/

theorem digitOf_of_isDigit (c : UInt8) (h : isDigit c) : digitOf c = some (c.toNat - 48) := by
  unfold isDigit at h
  simp [digitOf, h]

theorem digitOf_of_not_isDigit (c : UInt8) (h : ¬ isDigit c) :
    digitOf c = none ∨ ∃ d, digitOf c = some d ∧ d ≥ 10 := by
  unfold isDigit at h
  unfold digitOf
  rw [if_neg h]
  split
  · exact Or.inr ⟨_, rfl, by omega⟩
  · exact Or.inl rfl

theorem le_foldl_decimal (s : Bytes) (n : Nat) :
    n ≤ List.foldl (fun n c => 10 * n + (UInt8.toNat c - 48)) n s := by
  induction s generalizing n with
  | nil => simp
  | cons c cs ih =>
    simp only [List.foldl_cons]
    have := ih (10 * n + (c.toNat - 48))
    omega

theorem parseUintLoop_digits (M : Nat) (hM : M < 2 ^ 64) (s : Bytes)
    (hs : ∀ c ∈ s, isDigit c) (n : Nat) (hn : n ≤ M) :
    parseUintLoop M s n =
      if List.foldl (fun n c => 10 * n + (UInt8.toNat c - 48)) n s ≤ M
      then (List.foldl (fun n c => 10 * n + (UInt8.toNat c - 48)) n s, none)
      else (M, some NumError.ErrRange) := by
  induction s generalizing n with
  | nil => simp [parseUintLoop, hn]
  | cons c cs ih =>
    have hc : isDigit c := hs c (by simp)
    have hcs : ∀ x ∈ cs, isDigit x := fun x hx => hs x (by simp [hx])
    have hd : c.toNat - 48 < 10 := by
      unfold isDigit at hc
      omega
    have hmono := le_foldl_decimal cs (10 * n + (c.toNat - 48))
    simp only [parseUintLoop, digitOf_of_isDigit c hc, List.foldl_cons, maxUint64]
    norm_num at hM ⊢
    rw [if_neg (by omega)]
    by_cases h1 : 1844674407370955162 ≤ n
    · rw [if_pos h1, if_neg (by omega)]
    · rw [if_neg h1]
      have e10 : n * 10 % 18446744073709551616 = n * 10 := Nat.mod_eq_of_lt (by omega)
      rw [e10]
      by_cases h2 : n * 10 + (c.toNat - 48) < 18446744073709551616
      · have e1 : (n * 10 + (c.toNat - 48)) % 18446744073709551616 = n * 10 + (c.toNat - 48) :=
          Nat.mod_eq_of_lt h2
        rw [e1]
        by_cases h3 : n * 10 + (c.toNat - 48) ≤ M
        · rw [if_neg (by omega)]
          have := ih hcs (n * 10 + (c.toNat - 48)) h3
          rw [this]
          have e : 10 * n + (c.toNat - 48) = n * 10 + (c.toNat - 48) := by omega
          rw [e]
        · rw [if_pos (by omega), if_neg (by omega)]
      · rw [if_pos (by omega), if_neg (by omega)]

theorem parseUintLoop_not_digit (M : Nat) (s : Bytes) (hs : ∃ c ∈ s, ¬ isDigit c) (n : Nat) :
    (parseUintLoop M s n).2 ≠ none := by
  induction s generalizing n with
  | nil => simp at hs
  | cons c cs ih =>
    unfold parseUintLoop
    by_cases hc : isDigit c
    · have hcs : ∃ x ∈ cs, ¬ isDigit x := by
        obtain ⟨x, hx, hnx⟩ := hs
        rcases List.mem_cons.1 hx with e | e
        · exact absurd (e ▸ hc) hnx
        · exact ⟨x, e, hnx⟩
      rw [digitOf_of_isDigit c hc]
      simp only
      split_ifs
      · simp
      · simp
      · simp
      · exact ih hcs _
    · rcases digitOf_of_not_isDigit c hc with e | ⟨d, e, hd⟩
      · rw [e]
        simp
      · rw [e]
        simp [hd]

theorem ParseUint_32_digits (s : Bytes) (hne : s ≠ []) (hs : ∀ c ∈ s, isDigit c) :
    ParseUint s 32 =
      if decimalValue s < 2 ^ 32 then (decimalValue s, none)
      else (2 ^ 32 - 1, some NumError.ErrRange) := by
  unfold ParseUint decimalValue
  rw [if_neg hne, parseUintLoop_digits _ (by norm_num) s hs 0 (by norm_num)]
  by_cases h : List.foldl (fun n c => 10 * n + (UInt8.toNat c - 48)) 0 s < 2 ^ 32
  · rw [if_pos h, if_pos (by norm_num at h ⊢; omega)]
  · rw [if_neg h, if_neg (by norm_num at h ⊢; omega)]

theorem ParseUint_32_ok (s : Bytes) (hne : s ≠ []) (hs : ∀ c ∈ s, isDigit c)
    (h : decimalValue s < 2 ^ 32) : ParseUint s 32 = (decimalValue s, none) := by
  rw [ParseUint_32_digits s hne hs, if_pos h]

theorem ParseUint_32_range (s : Bytes) (hne : s ≠ []) (hs : ∀ c ∈ s, isDigit c)
    (h : 2 ^ 32 ≤ decimalValue s) :
    ParseUint s 32 = (2 ^ 32 - 1, some NumError.ErrRange) := by
  rw [ParseUint_32_digits s hne hs, if_neg (by omega)]

theorem ParseUint_not_digit (s : Bytes) (bitSize : Nat) (hs : ∃ c ∈ s, ¬ isDigit c) :
    (ParseUint s bitSize).2 ≠ none := by
  unfold ParseUint
  split
  · simp
  · exact parseUintLoop_not_digit _ s hs 0

theorem messageText_eq_specFreeText (params : List Bytes) :
    messageText params = specFreeText params := by
  unfold messageText specFreeText
  by_cases h : params.length > 1
  · rw [if_pos h, if_neg (by omega), bytesJoin_eq_intercalate]
    cases hj : List.intercalate [32] (List.drop 1 params) with
    | nil => simp [bytesTrimPrefix, bytesHasPrefix]
    | cons c t =>
      by_cases hc : c = 58
      · subst hc
        simp
      · have hp : bytesHasPrefix (c :: t) [58] = false := by simp [hc]
        rw [bytesTrimPrefix_of_not _ _ hp]
        split
        · rename_i heq
          simp at heq
          exact absurd heq.1 hc
        · rfl
  · rw [if_neg h, if_pos (by omega)]

theorem getStringFromTags_some (tags : TagMap) (key v : Bytes) (h : mapGet tags key = some v) :
    getStringFromTags tags key = v := by
  simp [getStringFromTags, h]

theorem getStringFromTags_none (tags : TagMap) (key : Bytes) (h : mapGet tags key = none) :
    getStringFromTags tags key = [] := by
  simp [getStringFromTags, h]

theorem foldl_decimal_ge_ten (s : Bytes) (hs : s ≠ []) (n : Nat) :
    10 * n ≤ List.foldl (fun n c => 10 * n + (UInt8.toNat c - 48)) n s := by
  cases s with
  | nil => exact absurd rfl hs
  | cons c cs =>
    simp only [List.foldl_cons]
    have := le_foldl_decimal cs (10 * n + (c.toNat - 48))
    omega

theorem foldl_decimal_replicate_zero (k : Nat) (s : Bytes) :
    List.foldl (fun n c => 10 * n + (UInt8.toNat c - 48)) 0 (List.replicate k 48 ++ s) =
      List.foldl (fun n c => 10 * n + (UInt8.toNat c - 48)) 0 s := by
  induction k with
  | zero => simp
  | succ k ih =>
    rw [List.replicate_succ, List.cons_append, List.foldl_cons]
    simpa using ih

theorem decimal_one_shape (s : Bytes) (hs : ∀ c ∈ s, isDigit c)
    (h : List.foldl (fun n c => 10 * n + (UInt8.toNat c - 48)) 0 s = 1) :
    ∃ k, s = List.replicate k 48 ++ [49] := by
  induction s with
  | nil => simp at h
  | cons c cs ih =>
    have hc : isDigit c := hs c (by simp)
    have hcs : ∀ x ∈ cs, isDigit x := fun x hx => hs x (by simp [hx])
    unfold isDigit at hc
    simp only [List.foldl_cons] at h
    by_cases h0 : c.toNat = 48
    · have e : c = 48 := UInt8.toNat.inj (by rw [h0]; rfl)
      subst e
      simp at h
      obtain ⟨k, hk⟩ := ih hcs h
      exact ⟨k + 1, by rw [hk, List.replicate_succ, List.cons_append]⟩
    · by_cases hnil : cs = []
      · subst hnil
        simp at h
        have h49 : c.toNat = 49 := by omega
        have e : c = 49 := UInt8.toNat.inj (by rw [h49]; rfl)
        exact ⟨0, by simp [e]⟩
      · have := foldl_decimal_ge_ten cs hnil (10 * 0 + (c.toNat - 48))
        omega

/-! ## Lemmas on the tokenizer -/

theorem bytesSplit_eq_splitOn (sep : UInt8) (s : Bytes) :
    bytesSplit sep s = List.splitOn sep s := by
  induction s with
  | nil => rfl
  | cons c cs ih =>
    unfold List.splitOn at ih ⊢
    rw [List.splitOnP_cons, ← ih]
    by_cases hc : c = sep
    · simp [bytesSplit, hc]
    · obtain ⟨p, ps, hp⟩ := List.exists_cons_of_ne_nil (bytesSplit_ne_nil sep cs)
      rw [bytesSplit_cons_ne sep c cs p ps hc hp, hp]
      simp [hc]

theorem regexpSplit_ne_nil (s : Bytes) : regexpSplit s ≠ [] := by
  cases s with
  | nil => simp [regexpSplit]
  | cons c cs =>
    unfold regexpSplit
    split
    · simp
    · split <;> simp

theorem regexpSplit_eq_splitOnP (s : Bytes) :
    regexpSplit s = List.splitOnP (fun b => b == 33 || b == 64) s := by
  induction s with
  | nil => rfl
  | cons c cs ih =>
    rw [List.splitOnP_cons, regexpSplit, ← ih]
    by_cases hc : c = 33 ∨ c = 64
    · rw [if_pos hc]
      have : (c == 33 || c == 64) = true := by simpa using hc
      rw [if_pos this]
    · rw [if_neg hc]
      have : ¬ ((c == 33 || c == 64) = true) := by simpa using hc
      rw [if_neg this]
      obtain ⟨q, qs, hq⟩ := List.exists_cons_of_ne_nil (regexpSplit_ne_nil cs)
      rw [hq]
      rfl

theorem not_mem_of_mem_bytesSplit (sep : UInt8) (s p : Bytes) (h : p ∈ bytesSplit sep s) :
    sep ∉ p := by
  induction s generalizing p with
  | nil =>
    simp [bytesSplit] at h
    simp [h]
  | cons c cs ih =>
    by_cases hc : c = sep
    · subst hc
      rw [bytesSplit_cons_sep] at h
      rcases List.mem_cons.1 h with e | e
      · simp [e]
      · exact ih p e
    · obtain ⟨q, qs, hq⟩ := List.exists_cons_of_ne_nil (bytesSplit_ne_nil sep cs)
      rw [bytesSplit_cons_ne sep c cs q qs hc hq] at h
      rcases List.mem_cons.1 h with e | e
      · have hq1 : sep ∉ q := ih q (by simp [hq])
        rw [e]
        intro hm
        rcases List.mem_cons.1 hm with e1 | e1
        · exact hc e1.symm
        · exact hq1 e1
      · exact ih p (by simp [hq, e])

theorem bytesSplit_eq_singleton (sep : UInt8) (s p : Bytes) (h : bytesSplit sep s = [p]) :
    s = p ∧ sep ∉ s := by
  have hj := bytesJoin_bytesSplit sep s
  rw [h] at hj
  have hp : s = p := by simpa [bytesJoin] using hj.symm
  refine ⟨hp, ?_⟩
  rw [hp]
  exact not_mem_of_mem_bytesSplit sep s p (by simp [h])

theorem head_bytesSplit (sep : UInt8) (s : Bytes) :
    (bytesSplit sep s).head? = some (s.takeWhile (fun b => b != sep)) := by
  induction s with
  | nil => rfl
  | cons c cs ih =>
    by_cases hc : c = sep
    · simp [bytesSplit, hc]
    · obtain ⟨q, qs, hq⟩ := List.exists_cons_of_ne_nil (bytesSplit_ne_nil sep cs)
      rw [bytesSplit_cons_ne sep c cs q qs hc hq]
      rw [hq] at ih
      simp at ih
      have hb : (c != sep) = true := by simpa using hc
      simp [List.takeWhile_cons, hb, ih]

theorem newIrcMessage_rawOf (rawMsg : RawIrcMessage) :
    (newIrcMessage rawMsg).rawOf = rawMsg := by
  unfold newIrcMessage
  split <;> try rfl
  unfold newClearChatMsg
  split
  · split <;> rfl
  · rfl

theorem newIrcMessage_kind (rawMsg : RawIrcMessage) :
    (newIrcMessage rawMsg).kind = rawMsg.RawCommand := by
  unfold newIrcMessage
  split <;> simp [IrcMessage.kind, *]

@[simp] theorem prefixSwitch_RawParams (rawMsg : RawIrcMessage) (pieces : List Bytes) :
    (prefixSwitch rawMsg pieces).RawParams = rawMsg.RawParams := by
  unfold prefixSwitch
  split <;> rfl

@[simp] theorem prefixSwitch_RawTags (rawMsg : RawIrcMessage) (pieces : List Bytes) :
    (prefixSwitch rawMsg pieces).RawTags = rawMsg.RawTags := by
  unfold prefixSwitch
  split <;> rfl

@[simp] theorem prefixSwitch_RawCommand (rawMsg : RawIrcMessage) (pieces : List Bytes) :
    (prefixSwitch rawMsg pieces).RawCommand = rawMsg.RawCommand := by
  unfold prefixSwitch
  split <;> rfl

@[simp] theorem prefixSwitch_RawMessage (rawMsg : RawIrcMessage) (pieces : List Bytes) :
    (prefixSwitch rawMsg pieces).RawMessage = rawMsg.RawMessage := by
  unfold prefixSwitch
  split <;> rfl

theorem withCommand_nil (rawMsg : RawIrcMessage) : withCommand rawMsg [] = rawMsg := rfl

theorem bytesToIrcMessage_tags_only (buffer g : Bytes)
    (h : bytesSplit 32 buffer = [64 :: g]) : bytesToIrcMessage buffer = none := by
  simp [bytesToIrcMessage, h, tagsStep, sourceStep]

theorem bytesToIrcMessage_plain (buffer q : Bytes) (rest : List Bytes)
    (h : bytesSplit 32 buffer = q :: rest) (h64 : q.head? ≠ some 64) (h58 : q.head? ≠ some 58) :
    bytesToIrcMessage buffer =
      some (newIrcMessage (withCommand (emptyRaw buffer) (q :: rest))) := by
  have e64 : bytesHasPrefix q [64] = false := by
    cases q with
    | nil => rfl
    | cons c t => simpa using h64
  have e58 : bytesHasPrefix q [58] = false := by
    cases q with
    | nil => rfl
    | cons c t => simpa using h58
  cases rest <;>
    simp [bytesToIrcMessage, h, tagsStep, sourceStep, commandStep, paramsStep, e64, e58,
      withCommand, emptyRaw]

theorem bytesToIrcMessage_source (buffer p : Bytes) (rest : List Bytes)
    (h : bytesSplit 32 buffer = (58 :: p) :: rest) :
    bytesToIrcMessage buffer =
      some (newIrcMessage
        (withCommand (prefixSwitch (emptyRaw buffer) (regexpSplit p)) rest)) := by
  rcases rest with _ | ⟨cmd, params⟩
  · simp [bytesToIrcMessage, h, tagsStep, sourceStep, commandStep, paramsStep,
      withCommand, emptyRaw]
  · cases params <;>
      simp [bytesToIrcMessage, h, tagsStep, sourceStep, commandStep, paramsStep,
        withCommand, emptyRaw]

theorem bytesToIrcMessage_tags_plain (buffer g q : Bytes) (rest : List Bytes)
    (h : bytesSplit 32 buffer = (64 :: g) :: q :: rest) (h58 : q.head? ≠ some 58) :
    bytesToIrcMessage buffer =
      some (newIrcMessage
        (withCommand { emptyRaw buffer with RawTags := tagLoop (bytesSplit 59 g) [] }
          (q :: rest))) := by
  have e58 : bytesHasPrefix q [58] = false := by
    cases q with
    | nil => rfl
    | cons c t => simpa using h58
  cases rest <;>
    simp [bytesToIrcMessage, h, tagsStep, sourceStep, commandStep, paramsStep, e58,
      withCommand, emptyRaw]

theorem bytesToIrcMessage_tags_source (buffer g p : Bytes) (rest : List Bytes)
    (h : bytesSplit 32 buffer = (64 :: g) :: (58 :: p) :: rest) :
    bytesToIrcMessage buffer =
      some (newIrcMessage
        (withCommand
          (prefixSwitch { emptyRaw buffer with RawTags := tagLoop (bytesSplit 59 g) [] }
            (regexpSplit p))
          rest)) := by
  rcases rest with _ | ⟨cmd, params⟩
  · simp [bytesToIrcMessage, h, tagsStep, sourceStep, commandStep, paramsStep,
      withCommand, emptyRaw]
  · cases params <;>
      simp [bytesToIrcMessage, h, tagsStep, sourceStep, commandStep, paramsStep,
        withCommand, emptyRaw]

@[simp] theorem withCommand_toircPrefix (rawMsg : RawIrcMessage) (rest : List Bytes) :
    (withCommand rawMsg rest).toircPrefix = rawMsg.toircPrefix := by
  cases rest <;> rfl

@[simp] theorem withCommand_RawTags (rawMsg : RawIrcMessage) (rest : List Bytes) :
    (withCommand rawMsg rest).RawTags = rawMsg.RawTags := by
  cases rest <;> rfl

theorem withCommand_RawCommand (rawMsg : RawIrcMessage) (rest : List Bytes)
    (h : rawMsg.RawCommand = MessageCommand.UNKNOWN) :
    (withCommand rawMsg rest).RawCommand =
      match rest with
      | [] => MessageCommand.UNKNOWN
      | cmd :: _ => MessageCommandLookup cmd := by
  cases rest with
  | nil => exact h
  | cons c t => rfl

theorem withCommand_RawParams (rawMsg : RawIrcMessage) (rest : List Bytes)
    (h : rawMsg.RawParams = []) : (withCommand rawMsg rest).RawParams = rest.drop 1 := by
  cases rest with
  | nil => exact h
  | cons c t => rfl

theorem bytesSplit_tagSection (tags : Option Bytes) (body : Bytes)
    (htags : ∀ g, tags = some g → 32 ∉ g) :
    bytesSplit 32 (tagSection tags ++ body) =
      (match tags with
        | none => []
        | some g => [64 :: g]) ++ bytesSplit 32 body := by
  cases tags with
  | none => rfl
  | some g =>
    have h : (32 : UInt8) ∉ 64 :: g := by
      intro hm
      rcases List.mem_cons.1 hm with e | e
      · exact absurd e (by decide)
      · exact htags g rfl e
    have := bytesSplit_append 32 (64 :: g) body h
    simpa [tagSection] using this

theorem bytesSplit_sourceSection (source : Option Bytes) (body : Bytes)
    (hsrc : ∀ p, source = some p → 32 ∉ p) :
    bytesSplit 32 (sourceSection source ++ body) =
      (match source with
        | none => []
        | some p => [58 :: p]) ++ bytesSplit 32 body := by
  cases source with
  | none => rfl
  | some p =>
    have h : (32 : UInt8) ∉ 58 :: p := by
      intro hm
      rcases List.mem_cons.1 hm with e | e
      · exact absurd e (by decide)
      · exact hsrc p rfl e
    have := bytesSplit_append 32 (58 :: p) body h
    simpa [sourceSection] using this

theorem MessageCommandLookup_of_name (cmd : MessageCommand) (name : Bytes)
    (h : commandName cmd = some name) : MessageCommandLookup name = cmd := by
  cases cmd with
  | UNKNOWN => exact absurd h (by simp [commandName])
  | _ =>
    simp only [commandName, Option.some.injEq] at h
    subst h
    decide

theorem MessageCommandLookup_of_no_name (name : Bytes)
    (h : ∀ c, commandName c ≠ some name) :
    MessageCommandLookup name = MessageCommand.UNKNOWN := by
  have hne : ∀ c n, commandName c = some n → name ≠ n := by
    intro c n hc e
    exact h c (by rw [hc, e])
  unfold MessageCommandLookup
  rw [if_neg (hne MessageCommand.CLEARCHAT _ rfl), if_neg (hne MessageCommand.CLEARMSG _ rfl),
    if_neg (hne MessageCommand.GLOBALUSERSTATE _ rfl),
    if_neg (hne MessageCommand.HOSTTARGET _ rfl), if_neg (hne MessageCommand.JOIN _ rfl),
    if_neg (hne MessageCommand.NOTICE _ rfl), if_neg (hne MessageCommand.PART _ rfl),
    if_neg (hne MessageCommand.PING _ rfl), if_neg (hne MessageCommand.PRIVMSG _ rfl),
    if_neg (hne MessageCommand.RECONNECT _ rfl), if_neg (hne MessageCommand.ROOMSTATE _ rfl),
    if_neg (hne MessageCommand.USERNOTICE _ rfl), if_neg (hne MessageCommand.USERSTATE _ rfl)]

/-- The table is exact: a name gives a command exactly when it is that
command's name, and gives `UNKNOWN` exactly when it is no command's name. -/
theorem MessageCommandLookup_eq_iff (name : Bytes) (cmd : MessageCommand) :
    MessageCommandLookup name = cmd ↔
      (commandName cmd = some name ∨
        (cmd = MessageCommand.UNKNOWN ∧ ∀ c, commandName c ≠ some name)) := by
  constructor
  · intro h
    by_cases hex : ∃ c, commandName c = some name
    · obtain ⟨c, hc⟩ := hex
      have := MessageCommandLookup_of_name c name hc
      rw [h] at this
      rw [this]
      exact Or.inl hc
    · have hall : ∀ c, commandName c ≠ some name := fun c hc => hex ⟨c, hc⟩
      have := MessageCommandLookup_of_no_name name hall
      rw [h] at this
      exact Or.inr ⟨this, hall⟩
  · rintro (h | ⟨h, hall⟩)
    · exact MessageCommandLookup_of_name cmd name h
    · rw [h]
      exact MessageCommandLookup_of_no_name name hall

/-- The tokenizer panics exactly on the lines that are one piece starting with
`@`: a tag section and nothing else. -/
theorem bytesToIrcMessage_eq_none_iff (buffer : Bytes) :
    bytesToIrcMessage buffer = none ↔ ∃ g, buffer = 64 :: g ∧ 32 ∉ g := by
  constructor
  · intro h
    obtain ⟨q, rest, hq⟩ := List.exists_cons_of_ne_nil (bytesSplit_ne_nil 32 buffer)
    by_cases h64 : q.head? = some 64
    · obtain ⟨g, hg⟩ : ∃ g, q = 64 :: g := by
        cases q with
        | nil => simp at h64
        | cons c t => exact ⟨t, by simp at h64; rw [h64]⟩
      subst hg
      cases rest with
      | nil =>
        obtain ⟨e, hn⟩ := bytesSplit_eq_singleton 32 buffer _ hq
        refine ⟨g, e, ?_⟩
        intro hm
        exact hn (by rw [e]; exact List.mem_cons_of_mem _ hm)
      | cons r rest =>
        by_cases h58 : r.head? = some 58
        · obtain ⟨p, hp⟩ : ∃ p, r = 58 :: p := by
            cases r with
            | nil => simp at h58
            | cons c t => exact ⟨t, by simp at h58; rw [h58]⟩
          subst hp
          rw [bytesToIrcMessage_tags_source buffer g p rest hq] at h
          exact absurd h (by simp)
        · rw [bytesToIrcMessage_tags_plain buffer g r rest hq h58] at h
          exact absurd h (by simp)
    · by_cases h58 : q.head? = some 58
      · obtain ⟨p, hp⟩ : ∃ p, q = 58 :: p := by
          cases q with
          | nil => simp at h58
          | cons c t => exact ⟨t, by simp at h58; rw [h58]⟩
        subst hp
        rw [bytesToIrcMessage_source buffer p rest hq] at h
        exact absurd h (by simp)
      · rw [bytesToIrcMessage_plain buffer q rest hq h64 h58] at h
        exact absurd h (by simp)
  · rintro ⟨g, rfl, hg⟩
    have h : (32 : UInt8) ∉ 64 :: g := by
      intro hm
      rcases List.mem_cons.1 hm with e | e
      · exact absurd e (by decide)
      · exact hg e
    exact bytesToIrcMessage_tags_only _ g (bytesSplit_of_not_mem 32 _ h)

/-- On every line that is not a tag section alone, the event is built by the
constructor of the command that the table gives for the command piece, and it
is the raw message with command UNKNOWN when the command piece is missing or is
not in the table. -/
theorem bytesToIrcMessage_classifies (buffer : Bytes)
    (h : ¬ ∃ g, buffer = 64 :: g ∧ 32 ∉ g) :
    ∃ ev, bytesToIrcMessage buffer = some ev ∧
      ev = newIrcMessage ev.rawOf ∧
      ev.rawOf.RawCommand =
        (match commandPieces (bytesSplit 32 buffer) with
          | [] => MessageCommand.UNKNOWN
          | cmd :: _ => MessageCommandLookup cmd) ∧
      ev.kind = ev.rawOf.RawCommand := by
  obtain ⟨q, rest, hq⟩ := List.exists_cons_of_ne_nil (bytesSplit_ne_nil 32 buffer)
  have key : ∀ rawMsg : RawIrcMessage, ∀ cp : List Bytes,
      rawMsg.RawCommand = MessageCommand.UNKNOWN →
      bytesToIrcMessage buffer = some (newIrcMessage (withCommand rawMsg cp)) →
      commandPieces (bytesSplit 32 buffer) = cp →
      ∃ ev, bytesToIrcMessage buffer = some ev ∧
        ev = newIrcMessage ev.rawOf ∧
        ev.rawOf.RawCommand =
          (match commandPieces (bytesSplit 32 buffer) with
            | [] => MessageCommand.UNKNOWN
            | cmd :: _ => MessageCommandLookup cmd) ∧
        ev.kind = ev.rawOf.RawCommand := by
    intro rawMsg cp hu hb hcp
    refine ⟨_, hb, ?_, ?_, ?_⟩
    · rw [newIrcMessage_rawOf]
    · rw [newIrcMessage_rawOf, hcp, withCommand_RawCommand rawMsg cp hu]
    · rw [newIrcMessage_kind, newIrcMessage_rawOf]
  by_cases h64 : q.head? = some 64
  · obtain ⟨g, hg⟩ : ∃ g, q = 64 :: g := by
      cases q with
      | nil => simp at h64
      | cons c t => exact ⟨t, by simp at h64; rw [h64]⟩
    subst hg
    cases rest with
    | nil =>
      exfalso
      obtain ⟨e, hn⟩ := bytesSplit_eq_singleton 32 buffer _ hq
      exact h ⟨g, e, fun hm => hn (by rw [e]; exact List.mem_cons_of_mem _ hm)⟩
    | cons r rest =>
      by_cases h58 : r.head? = some 58
      · obtain ⟨p, hp⟩ : ∃ p, r = 58 :: p := by
          cases r with
          | nil => simp at h58
          | cons c t => exact ⟨t, by simp at h58; rw [h58]⟩
        subst hp
        exact key _ rest (by simp [emptyRaw]) (bytesToIrcMessage_tags_source buffer g p rest hq)
          (by rw [hq]; rfl)
      · refine key _ (r :: rest) (by simp [emptyRaw])
          (bytesToIrcMessage_tags_plain buffer g r rest hq h58) ?_
        rw [hq]
        cases r with
        | nil => rfl
        | cons c t =>
          have hc : c ≠ 58 := by simpa using h58
          simp [commandPieces, hc]
  · by_cases h58 : q.head? = some 58
    · obtain ⟨p, hp⟩ : ∃ p, q = 58 :: p := by
        cases q with
        | nil => simp at h58
        | cons c t => exact ⟨t, by simp at h58; rw [h58]⟩
      subst hp
      exact key _ rest (by simp [emptyRaw]) (bytesToIrcMessage_source buffer p rest hq)
        (by rw [hq]; rfl)
    · refine key _ (q :: rest) (by simp [emptyRaw])
        (bytesToIrcMessage_plain buffer q rest hq h64 h58) ?_
      rw [hq]
      cases q with
      | nil => rfl
      | cons c t =>
        have hc : c ≠ 58 := by simpa using h58
        have hc2 : c ≠ 64 := by simpa using h64
        simp [commandPieces, hc, hc2]

theorem bytesToIrcMessage_classifies_witness :
    (¬ ∃ g, ascii "PING :tmi.twitch.tv" = 64 :: g ∧ 32 ∉ g) ∧
    ∃ ev, bytesToIrcMessage (ascii "PING :tmi.twitch.tv") = some ev ∧
      ev = newIrcMessage ev.rawOf ∧
      ev.rawOf.RawCommand =
        (match commandPieces (bytesSplit 32 (ascii "PING :tmi.twitch.tv")) with
          | [] => MessageCommand.UNKNOWN
          | cmd :: _ => MessageCommandLookup cmd) ∧
      ev.kind = ev.rawOf.RawCommand :=
  have hline : ¬ ∃ g, ascii "PING :tmi.twitch.tv" = 64 :: g ∧ 32 ∉ g := by
    rintro ⟨g, hg, _⟩
    have h1 : (ascii "PING :tmi.twitch.tv").head? = some 64 := by
      rw [hg]
      rfl
    exact absurd h1 (by decide)
  ⟨hline, bytesToIrcMessage_classifies _ hline⟩

theorem privMsg_of_pieces (rawMsg : RawIrcMessage) (c t : Bytes) :
    ∃ m, newIrcMessage
        (withCommand rawMsg (ascii "PRIVMSG" :: (35 :: c) :: bytesSplit 32 (58 :: t))) =
          IrcMessage.privMsg m ∧ m.Channel = c ∧ m.Message = t := by
  obtain ⟨t0, ts, ht⟩ := List.exists_cons_of_ne_nil (bytesSplit_ne_nil 32 t)
  have h58 : bytesSplit 32 (58 :: t) = (58 :: t0) :: ts :=
    bytesSplit_cons_ne 32 58 t t0 ts (by decide) ht
  have hcmd : MessageCommandLookup (ascii "PRIVMSG") = MessageCommand.PRIVMSG := by decide
  have hjoin : bytesJoin (t0 :: ts) [32] = t := by
    rw [← ht]
    exact bytesJoin_bytesSplit 32 t
  refine ⟨newPrivMsgMsg
    (withCommand rawMsg (ascii "PRIVMSG" :: (35 :: c) :: bytesSplit 32 (58 :: t))), ?_, ?_, ?_⟩
  · simp [newIrcMessage, withCommand, hcmd]
  · simp [newPrivMsgMsg, withCommand, getChannel]
  · simp [newPrivMsgMsg, withCommand, messageText, h58, bytesJoin_cons_cons, hjoin]

theorem bytesSplit_privmsg_body (c t : Bytes) (hc : 32 ∉ c) :
    bytesSplit 32 (ascii "PRIVMSG" ++ [32, 35] ++ c ++ [32, 58] ++ t) =
      ascii "PRIVMSG" :: (35 :: c) :: bytesSplit 32 (58 :: t) := by
  have e : ascii "PRIVMSG" ++ [32, 35] ++ c ++ [32, 58] ++ t =
      ascii "PRIVMSG" ++ 32 :: ((35 :: c) ++ 32 :: (58 :: t)) := by simp
  have h1 : (32 : UInt8) ∉ ascii "PRIVMSG" := by decide
  have h2 : (32 : UInt8) ∉ 35 :: c := by
    intro hm
    rcases List.mem_cons.1 hm with e1 | e1
    · exact absurd e1 (by decide)
    · exact hc e1
  rw [e, bytesSplit_append 32 _ _ h1, bytesSplit_append 32 _ _ h2]

theorem prefix_fields (rawMsg : RawIrcMessage) (p : Bytes) (rest : List Bytes)
    (hN : rawMsg.Nickname = []) (hU : rawMsg.User = []) (hH : rawMsg.Host = []) :
    (∀ h, List.splitOnP (fun b => b == 33 || b == 64) p = [h] →
      (withCommand (prefixSwitch rawMsg (regexpSplit p)) rest).Host = h ∧
      (withCommand (prefixSwitch rawMsg (regexpSplit p)) rest).Nickname = [] ∧
      (withCommand (prefixSwitch rawMsg (regexpSplit p)) rest).User = []) ∧
    (∀ n u h, List.splitOnP (fun b => b == 33 || b == 64) p = [n, u, h] →
      (withCommand (prefixSwitch rawMsg (regexpSplit p)) rest).Nickname = n ∧
      (withCommand (prefixSwitch rawMsg (regexpSplit p)) rest).User = u ∧
      (withCommand (prefixSwitch rawMsg (regexpSplit p)) rest).Host = h) ∧
    ((List.splitOnP (fun b => b == 33 || b == 64) p).length ≠ 1 →
      (List.splitOnP (fun b => b == 33 || b == 64) p).length ≠ 3 →
      (withCommand (prefixSwitch rawMsg (regexpSplit p)) rest).Nickname = [] ∧
      (withCommand (prefixSwitch rawMsg (regexpSplit p)) rest).User = [] ∧
      (withCommand (prefixSwitch rawMsg (regexpSplit p)) rest).Host = []) := by
  rw [← regexpSplit_eq_splitOnP]
  have e : ∀ x : RawIrcMessage, (withCommand x rest).Host = x.Host ∧
      (withCommand x rest).Nickname = x.Nickname ∧ (withCommand x rest).User = x.User := by
    intro x
    cases rest <;> exact ⟨rfl, rfl, rfl⟩
  refine ⟨?_, ?_, ?_⟩
  · intro h hs
    rw [hs, (e _).1, (e _).2.1, (e _).2.2]
    exact ⟨rfl, hN, hU⟩
  · intro n u h hs
    rw [hs, (e _).1, (e _).2.1, (e _).2.2]
    exact ⟨rfl, rfl, rfl⟩
  · intro h1 h3
    rw [(e _).1, (e _).2.1, (e _).2.2]
    have hsw : prefixSwitch rawMsg (regexpSplit p) = rawMsg := by
      unfold prefixSwitch
      split
      · rename_i heq
        rw [heq] at h1
        exact absurd rfl h1
      · rename_i heq
        rw [heq] at h3
        exact absurd rfl h3
      · rfl
    rw [hsw]
    exact ⟨hN, hU, hH⟩

theorem bytesSplit_source_tail (p : Bytes) (tail : Option Bytes) (hp : 32 ∉ p) :
    bytesSplit 32 (58 :: p ++ tailSection tail) = (58 :: p) :: tailPieces tail := by
  have h : (32 : UInt8) ∉ 58 :: p := by
    intro hm
    rcases List.mem_cons.1 hm with e | e
    · exact absurd e (by decide)
    · exact hp e
  cases tail with
  | none =>
    simp only [tailSection, List.append_nil]
    exact bytesSplit_of_not_mem 32 _ h
  | some r =>
    simp only [tailSection]
    exact bytesSplit_append 32 (58 :: p) r h

theorem command_of_tail (rawMsg : RawIrcMessage) (tail : Option Bytes)
    (h : rawMsg.RawCommand = MessageCommand.UNKNOWN) :
    (withCommand rawMsg (tailPieces tail)).RawCommand =
      (match tail with
        | none => MessageCommand.UNKNOWN
        | some r => MessageCommandLookup (r.takeWhile (fun b => b != 32))) := by
  cases tail with
  | none => exact h
  | some r =>
    have hh := head_bytesSplit 32 r
    obtain ⟨q, qs, hq⟩ := List.exists_cons_of_ne_nil (bytesSplit_ne_nil 32 r)
    rw [hq] at hh
    simp only [List.head?_cons, Option.some.injEq] at hh
    simp only [tailPieces, hq, withCommand, hh]

/-! ## Lemmas on the tag map -/

theorem mapSet_of_not_mem (m : TagMap) (k v : Bytes) (h : k ∉ m.map Prod.fst) :
    mapSet m k v = m ++ [(k, v)] := by
  induction m with
  | nil => rfl
  | cons e rest ih =>
    obtain ⟨k1, v1⟩ := e
    have h1 : k1 ≠ k := fun e1 => h (by simp [e1])
    have h2 : k ∉ rest.map Prod.fst := fun e2 => h (by simp [e2])
    simp [mapSet, h1, ih h2]

theorem foldl_mapSet_nodup (l m : TagMap) (h : (m.map Prod.fst ++ l.map Prod.fst).Nodup) :
    l.foldl (fun acc kv => mapSet acc kv.1 kv.2) m = m ++ l := by
  induction l generalizing m with
  | nil => simp
  | cons e rest ih =>
    obtain ⟨k, v⟩ := e
    have hk : k ∉ m.map Prod.fst := by
      intro hm
      have := List.nodup_append.1 h
      exact this.2.2 hm (by simp)
    simp only [List.foldl_cons]
    rw [mapSet_of_not_mem m k v hk, ih (m ++ [(k, v)]) (by simpa using h)]
    simp

theorem mapGet_none_of_not_mem (m : TagMap) (k : Bytes) (h : k ∉ m.map Prod.fst) :
    mapGet m k = none := by
  induction m with
  | nil => rfl
  | cons e rest ih =>
    obtain ⟨k1, v1⟩ := e
    have h1 : k1 ≠ k := fun e1 => h (by simp [e1])
    have h2 : k ∉ rest.map Prod.fst := fun e2 => h (by simp [e2])
    simp [mapGet, h1, ih h2]

theorem mapGet_iff_mem (m : TagMap) (hm : (m.map Prod.fst).Nodup) (k v : Bytes) :
    mapGet m k = some v ↔ (k, v) ∈ m := by
  induction m with
  | nil => simp [mapGet]
  | cons e rest ih =>
    obtain ⟨k1, v1⟩ := e
    have hn : k1 ∉ rest.map Prod.fst ∧ (rest.map Prod.fst).Nodup :=
      List.nodup_cons.1 hm
    by_cases h1 : k1 = k
    · subst h1
      simp only [mapGet, if_true, Option.some.injEq, List.mem_cons, Prod.mk.injEq, true_and]
      constructor
      · intro e1
        exact Or.inl e1.symm
      · rintro (e1 | e1)
        · exact e1.symm
        · exact absurd (List.mem_map_of_mem Prod.fst e1) hn.1
    · simp only [mapGet, if_neg h1, List.mem_cons, Prod.mk.injEq]
      rw [ih hn.2]
      constructor
      · exact Or.inr
      · rintro (⟨e1, _⟩ | e1)
        · exact absurd e1.symm h1
        · exact e1

theorem tagLoop_entries (entries : List TagEntry) (m : TagMap)
    (hvalid : ∀ e ∈ entries, e.valid) :
    tagLoop (entries.map TagEntry.text) m =
      (entries.filterMap TagEntry.pair).foldl (fun acc kv => mapSet acc kv.1 kv.2) m := by
  induction entries generalizing m with
  | nil => rfl
  | cons e rest ih =>
    have hrest : ∀ x ∈ rest, x.valid := fun x hx => hvalid x (by simp [hx])
    have he := hvalid e (by simp)
    cases e with
    | keyValue k v =>
      unfold TagEntry.valid at he
      have hs : bytesSplit 61 (k ++ 61 :: v) = [k, v] := by
        rw [bytesSplit_append 61 k v he.1, bytesSplit_of_not_mem 61 v he.2.2.2.1]
      simp only [List.map_cons, TagEntry.text, tagLoop, hs, List.filterMap_cons, TagEntry.pair,
        List.foldl_cons]
      exact ih _ hrest
    | malformed t =>
      unfold TagEntry.valid at he
      have hs : bytesSplit 61 t = [t] := bytesSplit_of_not_mem 61 t he.1
      simp only [List.map_cons, TagEntry.text, tagLoop, hs, List.filterMap_cons, TagEntry.pair]
      exact ih _ hrest

theorem mem_bytesJoin (ls : List Bytes) (sep : Bytes) (x : UInt8) (h : x ∈ bytesJoin ls sep) :
    x ∈ sep ∨ ∃ l ∈ ls, x ∈ l := by
  induction ls with
  | nil => simp [bytesJoin] at h
  | cons a t ih =>
    cases t with
    | nil =>
      simp only [bytesJoin] at h
      exact Or.inr ⟨a, by simp, h⟩
    | cons b r =>
      simp only [bytesJoin, List.mem_append] at h
      rcases h with (h | h) | h
      · exact Or.inr ⟨a, by simp, h⟩
      · exact Or.inl h
      · rcases ih h with h1 | ⟨l, hl, hx⟩
        · exact Or.inl h1
        · exact Or.inr ⟨l, List.mem_cons_of_mem _ hl, hx⟩

theorem TagEntry.text_clean (e : TagEntry) (h : e.valid) :
    59 ∉ e.text ∧ 32 ∉ e.text := by
  cases e with
  | keyValue k v =>
    unfold TagEntry.valid at h
    simp only [TagEntry.text, List.mem_append, List.mem_cons]
    refine ⟨?_, ?_⟩
    · rintro (h1 | h1 | h1)
      · exact h.2.1 h1
      · exact absurd h1 (by decide)
      · exact h.2.2.2.2.1 h1
    · rintro (h1 | h1 | h1)
      · exact h.2.2.1 h1
      · exact absurd h1 (by decide)
      · exact h.2.2.2.2.2 h1
  | malformed t =>
    unfold TagEntry.valid at h
    exact ⟨h.2.1, h.2.2⟩

theorem tagLoop_tag_section (entries : List TagEntry) (hvalid : ∀ e ∈ entries, e.valid)
    (hkeys : ((entries.filterMap TagEntry.pair).map Prod.fst).Nodup) :
    tagLoop (bytesSplit 59 (List.intercalate [59] (entries.map TagEntry.text))) [] =
      entries.filterMap TagEntry.pair := by
  by_cases hne : entries = []
  · subst hne
    rfl
  · have hs : bytesSplit 59 (List.intercalate [59] (entries.map TagEntry.text)) =
        entries.map TagEntry.text := by
      have hclean : ∀ l ∈ entries.map TagEntry.text, (59 : UInt8) ∉ l := by
        intro l hl
        obtain ⟨e, he, rfl⟩ := List.mem_map.1 hl
        exact (TagEntry.text_clean e (hvalid e he)).1
      have hmap : entries.map TagEntry.text ≠ [] := by simpa using hne
      rw [bytesSplit_eq_splitOn]
      exact List.splitOn_intercalate (entries.map TagEntry.text) 59 hclean hmap
    rw [hs, tagLoop_entries entries [] hvalid, foldl_mapSet_nodup _ [] (by simpa using hkeys)]
    simp

theorem tags_of_line (g rest : Bytes) (hg : 32 ∉ g) :
    ∃ ev, bytesToIrcMessage (64 :: g ++ 32 :: rest) = some ev ∧
      ev.rawOf.RawTags = tagLoop (bytesSplit 59 g) [] := by
  have h : (32 : UInt8) ∉ 64 :: g := by
    intro hm
    rcases List.mem_cons.1 hm with e | e
    · exact absurd e (by decide)
    · exact hg e
  have hsplit : bytesSplit 32 (64 :: g ++ 32 :: rest) = (64 :: g) :: bytesSplit 32 rest :=
    bytesSplit_append 32 (64 :: g) rest h
  obtain ⟨q, qs, hq⟩ := List.exists_cons_of_ne_nil (bytesSplit_ne_nil 32 rest)
  rw [hq] at hsplit
  by_cases h58 : q.head? = some 58
  · obtain ⟨p, hp⟩ : ∃ p, q = 58 :: p := by
      cases q with
      | nil => simp at h58
      | cons c t => exact ⟨t, by simp at h58; rw [h58]⟩
    subst hp
    refine ⟨_, bytesToIrcMessage_tags_source _ g p qs hsplit, ?_⟩
    rw [newIrcMessage_rawOf]
    simp
  · refine ⟨_, bytesToIrcMessage_tags_plain _ g q qs hsplit h58, ?_⟩
    rw [newIrcMessage_rawOf]
    simp

theorem mem_filterMap_pair (entries : List TagEntry) (k v : Bytes) :
    (k, v) ∈ entries.filterMap TagEntry.pair ↔ TagEntry.keyValue k v ∈ entries := by
  rw [List.mem_filterMap]
  constructor
  · rintro ⟨e, he, hp⟩
    cases e with
    | keyValue k1 v1 =>
      simp only [TagEntry.pair, Option.some.injEq, Prod.mk.injEq] at hp
      rw [← hp.1, ← hp.2]
      exact he
    | malformed t => simp [TagEntry.pair] at hp
  · intro h
    exact ⟨_, h, rfl⟩

theorem length_filterMap_pair (entries : List TagEntry)
    (h : ∀ e ∈ entries, e.pair ≠ none) :
    (entries.filterMap TagEntry.pair).length = entries.length := by
  induction entries with
  | nil => rfl
  | cons e rest ih =>
    have hrest : ∀ x ∈ rest, x.pair ≠ none := fun x hx => h x (by simp [hx])
    cases e with
    | keyValue k v => simp [TagEntry.pair, ih hrest]
    | malformed t => exact absurd rfl (h (TagEntry.malformed t) (by simp))

/-! ## Lemmas on whole lines -/

theorem bytesSplit_paramSection (a : Bytes) (params : List Bytes) (ha : 32 ∉ a)
    (hparams : ∀ p ∈ params, 32 ∉ p) :
    bytesSplit 32 (a ++ paramSection params) = a :: params := by
  induction params generalizing a with
  | nil =>
    simp only [paramSection, List.map_nil, List.flatten_nil, List.append_nil]
    exact bytesSplit_of_not_mem 32 a ha
  | cons p ps ih =>
    have hp : (32 : UInt8) ∉ p := hparams p (by simp)
    have hps : ∀ q ∈ ps, (32 : UInt8) ∉ q := fun q hq => hparams q (by simp [hq])
    have e : a ++ paramSection (p :: ps) = a ++ 32 :: (p ++ paramSection ps) := by
      simp [paramSection]
    rw [e, bytesSplit_append 32 a _ ha, ih p hp hps]

theorem bytesToIrcMessage_line (tags source : Option Bytes) (cmd : Bytes) (params : List Bytes)
    (htags : ∀ g, tags = some g → 32 ∉ g) (hsrc : ∀ p, source = some p → 32 ∉ p)
    (hcmd : 32 ∉ cmd) (h64 : cmd.head? ≠ some 64) (h58 : cmd.head? ≠ some 58)
    (hparams : ∀ p ∈ params, 32 ∉ p) :
    bytesToIrcMessage (inboundLine tags source cmd params) =
      some (newIrcMessage (lineRaw tags source cmd params)) := by
  have hsplit := bytesSplit_tagSection tags
    (sourceSection source ++ (cmd ++ paramSection params)) htags
  rw [bytesSplit_sourceSection source _ hsrc, bytesSplit_paramSection cmd params hcmd hparams]
    at hsplit
  cases tags with
  | none =>
    cases source with
    | none => exact bytesToIrcMessage_plain _ _ _ hsplit h64 h58
    | some p => exact bytesToIrcMessage_source _ p _ hsplit
  | some g =>
    cases source with
    | none => exact bytesToIrcMessage_tags_plain _ g _ _ hsplit h58
    | some p => exact bytesToIrcMessage_tags_source _ g p _ hsplit

@[simp] theorem withSource_RawTags (rawMsg : RawIrcMessage) (source : Option Bytes) :
    (withSource rawMsg source).RawTags = rawMsg.RawTags := by
  cases source <;> simp [withSource]

@[simp] theorem lineRaw_RawTags (tags source : Option Bytes) (cmd : Bytes)
    (params : List Bytes) : (lineRaw tags source cmd params).RawTags = lineTags tags := by
  simp [lineRaw]

@[simp] theorem lineRaw_RawParams (tags source : Option Bytes) (cmd : Bytes)
    (params : List Bytes) : (lineRaw tags source cmd params).RawParams = params := rfl

@[simp] theorem lineRaw_RawCommand (tags source : Option Bytes) (cmd : Bytes)
    (params : List Bytes) :
    (lineRaw tags source cmd params).RawCommand = MessageCommandLookup cmd := rfl

theorem parseUintLoop_shape (M : Nat) (s : Bytes) (n : Nat) :
    (parseUintLoop M s n).2 = none ∨
      parseUintLoop M s n = (0, some NumError.ErrSyntax) ∨
      parseUintLoop M s n = (M, some NumError.ErrRange) := by
  induction s generalizing n with
  | nil => exact Or.inl rfl
  | cons c cs ih =>
    unfold parseUintLoop
    split
    · exact Or.inr (Or.inl rfl)
    · dsimp only
      split_ifs
      · exact Or.inr (Or.inl rfl)
      · exact Or.inr (Or.inr rfl)
      · exact Or.inr (Or.inr rfl)
      · exact ih _

theorem ParseUint_shape (s : Bytes) (bitSize : Nat) :
    (ParseUint s bitSize).2 = none ∨
      ParseUint s bitSize = (0, some NumError.ErrSyntax) ∨
      ParseUint s bitSize = (2 ^ bitSize - 1, some NumError.ErrRange) := by
  unfold ParseUint
  split
  · exact Or.inr (Or.inl rfl)
  · exact parseUintLoop_shape _ s 0

theorem ParseUint_32_spec (s : Bytes) :
    ParseUint s 32 = (specUint32 s, none) ∨
      ((ParseUint s 32).2 ≠ none ∧ specUint32 s = 0) := by
  by_cases hne : s = []
  · subst hne
    exact Or.inr ⟨by simp [ParseUint], by simp [specUint32]⟩
  · by_cases hd : ∀ c ∈ s, isDigit c
    · by_cases hlt : decimalValue s < 2 ^ 32
      · left
        rw [ParseUint_32_ok s hne hd hlt]
        unfold specUint32
        rw [if_pos ⟨hne, hd, hlt⟩]
      · right
        rw [ParseUint_32_range s hne hd (by omega)]
        refine ⟨by simp, ?_⟩
        unfold specUint32
        rw [if_neg (fun h => hlt h.2.2)]
    · right
      have hx : ∃ c ∈ s, ¬ isDigit c := by
        push_neg at hd
        exact hd
      refine ⟨ParseUint_not_digit s 32 hx, ?_⟩
      unfold specUint32
      rw [if_neg (fun h => hd h.2.1)]

theorem getUintFromTags_eq_spec (tags : TagMap) (key : Bytes) :
    getUintFromTags tags key = specUint32 (getStringFromTags tags key) := by
  unfold getUintFromTags
  dsimp only
  by_cases hne : getStringFromTags tags key = []
  · rw [if_neg (by simp [hne]), hne]
    simp [specUint32]
  · rw [if_pos hne]
    rcases ParseUint_32_spec (getStringFromTags tags key) with h | ⟨h, h0⟩
    · rw [h]
    · rw [h0]
      split
      · rename_i num heq
        rw [heq] at h
        exact absurd rfl h
      · rfl

theorem ParseUint_64_valid (s : Bytes) (hne : s ≠ []) (hs : ∀ c ∈ s, isDigit c) :
    ParseUint s 64 =
      if decimalValue s ≤ 18446744073709551615 then (decimalValue s, none)
      else (18446744073709551615, some NumError.ErrRange) := by
  unfold ParseUint decimalValue
  rw [if_neg hne, parseUintLoop_digits _ (by norm_num) s hs 0 (by norm_num)]
  norm_num

theorem ParseUint_64_invalid (s : Bytes) (h : ¬ (s ≠ [] ∧ ∀ c ∈ s, isDigit c)) :
    ParseUint s 64 = (0, some NumError.ErrSyntax) ∨
      ParseUint s 64 = (18446744073709551615, some NumError.ErrRange) := by
  have herr : (ParseUint s 64).2 ≠ none := by
    by_cases hne : s = []
    · subst hne
      simp [ParseUint]
    · have hx : ∃ c ∈ s, ¬ isDigit c := by
        by_contra hcon
        push_neg at hcon
        exact h ⟨hne, hcon⟩
      exact ParseUint_not_digit s 64 hx
  rcases ParseUint_shape s 64 with h1 | h1 | h1
  · exact absurd h1 herr
  · exact Or.inl h1
  · right
    rw [h1]
    norm_num

theorem signedResult_pos_ok (n : Nat) (h : n < 2147483648) :
    signedResult false (n, none) 32 = ((n : Int), none) := by
  simp [signedResult, h]

theorem signedResult_neg_ok (n : Nat) (h : n ≤ 2147483648) :
    signedResult true (n, none) 32 = (-(n : Int), none) := by
  simp [signedResult, h]

theorem signedResult_pos_range (n : Nat) (e : Option NumError) (h : 2147483648 ≤ n) :
    (signedResult false (n, e) 32).2 ≠ none := by
  have h1 : n ≥ 2 ^ (32 - 1) := by
    norm_num
    omega
  unfold signedResult
  split_ifs <;> simp_all

theorem signedResult_neg_range (n : Nat) (e : Option NumError) (h : 2147483648 < n) :
    (signedResult true (n, e) 32).2 ≠ none := by
  have h1 : n > 2 ^ (32 - 1) := by
    norm_num
    omega
  unfold signedResult
  split_ifs <;> simp_all

theorem signedResult_syntax (neg : Bool) (n : Nat) :
    (signedResult neg (n, some NumError.ErrSyntax) 32).2 ≠ none := by
  simp [signedResult]

theorem specSigned_pos (digits : Bytes) (hv : digits ≠ [] ∧ ∀ c ∈ digits, isDigit c) :
    specSigned false digits =
      if decimalValue digits < 2147483648 then (decimalValue digits : Int) else 0 := by
  unfold specSigned
  rw [if_pos hv]
  simp only [Bool.false_eq_true, if_false]
  by_cases h : decimalValue digits < 2147483648
  · have h2 : -(2 : Int) ^ 31 ≤ (decimalValue digits : Int) ∧
        (decimalValue digits : Int) < (2 : Int) ^ 31 := by
      constructor <;> norm_num <;> omega
    rw [if_pos h2, if_pos h]
  · have h2 : ¬ (-(2 : Int) ^ 31 ≤ (decimalValue digits : Int) ∧
        (decimalValue digits : Int) < (2 : Int) ^ 31) := by
      rintro ⟨_, h3⟩
      norm_num at h3
      omega
    rw [if_neg h2, if_neg h]

theorem specSigned_neg (digits : Bytes) (hv : digits ≠ [] ∧ ∀ c ∈ digits, isDigit c) :
    specSigned true digits =
      if decimalValue digits ≤ 2147483648 then -(decimalValue digits : Int) else 0 := by
  unfold specSigned
  rw [if_pos hv]
  simp only [if_true]
  by_cases h : decimalValue digits ≤ 2147483648
  · have h2 : -(2 : Int) ^ 31 ≤ -(decimalValue digits : Int) ∧
        -(decimalValue digits : Int) < (2 : Int) ^ 31 := by
      constructor <;> norm_num <;> omega
    rw [if_pos h2, if_pos h]
  · have h2 : ¬ (-(2 : Int) ^ 31 ≤ -(decimalValue digits : Int) ∧
        -(decimalValue digits : Int) < (2 : Int) ^ 31) := by
      rintro ⟨h3, _⟩
      norm_num at h3
      omega
    rw [if_neg h2, if_neg h]

theorem signedResult_spec (neg : Bool) (digits : Bytes) :
    signedResult neg (ParseUint digits 64) 32 = (specSigned neg digits, none) ∨
      ((signedResult neg (ParseUint digits 64) 32).2 ≠ none ∧ specSigned neg digits = 0) := by
  by_cases hv : digits ≠ [] ∧ ∀ c ∈ digits, isDigit c
  · rw [ParseUint_64_valid digits hv.1 hv.2]
    by_cases hmax : decimalValue digits ≤ 18446744073709551615
    · rw [if_pos hmax]
      cases neg with
      | false =>
        rw [specSigned_pos digits hv]
        by_cases hr : decimalValue digits < 2147483648
        · left
          rw [signedResult_pos_ok _ hr, if_pos hr]
        · right
          rw [if_neg hr]
          exact ⟨signedResult_pos_range _ _ (by omega), rfl⟩
      | true =>
        rw [specSigned_neg digits hv]
        by_cases hr : decimalValue digits ≤ 2147483648
        · left
          rw [signedResult_neg_ok _ hr, if_pos hr]
        · right
          rw [if_neg hr]
          exact ⟨signedResult_neg_range _ _ (by omega), rfl⟩
    · rw [if_neg hmax]
      right
      cases neg with
      | false =>
        rw [specSigned_pos digits hv, if_neg (by omega)]
        exact ⟨signedResult_pos_range _ _ (by omega), rfl⟩
      | true =>
        rw [specSigned_neg digits hv, if_neg (by omega)]
        exact ⟨signedResult_neg_range _ _ (by omega), rfl⟩
  · right
    refine ⟨?_, by unfold specSigned; rw [if_neg hv]⟩
    rcases ParseUint_64_invalid digits hv with h1 | h1
    · rw [h1]
      exact signedResult_syntax neg 0
    · rw [h1]
      cases neg with
      | false => exact signedResult_pos_range _ _ (by omega)
      | true => exact signedResult_neg_range _ _ (by omega)

theorem ParseInt_cons (c : UInt8) (cs : Bytes) (bitSize : Nat) :
    ParseInt (c :: cs) bitSize =
      signedResult (decide (c = 45))
        (ParseUint (if c = 43 then cs else if c = 45 then cs else c :: cs) 64) bitSize := by
  rfl

theorem specInt32_cons (c : UInt8) (cs : Bytes) :
    specInt32 (c :: cs) =
      specSigned (decide (c = 45)) (if c = 43 then cs else if c = 45 then cs else c :: cs) := by
  unfold specInt32 specSigned
  by_cases h43 : c = 43
  · subst h43
    simp
  · by_cases h45 : c = 45
    · subst h45
      simp
    · simp [h43, h45]

theorem ParseInt_32_spec (s : Bytes) :
    ParseInt s 32 = (specInt32 s, none) ∨ ((ParseInt s 32).2 ≠ none ∧ specInt32 s = 0) := by
  cases s with
  | nil => exact Or.inr ⟨by simp [ParseInt], by simp [specInt32]⟩
  | cons c cs =>
    rw [ParseInt_cons, specInt32_cons]
    exact signedResult_spec _ _

theorem getIntFromTags_eq_spec (tags : TagMap) (key : Bytes) :
    getIntFromTags tags key = specInt32 (getStringFromTags tags key) := by
  unfold getIntFromTags
  dsimp only
  by_cases hne : getStringFromTags tags key = []
  · rw [if_neg (by simp [hne]), hne]
    simp [specInt32]
  · rw [if_pos hne]
    rcases ParseInt_32_spec (getStringFromTags tags key) with h | ⟨h, h0⟩
    · rw [h]
    · rw [h0]
      split
      · rename_i num heq
        rw [heq] at h
        exact absurd rfl h
      · rfl

/-! ## Lemmas on the constructors -/

theorem getStringFromTags_eq_getD (tags : TagMap) (key : Bytes) :
    getStringFromTags tags key = (mapGet tags key).getD [] := by
  unfold getStringFromTags
  cases mapGet tags key <;> rfl

theorem newClearChatMsg_fields (rawMsg : RawIrcMessage) :
    (newClearChatMsg rawMsg).RawIrcMessage = rawMsg ∧
    (newClearChatMsg rawMsg).BanDuration =
      getUintFromTags rawMsg.RawTags (ascii "ban-duration") ∧
    (newClearChatMsg rawMsg).Channel = getChannel rawMsg.RawParams := by
  unfold newClearChatMsg
  split
  · split <;> exact ⟨rfl, rfl, rfl⟩
  · exact ⟨rfl, rfl, rfl⟩

theorem newClearChatMsg_User_some (rawMsg : RawIrcMessage) (p0 u : Bytes) (rest : List Bytes)
    (h : rawMsg.RawParams = p0 :: (58 :: u) :: rest) : (newClearChatMsg rawMsg).User = u := by
  unfold newClearChatMsg
  rw [h]
  simp

theorem newClearChatMsg_User_none (rawMsg : RawIrcMessage)
    (h : rawMsg.RawParams.length < 2) : (newClearChatMsg rawMsg).User = [] := by
  unfold newClearChatMsg
  split
  · rename_i heq
    rw [heq] at h
    simp only [List.length_cons] at h
    omega
  · rfl

theorem lineRaw_Host_one (tags source : Option Bytes) (cmd : Bytes) (params : List Bytes)
    (p h : Bytes) (hs : source = some p)
    (hp : List.splitOnP (fun b => b == 33 || b == 64) p = [h]) :
    (lineRaw tags source cmd params).Host = h := by
  subst hs
  exact ((prefix_fields _ p (cmd :: params) rfl rfl rfl).1 h hp).1

theorem lineRaw_Host_three (tags source : Option Bytes) (cmd : Bytes) (params : List Bytes)
    (p n u h : Bytes) (hs : source = some p)
    (hp : List.splitOnP (fun b => b == 33 || b == 64) p = [n, u, h]) :
    (lineRaw tags source cmd params).Host = h := by
  subst hs
  exact ((prefix_fields _ p (cmd :: params) rfl rfl rfl).2.1 n u h hp).2.2

theorem bytesTrimPrefix_eq_stripColon (s : Bytes) : bytesTrimPrefix s [58] = stripColon s := by
  cases s with
  | nil => rfl
  | cons c t =>
    by_cases hc : c = 58
    · subst hc
      simp [stripColon]
    · have hp : bytesHasPrefix (c :: t) [58] = false := by simp [hc]
      rw [bytesTrimPrefix_of_not _ _ hp]
      unfold stripColon
      split
      · rename_i heq
        simp at heq
        exact absurd heq.1 hc
      · rfl

theorem newHostTargetMsg_viewers (rawMsg : RawIrcMessage) (p0 p1 p2 : Bytes)
    (rest : List Bytes) (h : rawMsg.RawParams = p0 :: p1 :: p2 :: rest) :
    (newHostTargetMsg rawMsg).NumberOfViewers = specUint32 p2 := by
  unfold newHostTargetMsg
  rw [h]
  dsimp only
  rcases ParseUint_32_spec p2 with h1 | ⟨h1, h0⟩
  · rw [h1]
  · rw [h0]
    split
    · rename_i num heq
      rw [heq] at h1
      exact absurd rfl h1
    · rfl

theorem newHostTargetMsg_viewers_none (rawMsg : RawIrcMessage)
    (h : rawMsg.RawParams.length < 3) : (newHostTargetMsg rawMsg).NumberOfViewers = 0 := by
  unfold newHostTargetMsg
  dsimp only
  split
  · rename_i heq
    rw [heq] at h
    simp only [List.length_cons] at h
    omega
  · rfl

theorem newHostTargetMsg_target (rawMsg : RawIrcMessage) (p0 p1 : Bytes)
    (rest : List Bytes) (h : rawMsg.RawParams = p0 :: p1 :: rest) :
    (newHostTargetMsg rawMsg).TargetChannel = stripColon p1 := by
  unfold newHostTargetMsg
  rw [h]
  exact bytesTrimPrefix_eq_stripColon p1

theorem newHostTargetMsg_target_none (rawMsg : RawIrcMessage)
    (h : rawMsg.RawParams.length < 2) : (newHostTargetMsg rawMsg).TargetChannel = [] := by
  unfold newHostTargetMsg
  dsimp only
  split
  · rename_i heq
    rw [heq] at h
    simp only [List.length_cons] at h
    omega
  · rfl

theorem mapGet_append_cons_ne (front back : TagMap) (k v w key : Bytes) (h : k ≠ key) :
    mapGet (front ++ (k, v) :: back) key = mapGet (front ++ (k, w) :: back) key := by
  induction front with
  | nil => simp [mapGet, h]
  | cons e rest ih =>
    obtain ⟨k1, v1⟩ := e
    show mapGet ((k1, v1) :: (rest ++ (k, v) :: back)) key =
      mapGet ((k1, v1) :: (rest ++ (k, w) :: back)) key
    rw [mapGet, mapGet, ih]

theorem not_mem_tag_section (entries : List TagEntry) (hvalid : ∀ e ∈ entries, e.valid) :
    32 ∉ List.intercalate [59] (entries.map TagEntry.text) := by
  rw [← bytesJoin_eq_intercalate]
  intro hm
  rcases mem_bytesJoin _ _ _ hm with h1 | ⟨l, hl, hx⟩
  · exact absurd h1 (by decide)
  · obtain ⟨e, he, rfl⟩ := List.mem_map.1 hl
    exact (TagEntry.text_clean e (hvalid e he)).2 hx

theorem roomState_of_line (tags source : Option Bytes) (params : List Bytes)
    (htags : ∀ g, tags = some g → 32 ∉ g) (hsrc : ∀ p, source = some p → 32 ∉ p)
    (hparams : ∀ p ∈ params, 32 ∉ p) :
    bytesToIrcMessage (inboundLine tags source (ascii "ROOMSTATE") params) =
        some (IrcMessage.roomState
          (newRoomStateMsg (lineRaw tags source (ascii "ROOMSTATE") params))) ∧
      (newRoomStateMsg (lineRaw tags source (ascii "ROOMSTATE") params)).FollowersOnly =
        specInt32 ((mapGet (lineTags tags) (ascii "emote-only")).getD []) := by
  have hline := bytesToIrcMessage_line tags source (ascii "ROOMSTATE") params htags hsrc
    (by decide) (by decide) (by decide) hparams
  have hcmd : MessageCommandLookup (ascii "ROOMSTATE") = MessageCommand.ROOMSTATE := by decide
  refine ⟨?_, ?_⟩
  · rw [hline]
    simp [newIrcMessage, hcmd]
  · simp only [newRoomStateMsg, lineRaw_RawTags]
    rw [getIntFromTags_eq_spec, getStringFromTags_eq_getD]

theorem lineTags_entries (entries : List TagEntry) (hvalid : ∀ e ∈ entries, e.valid)
    (hkeys : ((entries.filterMap TagEntry.pair).map Prod.fst).Nodup) :
    lineTags (some (List.intercalate [59] (entries.map TagEntry.text))) =
      entries.filterMap TagEntry.pair :=
  tagLoop_tag_section entries hvalid hkeys

/-! ## Lemmas on the dispatch queue -/

theorem run_nil {ε : Type} (s : System ε) : run s [] = s := rfl

theorem run_cons {ε : Type} (s : System ε) (act : Action ε) (acts : List (Action ε)) :
    run s (act :: acts) = run (step s act) acts := rfl

theorem run_append {ε : Type} (s : System ε) (t1 t2 : List (Action ε)) :
    run s (t1 ++ t2) = run (run s t1) t2 := by
  simp [run, List.foldl_append]

theorem wake_calls {ε : Type} (s : System ε) (g : Goroutine) :
    (s.wake g).calls = s.calls ∧ (s.wake g).bucket = s.bucket := by
  cases g <;> simp only [System.wake] <;> split <;> exact ⟨rfl, rfl⟩

theorem signal_calls {ε : Type} (s : System ε) :
    s.signal.calls = s.calls ∧ s.signal.bucket = s.bucket := by
  unfold System.signal
  split
  · exact ⟨rfl, rfl⟩
  · exact wake_calls _ _

theorem wake_close_of_notCalled {ε : Type} (s : System ε) (g : Goroutine)
    (h : s.close = CloseAt.notCalled) : (s.wake g).close = CloseAt.notCalled := by
  cases g
  · simp only [System.wake]
    split <;> exact h
  · simp only [System.wake]
    split
    · rename_i heq
      rw [h] at heq
      exact absurd heq (by simp)
    · exact h

theorem signal_close_of_notCalled {ε : Type} (s : System ε)
    (h : s.close = CloseAt.notCalled) : s.signal.close = CloseAt.notCalled := by
  unfold System.signal
  split
  · exact h
  · exact wake_close_of_notCalled _ _ h

theorem AddEvent_of_closed {ε : Type} (s : System ε) (event : Event ε) (highPriority : Bool)
    (h : s.bucket.closed = true) : s.AddEvent event highPriority = s := by
  simp [System.AddEvent, Bucket.AddEvent, h]

theorem Close_of_closed {ε : Type} (s : System ε) (h : s.bucket.closed = true) :
    s.Close = s := by
  simp [System.Close, h]

theorem closeStuck_step {ε : Type} (s : System ε) (act : Action ε) (h : closeStuck s) :
    closeStuck (step s act) := by
  obtain ⟨hc, hp⟩ := h
  cases act with
  | addEvent event highPriority =>
    simp only [step]
    by_cases hcl : s.bucket.closed = true
    · rw [AddEvent_of_closed s event highPriority hcl]
      exact ⟨hc, hp⟩
    · have hn : s.close = CloseAt.notCalled := by
        rcases hp with h1 | ⟨_, h2⟩
        · exact h1
        · exact absurd h2 hcl
      simp only [System.AddEvent, Bucket.AddEvent, hcl, if_true, Bool.false_eq_true, if_false]
      refine ⟨?_, Or.inl (signal_close_of_notCalled _ hn)⟩
      rw [(signal_calls _).1]
      exact hc
  | close =>
    simp only [step]
    by_cases hcl : s.bucket.closed = true
    · rw [Close_of_closed s hcl]
      exact ⟨hc, hp⟩
    · simp only [System.Close, hcl, Bool.false_eq_true, if_false]
      refine ⟨?_, Or.inr ⟨rfl, ?_⟩⟩
      · rw [(signal_calls _).1]
        exact hc
      · rw [(signal_calls _).2]
  | drip limiterErr emitErr =>
    simp only [step, System.dripStep]
    split
    · split
      · exact ⟨hc, hp⟩
      · exact ⟨hc, hp⟩
      · refine ⟨hc, ?_⟩
        rename_i heq
        have hb : ∀ (b : Bucket ε) (e : Event ε) (b2 : Bucket ε),
            b.next = NextResult.event e b2 → b2.closed = b.closed := by
          intro b e b2 hn
          unfold Bucket.next at hn
          split at hn
          · exact absurd hn (by simp)
          · exact absurd hn (by simp)
          · simp only [NextResult.event.injEq] at hn
            rw [← hn.2]
        rcases hp with h1 | ⟨h1, h2⟩
        · exact Or.inl h1
        · exact Or.inr ⟨h1, by rw [hb _ _ _ heq]; exact h2⟩
    · exact ⟨hc, hp⟩
    · split
      · exact ⟨hc, hp⟩
      · split
        · refine ⟨?_, hp⟩
          simp only [List.mem_append, List.mem_singleton, not_or]
          exact ⟨hc, by simp⟩
        · refine ⟨?_, hp⟩
          simp only [List.mem_append, List.mem_cons, List.mem_singleton, List.not_mem_nil,
            not_or]
          exact ⟨hc, by simp, by simp, by simp⟩
    · exact ⟨hc, hp⟩
    · exact ⟨hc, hp⟩
    · exact ⟨hc, hp⟩
  | closeResume closeErr =>
    simp only [step, System.closeResume]
    split
    · rename_i heq
      rcases hp with h1 | ⟨h1, _⟩
      · rw [h1] at heq
        exact absurd heq (by simp)
      · rw [h1] at heq
        exact absurd heq (by simp)
    · exact ⟨hc, hp⟩

theorem closeStuck_run {ε : Type} (s : System ε) (acts : List (Action ε)) (h : closeStuck s) :
    closeStuck (run s acts) := by
  induction acts generalizing s with
  | nil => exact h
  | cons act rest ih => exact ih (step s act) (closeStuck_step s act h)

theorem dripStuck_step {ε : Type} (s : System ε) (act : Action ε) (h : dripStuck s) :
    dripStuck (step s act) := by
  obtain ⟨hcl, hev, hd⟩ := h
  cases act with
  | addEvent event highPriority =>
    simp only [step]
    rw [AddEvent_of_closed s event highPriority hcl]
    exact ⟨hcl, hev, hd⟩
  | close =>
    simp only [step]
    rw [Close_of_closed s hcl]
    exact ⟨hcl, hev, hd⟩
  | drip limiterErr emitErr =>
    simp only [step, System.dripStep]
    rcases hd with h1 | h1
    · rw [h1]
      simp only [Bucket.next, hev]
      exact ⟨hcl, hev, Or.inr rfl⟩
    · rw [h1]
      exact ⟨hcl, hev, Or.inr h1⟩
  | closeResume closeErr =>
    simp only [step, System.closeResume]
    split
    · exact ⟨hcl, hev, hd⟩
    · exact ⟨hcl, hev, hd⟩

theorem dripStuck_run {ε : Type} (s : System ε) (acts : List (Action ε)) (h : dripStuck s) :
    dripStuck (run s acts) := by
  induction acts generalizing s with
  | nil => exact h
  | cons act rest ih => exact ih (step s act) (dripStuck_step s act h)

/-! ## Lemmas on the order of events -/

theorem pair_sublist_left {ε : Type} (a b : ε) (x y : List ε) (h : List.Sublist [a, b] (x ++ y))
    (hb : b ∉ y) : List.Sublist [a, b] x := by
  obtain ⟨l1, l2, e, h1, h2⟩ := List.sublist_append_iff.1 h
  match l1, e with
  | [], e =>
    rw [List.nil_append] at e
    rw [← e] at h2
    exact absurd (h2.subset (by simp)) hb
  | [c], e =>
    simp only [List.singleton_append, List.cons.injEq] at e
    rw [← e.2] at h2
    exact absurd (h2.subset (by simp)) hb
  | c :: d :: r, e =>
    simp only [List.cons_append, List.cons.injEq] at e
    have hr : r ++ l2 = [] := e.2.2.symm
    have hr1 : r = [] := (List.append_eq_nil.1 hr).1
    rw [e.1, e.2.1]
    rw [hr1] at h1
    exact h1

theorem pair_sublist_right {ε : Type} (a b : ε) (x y : List ε) (h : List.Sublist [a, b] (x ++ y))
    (ha : a ∉ x) : List.Sublist [a, b] y := by
  obtain ⟨l1, l2, e, h1, h2⟩ := List.sublist_append_iff.1 h
  match l1, e with
  | [], e =>
    rw [List.nil_append] at e
    rw [e]
    exact h2
  | c :: r, e =>
    simp only [List.cons_append, List.cons.injEq] at e
    rw [← e.1] at h1
    exact absurd (h1.subset (by simp)) ha

theorem pair_sublist_remove {ε : Type} (a b e : ε) (x y : List ε)
    (h : List.Sublist [a, b] (x ++ e :: y)) (ha : e ≠ a) (hb : e ≠ b) :
    List.Sublist [a, b] (x ++ y) := by
  obtain ⟨l1, l2, eq, h1, h2⟩ := List.sublist_append_iff.1 h
  rcases List.sublist_cons_iff.1 h2 with h3 | ⟨r, hr, _⟩
  · rw [eq]
    exact List.Sublist.append h1 h3
  · have hm : e ∈ [a, b] := by
      rw [eq, hr]
      simp
    simp only [List.mem_cons, List.mem_singleton, List.not_mem_nil, or_false] at hm
    rcases hm with h4 | h4
    · exact absurd h4 ha
    · exact absurd h4 hb

theorem ordered_insert {ε : Type} [DecidableEq ε] (a b e : Event ε) (x y : List (Event ε))
    (h : Ordered a b (x ++ y)) (ha : e ≠ a) (hb : e ≠ b) : Ordered a b (x ++ e :: y) := by
  obtain ⟨c1, c2, ho⟩ := h
  refine ⟨?_, ?_, ?_⟩
  · rw [List.count_append, List.count_cons_of_ne (Ne.symm ha), ← List.count_append]
    exact c1
  · rw [List.count_append, List.count_cons_of_ne (Ne.symm hb), ← List.count_append]
    exact c2
  · intro h1 h2
    have h1b : a ∈ x ++ y := by
      rcases List.mem_append.1 h1 with h | h
      · exact List.mem_append.2 (Or.inl h)
      · rcases List.mem_cons.1 h with h | h
        · exact absurd h.symm ha
        · exact List.mem_append.2 (Or.inr h)
    have h2b : b ∈ x ++ y := by
      rcases List.mem_append.1 h2 with h | h
      · exact List.mem_append.2 (Or.inl h)
      · rcases List.mem_cons.1 h with h | h
        · exact absurd h.symm hb
        · exact List.mem_append.2 (Or.inr h)
    exact (ho h1b h2b).trans
      (List.Sublist.append (List.Sublist.refl x) (List.sublist_cons_self e y))

theorem ordered_remove {ε : Type} [DecidableEq ε] (a b e : Event ε) (x y : List (Event ε))
    (h : Ordered a b (x ++ e :: y)) : Ordered a b (x ++ y) := by
  obtain ⟨c1, c2, ho⟩ := h
  have hsub : List.Sublist (x ++ y) (x ++ e :: y) :=
    List.Sublist.append (List.Sublist.refl x) (List.sublist_cons_self e y)
  refine ⟨Nat.le_trans (hsub.count_le a) c1, Nat.le_trans (hsub.count_le b) c2, ?_⟩
  intro h1 h2
  have hea : e ≠ a := by
    intro he
    subst he
    have h3 : 1 ≤ (x ++ y).count e := List.one_le_count_iff.2 h1
    rw [List.count_append] at h3
    rw [List.count_append, List.count_cons_self] at c1
    omega
  have heb : e ≠ b := by
    intro he
    subst he
    have h3 : 1 ≤ (x ++ y).count e := List.one_le_count_iff.2 h2
    rw [List.count_append] at h3
    rw [List.count_append, List.count_cons_self] at c2
    omega
  exact pair_sublist_remove a b e x y (ho (hsub.subset h1) (hsub.subset h2)) hea heb

theorem emitted_of_calls {ε : Type} (s t : System ε) (h : t.calls = s.calls) :
    t.emitted = s.emitted := by
  unfold System.emitted
  rw [h]

theorem handled_eq {ε : Type} (s t : System ε) (hc : t.calls = s.calls)
    (hf : t.inFlight = s.inFlight) (hb : t.bucket.events = s.bucket.events) :
    t.handled = s.handled := by
  unfold System.handled
  rw [emitted_of_calls s t hc, hf, hb]

theorem wake_view {ε : Type} (s : System ε) (g : Goroutine) :
    (s.wake g).calls = s.calls ∧ (s.wake g).inFlight = s.inFlight ∧
      (s.wake g).bucket = s.bucket ∧ ((s.wake g).alive ↔ s.alive) := by
  cases g
  · simp only [System.wake]
    split
    · rename_i heq
      refine ⟨rfl, ?_, rfl, ?_⟩
      · simp [System.inFlight, heq]
      · simp [System.alive, heq]
    · exact ⟨rfl, rfl, rfl, Iff.rfl⟩
  · simp only [System.wake]
    split
    · exact ⟨rfl, rfl, rfl, Iff.rfl⟩
    · exact ⟨rfl, rfl, rfl, Iff.rfl⟩

theorem signal_view {ε : Type} (s : System ε) :
    s.signal.calls = s.calls ∧ s.signal.inFlight = s.inFlight ∧
      s.signal.bucket = s.bucket ∧ (s.signal.alive ↔ s.alive) := by
  unfold System.signal
  split
  · exact ⟨rfl, rfl, rfl, Iff.rfl⟩
  · exact wake_view _ _

theorem AddEvent_of_open {ε : Type} (s : System ε) (e : Event ε) (highPriority : Bool)
    (hopen : s.bucket.closed = false) :
    s.AddEvent e highPriority =
      System.signal
        { s with
          bucket :=
            { events := if highPriority then e :: s.bucket.events else s.bucket.events ++ [e]
              closed := false } } := by
  simp [System.AddEvent, Bucket.AddEvent, hopen]

theorem AddEvent_view {ε : Type} (s : System ε) (e : Event ε) (highPriority : Bool)
    (hopen : s.bucket.closed = false) :
    (s.AddEvent e highPriority).calls = s.calls ∧
    (s.AddEvent e highPriority).inFlight = s.inFlight ∧
    (s.AddEvent e highPriority).bucket.events =
      (if highPriority then e :: s.bucket.events else s.bucket.events ++ [e]) ∧
    (s.AddEvent e highPriority).bucket.closed = false ∧
    ((s.AddEvent e highPriority).alive ↔ s.alive) := by
  rw [AddEvent_of_open s e highPriority hopen]
  obtain ⟨h1, h2, h3, h4⟩ := signal_view
    ({ s with
        bucket :=
          { events := if highPriority then e :: s.bucket.events else s.bucket.events ++ [e]
            closed := false } } : System ε)
  refine ⟨h1, h2, ?_, ?_, h4⟩
  · rw [h3]
  · rw [h3]

theorem AddEvent_handled_front {ε : Type} (s : System ε) (e : Event ε)
    (hopen : s.bucket.closed = false) :
    (s.AddEvent e true).handled = (s.emitted ++ s.inFlight) ++ e :: s.bucket.events := by
  obtain ⟨h1, h2, h3, _, _⟩ := AddEvent_view s e true hopen
  unfold System.handled
  rw [emitted_of_calls s _ h1, h2, h3]
  simp

theorem AddEvent_handled_back {ε : Type} (s : System ε) (e : Event ε)
    (hopen : s.bucket.closed = false) :
    (s.AddEvent e false).handled = s.handled ++ [e] := by
  obtain ⟨h1, h2, h3, _, _⟩ := AddEvent_view s e false hopen
  unfold System.handled
  rw [emitted_of_calls s _ h1, h2, h3]
  simp

theorem handled_split {ε : Type} (s : System ε) :
    s.handled = (s.emitted ++ s.inFlight) ++ s.bucket.events := by
  simp [System.handled]

theorem Close_view {ε : Type} (s : System ε) :
    s.Close.calls = s.calls ∧ s.Close.inFlight = s.inFlight ∧
      s.Close.bucket.events = s.bucket.events ∧ (s.Close.alive ↔ s.alive) := by
  by_cases hcl : s.bucket.closed = true
  · rw [Close_of_closed s hcl]
    exact ⟨rfl, rfl, rfl, Iff.rfl⟩
  · simp only [System.Close, hcl, Bool.false_eq_true, if_false]
    obtain ⟨h1, h2, h3, h4⟩ := signal_view
      ({ s with bucket := { s.bucket with closed := true } } : System ε)
    refine ⟨h1, ?_, ?_, ?_⟩
    · simpa [System.inFlight] using h2
    · rw [h3]
    · simpa [System.alive] using h4

theorem emitted_append_Emit {ε : Type} (calls : List (EmitterCall ε)) (e : Event ε) :
    (calls ++ [EmitterCall.Emit e]).filterMap
        (fun call =>
          match call with
          | EmitterCall.Emit event => some event
          | _ => none) =
      calls.filterMap
        (fun call =>
          match call with
          | EmitterCall.Emit event => some event
          | _ => none) ++ [e] := by
  simp [List.filterMap_append]

theorem next_event {ε : Type} (bucket : Bucket ε) (e : Event ε) (rest : Bucket ε)
    (h : bucket.next = NextResult.event e rest) :
    bucket.events = e :: rest.events ∧ rest.closed = bucket.closed := by
  unfold Bucket.next at h
  split at h
  · exact absurd h (by simp)
  · exact absurd h (by simp)
  · rename_i v tail hev
    simp only [NextResult.event.injEq] at h
    rw [← h.2, ← h.1]
    exact ⟨hev, rfl⟩

theorem step_shape {ε : Type} [DecidableEq ε] (a b : Event ε) (s : System ε)
    (act : Action ε) (ha : ¬ act.adds a) (hb : ¬ act.adds b) :
    stepShape a b s (step s act) := by
  cases act with
  | addEvent e highPriority =>
    simp only [step]
    have hea : e ≠ a := by simpa [Action.adds] using ha
    have heb : e ≠ b := by simpa [Action.adds] using hb
    by_cases hcl : s.bucket.closed = true
    · rw [AddEvent_of_closed s e highPriority hcl]
      exact Or.inl ⟨rfl, rfl, id⟩
    · have hopen : s.bucket.closed = false := by simpa using hcl
      obtain ⟨h1, _, _, _, h5⟩ := AddEvent_view s e highPriority hopen
      right
      left
      cases highPriority with
      | true =>
        exact ⟨s.emitted ++ s.inFlight, s.bucket.events, e, handled_split s,
          AddEvent_handled_front s e hopen, hea, heb, emitted_of_calls s _ h1, h5.1⟩
      | false =>
        exact ⟨s.handled, [], e, by simp, AddEvent_handled_back s e hopen, hea, heb,
          emitted_of_calls s _ h1, h5.1⟩
  | close =>
    simp only [step]
    obtain ⟨h1, h2, h3, h4⟩ := Close_view s
    exact Or.inl ⟨handled_eq s _ h1 h2 h3, emitted_of_calls s _ h1, h4.1⟩
  | closeResume closeErr =>
    simp only [step, System.closeResume]
    split
    · left
      refine ⟨?_, ?_, id⟩
      · simp [System.handled, System.emitted, System.inFlight, List.filterMap_append]
      · simp [System.emitted, List.filterMap_append]
    · exact Or.inl ⟨rfl, rfl, id⟩
  | drip limiterErr emitErr =>
    simp only [step, System.dripStep]
    split
    · rename_i hd
      have halive : s.alive := by simp [System.alive, hd]
      have hin : s.inFlight = [] := by simp [System.inFlight, hd]
      split
      · left
        refine ⟨?_, rfl, fun _ => halive⟩
        simp [System.handled, System.emitted, System.inFlight, hd]
      · left
        refine ⟨?_, rfl, fun _ => halive⟩
        simp [System.handled, System.emitted, System.inFlight, hd]
      · rename_i v rest hev
        left
        refine ⟨?_, rfl, fun _ => halive⟩
        simp [System.handled, System.emitted, System.inFlight, hd, (next_event _ _ _ hev).1]
    · rename_i hd
      right
      right
      right
      refine ⟨by simp [System.alive], rfl, s.emitted, none, s.bucket.events, ?_, ?_⟩
      · simp [System.handled, System.inFlight, hd]
      · simp [System.handled, System.inFlight, System.emitted]
    · rename_i v hd
      have halive : s.alive := by simp [System.alive, hd]
      split
      · right
        right
        right
        refine ⟨by simp [System.alive], rfl, s.emitted, some v, s.bucket.events, ?_, ?_⟩
        · simp [System.handled, System.inFlight, hd]
        · simp [System.handled, System.inFlight, System.emitted]
      · split
        · right
          right
          left
          refine ⟨halive, some v, s.bucket.events, ?_, ?_, ?_⟩
          · simp [System.handled, System.inFlight, hd]
          · simp [System.emitted, List.filterMap_append]
          · simp [System.handled, System.inFlight, System.emitted, hd,
              List.filterMap_append]
        · right
          right
          left
          refine ⟨halive, some v, s.bucket.events, ?_, ?_, ?_⟩
          · simp [System.handled, System.inFlight, hd]
          · simp [System.emitted, List.filterMap_append]
          · simp [System.handled, System.inFlight, System.emitted, hd,
              List.filterMap_append]
    · exact Or.inl ⟨rfl, rfl, id⟩
    · exact Or.inl ⟨rfl, rfl, id⟩
    · exact Or.inl ⟨rfl, rfl, id⟩

theorem orderKept_shape {ε : Type} [DecidableEq ε] (a b : Event ε) (s t : System ε)
    (hs : stepShape a b s t) (h : orderKept a b s) : orderKept a b t := by
  obtain ⟨ho, hp, hl⟩ := h
  rcases hs with ⟨h1, h2, h3⟩ | ⟨x, y, e, h1, h2, hea, heb, h3, h4⟩ |
    ⟨halive, e, rest, h1, h2, h3⟩ | ⟨hdead, h1, x, e, y, h2, h3⟩
  · refine ⟨by rw [h1]; exact ho, by rw [h2]; exact hp, ?_⟩
    intro ht
    rw [h1]
    exact hl (h3 ht)
  · refine ⟨?_, by rw [h3]; exact hp, ?_⟩
    · rw [h2]
      rw [h1] at ho
      exact ordered_insert a b e x y ho hea heb
    · intro ht hb
      rw [h2] at hb ⊢
      have hb1 : b ∈ s.handled := by
        rw [h1]
        rcases List.mem_append.1 hb with h | h
        · exact List.mem_append.2 (Or.inl h)
        · rcases List.mem_cons.1 h with h | h
          · exact absurd h.symm heb
          · exact List.mem_append.2 (Or.inr h)
      have ha1 := hl (h4 ht) hb1
      rw [h1] at ha1
      rcases List.mem_append.1 ha1 with h | h
      · exact List.mem_append.2 (Or.inl h)
      · exact List.mem_append.2 (Or.inr (List.mem_cons_of_mem _ h))
  · refine ⟨by rw [h3]; exact ho, ?_, ?_⟩
    · intro hb
      rw [h2] at hb ⊢
      rcases List.mem_append.1 hb with h | h
      · exact (hp h).trans (List.sublist_append_left _ _)
      · have heq : b = e := by simpa using h
        subst heq
        have hbh : b ∈ s.handled := by
          rw [h1]
          simp
        have hah := hl halive hbh
        have hsub := ho.2.2 hah hbh
        have hc := ho.2.1
        rw [h1] at hsub hc
        have e2 : s.emitted ++ b :: rest = (s.emitted ++ [b]) ++ rest := by simp
        rw [e2] at hsub hc
        refine pair_sublist_left a b _ rest hsub ?_
        intro hm
        have h5 : 1 ≤ rest.count b := List.one_le_count_iff.2 hm
        rw [List.count_append, List.count_append, List.count_singleton] at hc
        simp only [beq_self_eq_true, if_true] at hc
        omega
    · intro _ hb
      rw [h3] at hb ⊢
      exact hl halive hb
  · refine ⟨?_, by rw [h1]; exact hp, fun ht => absurd ht hdead⟩
    rw [h3]
    rw [h2] at ho
    exact ordered_remove a b e x y ho

theorem firstQueued_shape {ε : Type} [DecidableEq ε] (a b : Event ε) (s t : System ε)
    (hs : stepShape a b s t) (h : firstQueued a b s) : firstQueued a b t := by
  obtain ⟨hb, hc, hl⟩ := h
  rcases hs with ⟨h1, _, h3⟩ | ⟨x, y, e, h1, h2, hea, heb, _, h4⟩ |
    ⟨halive, e, rest, _, _, h3⟩ | ⟨hdead, _, x, e, y, h2, h3⟩
  · refine ⟨by rw [h1]; exact hb, by rw [h1]; exact hc, ?_⟩
    intro ht
    rw [h1]
    exact hl (h3 ht)
  · rw [h1] at hb hc
    refine ⟨?_, ?_, ?_⟩
    · rw [h2]
      intro hm
      rcases List.mem_append.1 hm with h | h
      · exact hb (List.mem_append.2 (Or.inl h))
      · rcases List.mem_cons.1 h with h | h
        · exact heb h.symm
        · exact hb (List.mem_append.2 (Or.inr h))
    · rw [h2, List.count_append, List.count_cons_of_ne (Ne.symm hea), ← List.count_append]
      exact hc
    · intro ht
      have ha1 := hl (h4 ht)
      rw [h1] at ha1
      rw [h2]
      rcases List.mem_append.1 ha1 with h | h
      · exact List.mem_append.2 (Or.inl h)
      · exact List.mem_append.2 (Or.inr (List.mem_cons_of_mem _ h))
  · refine ⟨by rw [h3]; exact hb, by rw [h3]; exact hc, ?_⟩
    intro _
    rw [h3]
    exact hl halive
  · have hsub : List.Sublist (x ++ y) (x ++ e :: y) :=
      List.Sublist.append (List.Sublist.refl x) (List.sublist_cons_self e y)
    rw [h2] at hb hc
    refine ⟨?_, ?_, fun ht => absurd ht hdead⟩
    · rw [h3]
      exact fun hm => hb (hsub.subset hm)
    · rw [h3]
      exact Nat.le_trans (hsub.count_le a) hc

theorem orderKept_run {ε : Type} [DecidableEq ε] (a b : Event ε) (s : System ε)
    (acts : List (Action ε)) (hacts : ∀ act ∈ acts, ¬ act.adds a ∧ ¬ act.adds b)
    (h : orderKept a b s) : orderKept a b (run s acts) := by
  induction acts generalizing s with
  | nil => exact h
  | cons act rest ih =>
    have hact := hacts act (by simp)
    exact ih (step s act) (fun x hx => hacts x (by simp [hx]))
      (orderKept_shape a b s _ (step_shape a b s act hact.1 hact.2) h)

theorem firstQueued_run {ε : Type} [DecidableEq ε] (a b : Event ε) (s : System ε)
    (acts : List (Action ε)) (hacts : ∀ act ∈ acts, ¬ act.adds a ∧ ¬ act.adds b)
    (h : firstQueued a b s) : firstQueued a b (run s acts) := by
  induction acts generalizing s with
  | nil => exact h
  | cons act rest ih =>
    have hact := hacts act (by simp)
    exact ih (step s act) (fun x hx => hacts x (by simp [hx]))
      (firstQueued_shape a b s _ (step_shape a b s act hact.1 hact.2) h)

theorem firstQueued_of_add {ε : Type} [DecidableEq ε] (a b : Event ε) (s : System ε)
    (hopen : s.bucket.closed = false) (hab : a ≠ b) (ha : a ∉ s.handled)
    (hb : b ∉ s.handled) : firstQueued a b (s.AddEvent a false) := by
  rw [firstQueued, AddEvent_handled_back s a hopen]
  refine ⟨?_, ?_, fun _ => by simp⟩
  · intro hm
    rcases List.mem_append.1 hm with h | h
    · exact hb h
    · exact hab (List.mem_singleton.1 h).symm
  · rw [List.count_append, List.count_eq_zero_of_not_mem ha]
    simp

theorem orderKept_of_add_second {ε : Type} [DecidableEq ε] (a b : Event ε) (s : System ε)
    (hab : a ≠ b) (h : firstQueued a b s) : orderKept a b (s.AddEvent b false) := by
  obtain ⟨hb, hc, hl⟩ := h
  have hbe : b ∉ s.emitted := fun hm => hb (by simp [System.handled, hm])
  by_cases hcl : s.bucket.closed = true
  · rw [AddEvent_of_closed s b false hcl]
    refine ⟨⟨hc, ?_, fun _ h2 => absurd h2 hb⟩, fun h2 => absurd h2 hbe,
      fun _ h2 => absurd h2 hb⟩
    rw [List.count_eq_zero_of_not_mem hb]
    omega
  · have hopen : s.bucket.closed = false := by simpa using hcl
    obtain ⟨h1, _, _, _, h5⟩ := AddEvent_view s b false hopen
    rw [orderKept, AddEvent_handled_back s b hopen, emitted_of_calls s _ h1]
    refine ⟨⟨?_, ?_, ?_⟩, fun h2 => absurd h2 hbe, ?_⟩
    · rw [List.count_append, List.count_singleton]
      have : (b == a) = false := by simpa using Ne.symm hab
      rw [this]
      simpa using hc
    · rw [List.count_append, List.count_eq_zero_of_not_mem hb]
      simp
    · intro ha _
      have ha1 : a ∈ s.handled := by
        rcases List.mem_append.1 ha with h | h
        · exact h
        · exact absurd (by simpa using h) hab
      exact List.Sublist.append (List.singleton_sublist.2 ha1) (List.Sublist.refl [b])
    · intro ht _
      exact List.mem_append.2 (Or.inl (hl (h5.1 ht)))

theorem orderKept_of_add_front {ε : Type} [DecidableEq ε] (e x : Event ε) (s : System ε)
    (hopen : s.bucket.closed = false) (he : e ∉ s.handled) (hx : x ∈ s.bucket.events)
    (hx1 : s.handled.count x ≤ 1) : orderKept e x (s.AddEvent e true) := by
  obtain ⟨h1, _, _, _, _⟩ := AddEvent_view s e true hopen
  have hne : e ≠ x := by
    intro heq
    subst heq
    exact he (by simp [System.handled, hx])
  have hxe : x ∉ s.emitted := by
    intro hm
    have h2 : 1 ≤ s.emitted.count x := List.one_le_count_iff.2 hm
    have h3 : 1 ≤ s.bucket.events.count x := List.one_le_count_iff.2 hx
    rw [handled_split, List.count_append, List.count_append] at hx1
    omega
  rw [orderKept, AddEvent_handled_front s e hopen, emitted_of_calls s _ h1]
  refine ⟨⟨?_, ?_, ?_⟩, fun h2 => absurd h2 hxe, fun _ _ => by simp⟩
  · rw [handled_split] at he
    have h0 := List.count_eq_zero_of_not_mem he
    rw [List.count_append] at h0
    rw [List.count_append, List.count_cons_self]
    omega
  · rw [List.count_append, List.count_cons_of_ne (Ne.symm hne), ← List.count_append,
      ← handled_split]
    exact hx1
  · intro _ _
    have h2 : List.Sublist [e, x] (e :: s.bucket.events) :=
      List.cons_sublist_cons.2 (List.singleton_sublist.2 hx)
    exact h2.trans (List.sublist_append_right _ _)

theorem orderKept_pending {ε : Type} [DecidableEq ε] (a b : Event ε) (s : System ε)
    (h : orderKept a b s) (ha : a ∈ s.bucket.events) (hb : b ∈ s.bucket.events) :
    List.Sublist [a, b] s.bucket.events := by
  obtain ⟨⟨hc, _, ho⟩, _, _⟩ := h
  have hsub := ho (by simp [System.handled, ha]) (by simp [System.handled, hb])
  rw [handled_split] at hsub hc
  refine pair_sublist_right a b _ _ hsub ?_
  intro hm
  have h2 : 1 ≤ (s.emitted ++ s.inFlight).count a := List.one_le_count_iff.2 hm
  have h3 : 1 ≤ s.bucket.events.count a := List.one_le_count_iff.2 ha
  rw [List.count_append] at hc
  omega

theorem orderKept_in_hand {ε : Type} [DecidableEq ε] (a b : Event ε) (s : System ε)
    (h : orderKept a b s) (hd : s.drip = DripAt.limiter b) : a ∉ s.bucket.events := by
  intro ha
  obtain ⟨⟨hc, hcb, ho⟩, _, _⟩ := h
  have hin : s.inFlight = [b] := by simp [System.inFlight, hd]
  have hbh : b ∈ s.handled := by simp [System.handled, hin]
  have hsub := ho (by simp [System.handled, ha]) hbh
  rw [handled_split] at hsub hc hcb
  have hna : a ∉ s.emitted ++ s.inFlight := by
    intro hm
    have h2 : 1 ≤ (s.emitted ++ s.inFlight).count a := List.one_le_count_iff.2 hm
    have h3 : 1 ≤ s.bucket.events.count a := List.one_le_count_iff.2 ha
    rw [List.count_append] at hc
    omega
  have hev := pair_sublist_right a b _ _ hsub hna
  have hbe : b ∈ s.bucket.events := hev.subset (by simp)
  have h4 : 1 ≤ s.bucket.events.count b := List.one_le_count_iff.2 hbe
  have h5 : 1 ≤ (s.emitted ++ s.inFlight).count b :=
    List.one_le_count_iff.2 (by simp [hin])
  rw [List.count_append] at hcb
  omega

theorem firstQueued_of_add_front {ε : Type} [DecidableEq ε] (a b : Event ε) (s : System ε)
    (hopen : s.bucket.closed = false) (hab : a ≠ b) (ha : a ∉ s.handled)
    (hb : b ∉ s.handled) : firstQueued a b (s.AddEvent a true) := by
  rw [firstQueued, AddEvent_handled_front s a hopen]
  rw [handled_split] at ha hb
  refine ⟨?_, ?_, fun _ => by simp⟩
  · intro hm
    rcases List.mem_append.1 hm with h | h
    · exact hb (List.mem_append.2 (Or.inl h))
    · rcases List.mem_cons.1 h with h | h
      · exact hab h.symm
      · exact hb (List.mem_append.2 (Or.inr h))
  · have h0 := List.count_eq_zero_of_not_mem ha
    rw [List.count_append] at h0
    rw [List.count_append, List.count_cons_self]
    omega

theorem tableGet_tableSet_self {β : Type} (m : List (Bytes × β)) (key : Bytes) (val : β) :
    tableGet (tableSet m key val) key = some val := by
  induction m with
  | nil => simp [tableSet, tableGet]
  | cons p rest ih =>
    obtain ⟨k, v⟩ := p
    by_cases hk : k = key
    · simp [tableSet, tableGet, hk]
    · simp [tableSet, tableGet, hk, ih]

theorem tableGet_tableSet_ne {β : Type} (m : List (Bytes × β)) (key other : Bytes) (val : β)
    (hne : other ≠ key) : tableGet (tableSet m key val) other = tableGet m other := by
  induction m with
  | nil => simp [tableSet, tableGet, Ne.symm hne]
  | cons p rest ih =>
    obtain ⟨k, v⟩ := p
    by_cases hk : k = key
    · subst hk
      simp [tableSet, tableGet, Ne.symm hne]
    · by_cases ho : k = other
      · subst ho
        simp [tableSet, tableGet, hne]
      · simp [tableSet, tableGet, hk, ho, ih]

theorem tableSet_keys {β : Type} (m : List (Bytes × β)) (key : Bytes) (val : β) :
    (tableSet m key val).map Prod.fst =
      if key ∈ m.map Prod.fst then m.map Prod.fst else m.map Prod.fst ++ [key] := by
  induction m with
  | nil => simp [tableSet]
  | cons p rest ih =>
    obtain ⟨k, v⟩ := p
    by_cases hk : k = key
    · subst hk
      simp [tableSet]
    · have hk2 : ¬ key = k := fun h => hk h.symm
      simp only [tableSet, hk, if_false, List.map_cons, ih, List.mem_cons, hk2, false_or]
      split <;> simp

/-- The four lines that `Join`, `Part`, `Pong` and `Privmsg` send end in the
line end. -/
theorem outbound_lines_end (channel server msg : Bytes) :
    Irc.Join channel = ascii "JOIN #" ++ channel ++ [13, 10] ∧
    Irc.Part channel = ascii "PART #" ++ channel ++ [13, 10] ∧
    Irc.Pong server = ascii "PONG " ++ server ++ [13, 10] ∧
    Irc.Privmsg channel msg = ascii "PRIVMSG #" ++ channel ++ ascii " :" ++ msg ++ [13, 10] :=
  ⟨rfl, rfl, rfl, rfl⟩

/-- For a limit of at least one, the spacing in seconds is the floor of thirty
over the limit: that many limits never exceed thirty, reach thirty only when
the limit divides thirty, and the spacing is zero from thirty-one on. -/
theorem everyDuration_spacing (limit : Int) (h : 1 ≤ limit) :
    everyDuration limit = (30 / limit) * 1000000000 ∧
    limit * (30 / limit) ≤ 30 ∧
    (limit * (30 / limit) = 30 ↔ limit ∣ 30) ∧
    (30 / limit = 0 ↔ 30 < limit) := by
  have hpos : 0 < limit := by omega
  have hne : limit ≠ 0 := by omega
  refine ⟨?_, ?_, ?_, ?_⟩
  · rw [everyDuration, Int.tdiv_eq_ediv (by decide) (by omega)]
  · have := Int.ediv_mul_le 30 hne
    rw [Int.mul_comm]
    exact this
  · constructor
    · intro he
      exact ⟨30 / limit, he.symm⟩
    · intro hd
      exact Int.mul_ediv_cancel' hd
  · constructor
    · intro h0
      by_contra hle
      have h1 : 1 ≤ 30 / limit := Int.le_ediv_of_mul_le hpos (by omega)
      omega
    · intro hlt
      exact Int.ediv_eq_zero_of_lt (by decide) hlt

/-- The limits of a session are never zero. -/
theorem NewTwitchChat_limits_ne_zero (options : Options) (tc : TwitchChat)
    (h : (NewTwitchChat options).1 = some tc) :
    tc.options.ChatLimit ≠ 0 ∧ tc.options.JoinLimit ≠ 0 ∧ tc.options.AuthLimit ≠ 0 := by
  unfold NewTwitchChat at h
  by_cases hn : options.Nick = []
  · simp [hn] at h
  · by_cases hp : options.Pass = []
    · simp [hn, hp] at h
    · simp only [hn, hp, if_false, Option.some.injEq] at h
      subst h
      simp only [TwitchChat.RegisterCallback, pongCallback]
      refine ⟨?_, ?_, ?_⟩
      · by_cases h0 : options.ChatLimit = 0 <;> simp [h0]
      · by_cases h0 : options.JoinLimit = 0 <;> simp [h0]
      · by_cases h0 : options.AuthLimit = 0 <;> simp [h0]

/-- Chat and Join end in `return nil`: what `AddEvent` returned is not looked
at, whatever the state of the queue. -/
theorem Chat_Join_return (tc : TwitchChat) (channel msg : Bytes) :
    (tc.Chat channel msg).2 = none ∧ (tc.Join channel).2 = none :=
  ⟨rfl, rfl⟩

/-! ## The claims -/
/-- C1 fails on the code: the received line `@login=ronni`, a tag section
and nothing else, makes bytesToIrcMessage read `msgPieces[1]` of a one-piece
line, an index out of range, so no event is returned. -/
theorem C1_tag_only_line_panics : bytesToIrcMessage (ascii "@login=ronni") = none := by
  decide

/-- C2: for every channel name `c` without a space, every text `t`, and any
optional tag section and source without a space, the line
`[@tags ][:prefix ]PRIVMSG #c :t` yields a PrivMsg whose Channel is `c` and
whose Message is `t`. -/
theorem C2_chat_round_trip (tags source : Option Bytes) (c t : Bytes)
    (htags : ∀ g, tags = some g → 32 ∉ g) (hsrc : ∀ p, source = some p → 32 ∉ p)
    (hc : 32 ∉ c) :
    ∃ m, bytesToIrcMessage
        (tagSection tags ++ (sourceSection source ++
          (ascii "PRIVMSG" ++ [32, 35] ++ c ++ [32, 58] ++ t))) = some (IrcMessage.privMsg m) ∧
      m.Channel = c ∧ m.Message = t := by
  have hsplit := bytesSplit_tagSection tags
    (sourceSection source ++ (ascii "PRIVMSG" ++ [32, 35] ++ c ++ [32, 58] ++ t)) htags
  rw [bytesSplit_sourceSection source _ hsrc, bytesSplit_privmsg_body c t hc] at hsplit
  have h64 : (ascii "PRIVMSG").head? ≠ some 64 := by decide
  have h58 : (ascii "PRIVMSG").head? ≠ some 58 := by decide
  cases tags with
  | none =>
    cases source with
    | none =>
      rw [bytesToIrcMessage_plain _ _ _ hsplit h64 h58]
      simp only [Option.some.injEq]
      exact privMsg_of_pieces _ c t
    | some p =>
      rw [bytesToIrcMessage_source _ p _ hsplit]
      simp only [Option.some.injEq]
      exact privMsg_of_pieces _ c t
  | some g =>
    cases source with
    | none =>
      rw [bytesToIrcMessage_tags_plain _ g _ _ hsplit h58]
      simp only [Option.some.injEq]
      exact privMsg_of_pieces _ c t
    | some p =>
      rw [bytesToIrcMessage_tags_source _ g p _ hsplit]
      simp only [Option.some.injEq]
      exact privMsg_of_pieces _ c t

theorem C2_chat_round_trip_witness :
    (∀ g, some (ascii "badge-info=;badges=global_mod/1,turbo/1") = some g → 32 ∉ g) ∧
    (∀ p, some (ascii "ronni!ronni@ronni.tmi.twitch.tv") = some p → 32 ∉ p) ∧
    32 ∉ ascii "dallas" ∧
    ∃ m, bytesToIrcMessage
        (tagSection (some (ascii "badge-info=;badges=global_mod/1,turbo/1")) ++
          (sourceSection (some (ascii "ronni!ronni@ronni.tmi.twitch.tv")) ++
            (ascii "PRIVMSG" ++ [32, 35] ++ ascii "dallas" ++ [32, 58] ++
              ascii ":Kappa  Keepo Kappa"))) = some (IrcMessage.privMsg m) ∧
      m.Channel = ascii "dallas" ∧ m.Message = ascii ":Kappa  Keepo Kappa" :=
  have h1 : ∀ g, some (ascii "badge-info=;badges=global_mod/1,turbo/1") = some g → 32 ∉ g := by
    intro g hg
    rw [← Option.some.inj hg]
    decide
  have h2 : ∀ p, some (ascii "ronni!ronni@ronni.tmi.twitch.tv") = some p → 32 ∉ p := by
    intro p hp
    rw [← Option.some.inj hp]
    decide
  ⟨h1, h2, by decide, C2_chat_round_trip _ _ _ _ h1 h2 (by decide)⟩

/-- C3 fails on the code: in the line `@room-id=1337` the command is missing, and
instead of the raw message with command UNKNOWN the code produces no event at
all, because the read of the piece after the tag section is out of range. -/
theorem C3_missing_command_after_tags :
    commandPieces (bytesSplit 32 (ascii "@room-id=1337")) = [] ∧
    bytesToIrcMessage (ascii "@room-id=1337") = none := by
  decide

/-- C7 fails on the code: the ROOMSTATE line of the test suite has the first
parameter `#dallas`, and the RoomState event it produces has an empty Channel,
because newRoomStateMsg never assigns the field. -/
theorem C7_roomstate_channel_empty :
    (bytesToIrcMessage (ascii
        "@emote-only=0;followers-only=0;r9k=0;slow=10;subs-only=0 :tmi.twitch.tv ROOMSTATE #dallas")).map
      (fun ev => (ev.kind, ev.rawOf.RawParams, ev.channelOf)) =
      some (MessageCommand.ROOMSTATE, [ascii "#dallas"], some []) := by
  decide

/-- The channel rule holds for the nine other commands that carry a channel:
with a first parameter `#` followed by `c`, the Channel of the event is `c`. -/
theorem channel_rule_other_commands (rawMsg : RawIrcMessage) (c : Bytes) (rest : List Bytes)
    (hp : rawMsg.RawParams = (35 :: c) :: rest)
    (hcmd : rawMsg.RawCommand ∈ [MessageCommand.CLEARCHAT, MessageCommand.CLEARMSG,
      MessageCommand.HOSTTARGET, MessageCommand.JOIN, MessageCommand.NOTICE,
      MessageCommand.PART, MessageCommand.PRIVMSG, MessageCommand.USERNOTICE,
      MessageCommand.USERSTATE]) :
    (newIrcMessage rawMsg).channelOf = some c := by
  have hch : getChannel rawMsg.RawParams = c := by simp [hp, getChannel]
  simp only [List.mem_cons, List.mem_singleton, List.not_mem_nil, or_false] at hcmd
  rcases hcmd with h | h | h | h | h | h | h | h | h <;>
    simp [newIrcMessage, h, IrcMessage.channelOf, newClearMsgMsg, newHostTargetMsg,
      newJoinMsg, newNoticeMsg, newPartMsg, newPrivMsgMsg, newUserNoticeMsg,
      newUserStateMsg, hch]
  unfold newClearChatMsg
  split
  · split <;> simp [hch]
  · simp [hch]

theorem channel_rule_other_commands_witness :
    (newIrcMessage (withCommand (emptyRaw (ascii "JOIN #dallas"))
      [ascii "JOIN", ascii "#dallas"])).channelOf = some (ascii "dallas") :=
  channel_rule_other_commands _ (ascii "dallas") [] (by decide) (by decide)



/-- C4, the claim as stated fails: the entry with key `k` and value `a=b` has a
key without `=` and a value without `;` or space, and the tag map of the line
`@k=a=b :tmi.twitch.tv PING` has no entry for `k` (it is empty), because the
entry splits on `=` into three parts. -/
theorem C4_counterexample :
    61 ∉ ascii "k" ∧ 59 ∉ ascii "a=b" ∧ 32 ∉ ascii "a=b" ∧
    (bytesToIrcMessage (ascii "@k=a=b :tmi.twitch.tv PING")).map
      (fun ev => (mapGet ev.rawOf.RawTags (ascii "k"), mapLen ev.rawOf.RawTags)) =
      some (none, 0) := by
  decide

/-- C4 amended: for every line whose first piece is `@` followed by entries
separated by `;` and that has a further piece, where each entry is either
key=value (key and value without `=`, `;` or space, keys pairwise distinct) or
malformed (no `=`), the tag map has exactly the entry key -> value for each
key=value entry and nothing for the malformed ones; when all N entries are
key=value the map has exactly N entries. -/
theorem C4_tag_parsing (entries : List TagEntry) (rest : Bytes)
    (hvalid : ∀ e ∈ entries, e.valid)
    (hkeys : ((entries.filterMap TagEntry.pair).map Prod.fst).Nodup) :
    ∃ ev, bytesToIrcMessage
        (64 :: List.intercalate [59] (entries.map TagEntry.text) ++ 32 :: rest) = some ev ∧
      (∀ k v, mapGet ev.rawOf.RawTags k = some v ↔ TagEntry.keyValue k v ∈ entries) ∧
      mapLen ev.rawOf.RawTags = (entries.filterMap TagEntry.pair).length ∧
      ((∀ e ∈ entries, e.pair ≠ none) → mapLen ev.rawOf.RawTags = entries.length) := by
  have hg : (32 : UInt8) ∉ List.intercalate [59] (entries.map TagEntry.text) := by
    rw [← bytesJoin_eq_intercalate]
    intro hm
    rcases mem_bytesJoin _ _ _ hm with h1 | ⟨l, hl, hx⟩
    · exact absurd h1 (by decide)
    · obtain ⟨e, he, rfl⟩ := List.mem_map.1 hl
      exact (TagEntry.text_clean e (hvalid e he)).2 hx
  obtain ⟨ev, hev, htags⟩ := tags_of_line _ rest hg
  rw [tagLoop_tag_section entries hvalid hkeys] at htags
  refine ⟨ev, hev, ?_, ?_, ?_⟩
  · intro k v
    rw [htags, mapGet_iff_mem _ hkeys, mem_filterMap_pair]
  · rw [htags, mapLen]
  · intro hall
    rw [htags, mapLen, length_filterMap_pair entries hall]

theorem C4_tag_parsing_witness :
    (∀ e ∈ [TagEntry.keyValue (ascii "login") (ascii "ronni"), TagEntry.malformed (ascii "oops"),
        TagEntry.keyValue (ascii "target-msg-id") (ascii "abc-123-def")], e.valid) ∧
    (([TagEntry.keyValue (ascii "login") (ascii "ronni"), TagEntry.malformed (ascii "oops"),
        TagEntry.keyValue (ascii "target-msg-id") (ascii "abc-123-def")].filterMap
          TagEntry.pair).map Prod.fst).Nodup ∧
    ∃ ev, bytesToIrcMessage
        (64 :: List.intercalate [59]
          ([TagEntry.keyValue (ascii "login") (ascii "ronni"), TagEntry.malformed (ascii "oops"),
            TagEntry.keyValue (ascii "target-msg-id") (ascii "abc-123-def")].map TagEntry.text) ++
          32 :: ascii ":tmi.twitch.tv CLEARMSG #dallas :HeyGuys") = some ev ∧
      (∀ k v, mapGet ev.rawOf.RawTags k = some v ↔
        TagEntry.keyValue k v ∈
          [TagEntry.keyValue (ascii "login") (ascii "ronni"), TagEntry.malformed (ascii "oops"),
            TagEntry.keyValue (ascii "target-msg-id") (ascii "abc-123-def")]) ∧
      mapLen ev.rawOf.RawTags =
        ([TagEntry.keyValue (ascii "login") (ascii "ronni"), TagEntry.malformed (ascii "oops"),
          TagEntry.keyValue (ascii "target-msg-id") (ascii "abc-123-def")].filterMap
            TagEntry.pair).length ∧
      ((∀ e ∈ [TagEntry.keyValue (ascii "login") (ascii "ronni"),
          TagEntry.malformed (ascii "oops"),
          TagEntry.keyValue (ascii "target-msg-id") (ascii "abc-123-def")], e.pair ≠ none) →
        mapLen ev.rawOf.RawTags =
          [TagEntry.keyValue (ascii "login") (ascii "ronni"), TagEntry.malformed (ascii "oops"),
            TagEntry.keyValue (ascii "target-msg-id") (ascii "abc-123-def")].length) :=
  ⟨by decide, by decide, C4_tag_parsing _ _ (by decide) (by decide)⟩

/-- C5: for every line whose source piece is `:` followed by `p`, splitting `p`
on the delimiters `!` and `@` decides the prefix: exactly one part `h` gives
Host = `h` with Nickname and User empty; exactly three parts `n`, `u`, `h` give
Nickname = `n`, User = `u`, Host = `h`; any other number of parts leaves all
three empty; and in every case the piece after the source piece is taken as the
command. -/
theorem C5_prefix_parsing (tags : Option Bytes) (p : Bytes) (tail : Option Bytes)
    (htags : ∀ g, tags = some g → 32 ∉ g) (hp : 32 ∉ p) :
    ∃ ev, bytesToIrcMessage (tagSection tags ++ (58 :: p ++ tailSection tail)) = some ev ∧
      (∀ h, List.splitOnP (fun b => b == 33 || b == 64) p = [h] →
        ev.rawOf.Host = h ∧ ev.rawOf.Nickname = [] ∧ ev.rawOf.User = []) ∧
      (∀ n u h, List.splitOnP (fun b => b == 33 || b == 64) p = [n, u, h] →
        ev.rawOf.Nickname = n ∧ ev.rawOf.User = u ∧ ev.rawOf.Host = h) ∧
      ((List.splitOnP (fun b => b == 33 || b == 64) p).length ≠ 1 →
        (List.splitOnP (fun b => b == 33 || b == 64) p).length ≠ 3 →
        ev.rawOf.Nickname = [] ∧ ev.rawOf.User = [] ∧ ev.rawOf.Host = []) ∧
      ev.rawOf.RawCommand =
        (match tail with
          | none => MessageCommand.UNKNOWN
          | some r => MessageCommandLookup (r.takeWhile (fun b => b != 32))) := by
  have hsplit := bytesSplit_tagSection tags (58 :: p ++ tailSection tail) htags
  rw [bytesSplit_source_tail p tail hp] at hsplit
  cases tags with
  | none =>
    refine ⟨_, bytesToIrcMessage_source _ p _ hsplit, ?_⟩
    rw [newIrcMessage_rawOf]
    obtain ⟨f1, f2, f3⟩ := prefix_fields (emptyRaw (tagSection none ++ (58 :: p ++ tailSection tail)))
      p (tailPieces tail) rfl rfl rfl
    exact ⟨f1, f2, f3, command_of_tail _ tail (by simp [emptyRaw])⟩
  | some g =>
    refine ⟨_, bytesToIrcMessage_tags_source _ g p _ hsplit, ?_⟩
    rw [newIrcMessage_rawOf]
    obtain ⟨f1, f2, f3⟩ := prefix_fields
      { emptyRaw (tagSection (some g) ++ (58 :: p ++ tailSection tail)) with
        RawTags := tagLoop (bytesSplit 59 g) [] }
      p (tailPieces tail) rfl rfl rfl
    exact ⟨f1, f2, f3, command_of_tail _ tail (by simp [emptyRaw])⟩

theorem C5_prefix_parsing_witness :
    (∀ g, some (ascii "login=ronni") = some g → 32 ∉ g) ∧
    32 ∉ ascii "ronni!ronni@ronni.tmi.twitch.tv" ∧
    ∃ ev, bytesToIrcMessage (tagSection (some (ascii "login=ronni")) ++
        (58 :: ascii "ronni!ronni@ronni.tmi.twitch.tv" ++
          tailSection (some (ascii "JOIN #dallas")))) = some ev ∧
      (∀ h, List.splitOnP (fun b => b == 33 || b == 64)
          (ascii "ronni!ronni@ronni.tmi.twitch.tv") = [h] →
        ev.rawOf.Host = h ∧ ev.rawOf.Nickname = [] ∧ ev.rawOf.User = []) ∧
      (∀ n u h, List.splitOnP (fun b => b == 33 || b == 64)
          (ascii "ronni!ronni@ronni.tmi.twitch.tv") = [n, u, h] →
        ev.rawOf.Nickname = n ∧ ev.rawOf.User = u ∧ ev.rawOf.Host = h) ∧
      ((List.splitOnP (fun b => b == 33 || b == 64)
          (ascii "ronni!ronni@ronni.tmi.twitch.tv")).length ≠ 1 →
        (List.splitOnP (fun b => b == 33 || b == 64)
          (ascii "ronni!ronni@ronni.tmi.twitch.tv")).length ≠ 3 →
        ev.rawOf.Nickname = [] ∧ ev.rawOf.User = [] ∧ ev.rawOf.Host = []) ∧
      ev.rawOf.RawCommand =
        (match some (ascii "JOIN #dallas") with
          | none => MessageCommand.UNKNOWN
          | some r => MessageCommandLookup (r.takeWhile (fun b => b != 32))) :=
  have h1 : ∀ g, some (ascii "login=ronni") = some g → 32 ∉ g := by
    intro g hg
    rw [← Option.some.inj hg]
    decide
  ⟨h1, by decide, C5_prefix_parsing _ _ _ h1 (by decide)⟩

/-- C6: getChannel gives `s` when the first parameter is `#` followed by `s` (only
one leading `#` is removed), and the empty string when there is no parameter or
when the first parameter does not begin with `#`. -/
theorem C6_getChannel (s p : Bytes) (rest : List Bytes) :
    getChannel [] = [] ∧
    getChannel ((35 :: s) :: rest) = s ∧
    getChannel ((35 :: 35 :: s) :: rest) = 35 :: s ∧
    (p.head? ≠ some 35 → getChannel (p :: rest) = []) := by
  refine ⟨rfl, by simp [getChannel], by simp [getChannel], ?_⟩
  intro h
  cases p with
  | nil => simp [getChannel]
  | cons c t =>
    have hc : c ≠ 35 := by simpa using h
    simp [getChannel, hc]

theorem C6_getChannel_witness :
    (ascii "dallas").head? ≠ some 35 ∧ getChannel [ascii "dallas", ascii ":hi"] = [] :=
  ⟨by decide, (C6_getChannel (ascii "x") (ascii "dallas") [ascii ":hi"]).2.2.2 (by decide)⟩

/-- C8: in the events built by the NOTICE, CLEARMSG, PRIVMSG and USERNOTICE
constructors, Message is the parameters from index 1 onward joined with a single
space and then with one leading `:` removed if present (a second `:` is kept);
with fewer than two parameters Message is the empty string. -/
theorem C8_free_text (rawMsg : RawIrcMessage) :
    (newNoticeMsg rawMsg).Message = specFreeText rawMsg.RawParams ∧
    (newClearMsgMsg rawMsg).Message = specFreeText rawMsg.RawParams ∧
    (newPrivMsgMsg rawMsg).Message = specFreeText rawMsg.RawParams ∧
    (newUserNoticeMsg rawMsg).Message = specFreeText rawMsg.RawParams := by
  refine ⟨?_, ?_, ?_, ?_⟩ <;>
    simp [newNoticeMsg, newClearMsgMsg, newPrivMsgMsg, newUserNoticeMsg,
      messageText_eq_specFreeText]

/-- C9, the claim as stated fails: the value `01` is not exactly `1`, and
getBoolFromTags returns true for it. -/
theorem C9_counterexample :
    ascii "01" ≠ ascii "1" ∧
    mapGet [(ascii "emote-only", ascii "01")] (ascii "emote-only") = some (ascii "01") ∧
    getBoolFromTags [(ascii "emote-only", ascii "01")] (ascii "emote-only") = true := by
  decide

/-- C9 amended: getBoolFromTags returns true if and only if the key is present
with a value that is `1` preceded by any number of `0` digits (the non-empty
strings of decimal digits that denote the number 1); for `0`, for any other
value and for an absent key it returns false. -/
theorem C9_getBoolFromTags (tags : TagMap) (key : Bytes) :
    getBoolFromTags tags key = true ↔
      ∃ k, mapGet tags key = some (List.replicate k 48 ++ [49]) := by
  constructor
  · intro h
    unfold getBoolFromTags at h
    cases hg : mapGet tags key with
    | none => simp [getStringFromTags_none tags key hg] at h
    | some v =>
      rw [getStringFromTags_some tags key v hg] at h
      dsimp only at h
      by_cases hne : v = []
      · simp [hne] at h
      · by_cases hd : ∀ c ∈ v, isDigit c
        · rw [if_pos hne] at h
          by_cases hlt : decimalValue v < 2 ^ 32
          · rw [ParseUint_32_ok v hne hd hlt] at h
            have h1 : decimalValue v = 1 := by simpa using h
            obtain ⟨k, hk⟩ := decimal_one_shape v hd h1
            exact ⟨k, by rw [hk]⟩
          · rw [ParseUint_32_range v hne hd (by omega)] at h
            simp at h
        · have hx : ∃ c ∈ v, ¬ isDigit c := by
            push_neg at hd
            exact hd
          have herr := ParseUint_not_digit v 32 hx
          simp only [hne, ne_eq, not_false_eq_true, if_true] at h
          split at h
          · rename_i num heq
            rw [heq] at herr
            exact absurd rfl herr
          · exact absurd h (by simp)
  · rintro ⟨k, hk⟩
    have hne : List.replicate k (48 : UInt8) ++ [49] ≠ [] := by simp
    have hd : ∀ c ∈ List.replicate k (48 : UInt8) ++ [49], isDigit c := by
      intro c hc
      rcases List.mem_append.1 hc with h1 | h1
      · rw [(List.mem_replicate.1 h1).2]
        decide
      · rw [List.mem_singleton.1 h1]
        decide
    have hv : decimalValue (List.replicate k (48 : UInt8) ++ [49]) = 1 := by
      unfold decimalValue
      rw [foldl_decimal_replicate_zero]
      rfl
    unfold getBoolFromTags
    rw [getStringFromTags_some tags key _ hk]
    dsimp only
    rw [if_pos hne, ParseUint_32_ok _ hne hd (by rw [hv]; norm_num), hv]
    rfl

/-- C10: getUintFromTags returns `n` when the tag value is a non-empty string of
decimal digits denoting `n` with `n < 2^32`, and returns 0 when the key is
absent or the value is empty, contains a non-digit (a sign included), or
denotes a number of `2^32` or more; ROOMSTATE with `slow=10` gives Slow = 10 and
CLEARCHAT with `ban-duration=10` gives BanDuration = 10. -/
theorem C10_getUintFromTags (tags : TagMap) (key v : Bytes) :
    (mapGet tags key = some v → v ≠ [] → (∀ c ∈ v, isDigit c) → decimalValue v < 2 ^ 32 →
      getUintFromTags tags key = decimalValue v) ∧
    (mapGet tags key = none → getUintFromTags tags key = 0) ∧
    (mapGet tags key = some [] → getUintFromTags tags key = 0) ∧
    (mapGet tags key = some v → (∃ c ∈ v, ¬ isDigit c) → getUintFromTags tags key = 0) ∧
    (mapGet tags key = some v → (∀ c ∈ v, isDigit c) → 2 ^ 32 ≤ decimalValue v →
      getUintFromTags tags key = 0) ∧
    (bytesToIrcMessage (ascii
        "@emote-only=0;followers-only=0;r9k=0;slow=10;subs-only=0 :tmi.twitch.tv ROOMSTATE #dallas")).map
      (fun ev => match ev with
        | IrcMessage.roomState m => some m.Slow
        | _ => none) = some (some 10) ∧
    (bytesToIrcMessage (ascii "@ban-duration=10 :tmi.twitch.tv CLEARCHAT #dallas :ronni")).map
      (fun ev => match ev with
        | IrcMessage.clearChat m => some m.BanDuration
        | _ => none) = some (some 10) := by
  refine ⟨?_, ?_, ?_, ?_, ?_, by decide, by decide⟩
  · intro hg hne hd hlt
    unfold getUintFromTags
    rw [getStringFromTags_some tags key v hg]
    dsimp only
    rw [if_pos hne, ParseUint_32_ok v hne hd hlt]
  · intro hg
    simp [getUintFromTags, getStringFromTags_none tags key hg]
  · intro hg
    simp [getUintFromTags, getStringFromTags_some tags key [] hg]
  · intro hg hx
    have herr := ParseUint_not_digit v 32 hx
    unfold getUintFromTags
    rw [getStringFromTags_some tags key v hg]
    simp only
    split
    · split
      · rename_i num heq
        rw [heq] at herr
        exact absurd rfl herr
      · rfl
    · rfl
  · intro hg hd hge
    unfold getUintFromTags
    rw [getStringFromTags_some tags key v hg]
    dsimp only
    by_cases hne : v = []
    · simp [hne]
    · rw [if_pos hne, ParseUint_32_range v hne hd hge]

theorem C10_getUintFromTags_witness :
    getUintFromTags [(ascii "slow", ascii "4294967295")] (ascii "slow") = 4294967295 ∧
    getUintFromTags [(ascii "slow", ascii "-1")] (ascii "slow") = 0 ∧
    getUintFromTags [(ascii "slow", ascii "4294967296")] (ascii "slow") = 0 :=
  ⟨(C10_getUintFromTags [(ascii "slow", ascii "4294967295")] (ascii "slow")
      (ascii "4294967295")).1 (by decide) (by decide) (by decide) (by decide),
   (C10_getUintFromTags [(ascii "slow", ascii "-1")] (ascii "slow")
      (ascii "-1")).2.2.2.1 (by decide) (by decide),
   (C10_getUintFromTags [(ascii "slow", ascii "4294967296")] (ascii "slow")
      (ascii "4294967296")).2.2.2.2.1 (by decide) (by decide) (by decide)⟩

/-- C12: for every line `PING p1 ... pn`, with or without a tag section and a
source, the Ping has Servers equal to the list of the pieces `p1, ..., pn` in
order and untrimmed; `PING :tmi.twitch.tv` gives the one server
`:tmi.twitch.tv` with its leading `:` kept. -/
theorem C12_ping_servers (tags source : Option Bytes) (params : List Bytes)
    (htags : ∀ g, tags = some g → 32 ∉ g) (hsrc : ∀ p, source = some p → 32 ∉ p)
    (hparams : ∀ p ∈ params, 32 ∉ p) :
    (∃ m, bytesToIrcMessage (inboundLine tags source (ascii "PING") params) =
        some (IrcMessage.ping m) ∧ m.Servers = params) ∧
    (bytesToIrcMessage (ascii "PING :tmi.twitch.tv")).map
      (fun ev => match ev with
        | IrcMessage.ping m => some m.Servers
        | _ => none) = some (some [ascii ":tmi.twitch.tv"]) := by
  have hline := bytesToIrcMessage_line tags source (ascii "PING") params htags hsrc
    (by decide) (by decide) (by decide) hparams
  have hcmd : MessageCommandLookup (ascii "PING") = MessageCommand.PING := by decide
  refine ⟨⟨newPingMsg (lineRaw tags source (ascii "PING") params), ?_, ?_⟩, by decide⟩
  · rw [hline]
    simp [newIrcMessage, hcmd]
  · simp [newPingMsg]

theorem C12_ping_servers_witness :
    ∃ m, bytesToIrcMessage (inboundLine none (some (ascii "tmi.twitch.tv")) (ascii "PING")
        [ascii ":a", [], ascii "b"]) = some (IrcMessage.ping m) ∧
      m.Servers = [ascii ":a", [], ascii "b"] :=
  (C12_ping_servers none (some (ascii "tmi.twitch.tv")) [ascii ":a", [], ascii "b"]
    (by intro g hg; exact absurd hg (by simp))
    (by intro p hp; rw [← Option.some.inj hp]; decide)
    (by decide)).1

/-- C13: for every CLEARCHAT line, User is `u` when the second parameter is `:`
followed by `u` and is empty when there is no second parameter; BanDuration is
the number in the ban-duration tag and 0 when that tag is absent; Channel comes
from the first parameter and Host from the source; the line
`:tmi.twitch.tv CLEARCHAT #dallas` gives dallas, tmi.twitch.tv, an empty user
and 0. -/
theorem C13_clearchat (tags source : Option Bytes) (params : List Bytes)
    (htags : ∀ g, tags = some g → 32 ∉ g) (hsrc : ∀ p, source = some p → 32 ∉ p)
    (hparams : ∀ p ∈ params, 32 ∉ p) :
    (∃ m, bytesToIrcMessage (inboundLine tags source (ascii "CLEARCHAT") params) =
        some (IrcMessage.clearChat m) ∧
      (∀ p0 u rest, params = p0 :: (58 :: u) :: rest → m.User = u) ∧
      (params.length < 2 → m.User = []) ∧
      m.BanDuration =
        specUint32 ((mapGet (lineTags tags) (ascii "ban-duration")).getD []) ∧
      (mapGet (lineTags tags) (ascii "ban-duration") = none → m.BanDuration = 0) ∧
      (∀ c rest, params = (35 :: c) :: rest → m.Channel = c) ∧
      (∀ p h, source = some p →
        List.splitOnP (fun b => b == 33 || b == 64) p = [h] → m.RawIrcMessage.Host = h) ∧
      (∀ p n u h, source = some p →
        List.splitOnP (fun b => b == 33 || b == 64) p = [n, u, h] →
          m.RawIrcMessage.Host = h)) ∧
    (bytesToIrcMessage (ascii ":tmi.twitch.tv CLEARCHAT #dallas")).map
      (fun ev => match ev with
        | IrcMessage.clearChat m => some (m.Channel, m.RawIrcMessage.Host, m.User, m.BanDuration)
        | _ => none) = some (some (ascii "dallas", ascii "tmi.twitch.tv", [], 0)) := by
  have hline := bytesToIrcMessage_line tags source (ascii "CLEARCHAT") params htags hsrc
    (by decide) (by decide) (by decide) hparams
  have hcmd : MessageCommandLookup (ascii "CLEARCHAT") = MessageCommand.CLEARCHAT := by decide
  obtain ⟨f1, f2, f3⟩ := newClearChatMsg_fields (lineRaw tags source (ascii "CLEARCHAT") params)
  have hban : (newClearChatMsg (lineRaw tags source (ascii "CLEARCHAT") params)).BanDuration =
      specUint32 ((mapGet (lineTags tags) (ascii "ban-duration")).getD []) := by
    rw [f2, getUintFromTags_eq_spec, getStringFromTags_eq_getD, lineRaw_RawTags]
  refine ⟨⟨newClearChatMsg (lineRaw tags source (ascii "CLEARCHAT") params), ?_, ?_, ?_, hban,
    ?_, ?_, ?_, ?_⟩, by decide⟩
  · rw [hline]
    simp [newIrcMessage, hcmd]
  · intro p0 u rest hp
    exact newClearChatMsg_User_some _ p0 u rest (by rw [lineRaw_RawParams, hp])
  · intro hlen
    exact newClearChatMsg_User_none _ (by rw [lineRaw_RawParams]; exact hlen)
  · intro hnone
    rw [hban, hnone]
    rfl
  · intro c rest hp
    rw [f3, lineRaw_RawParams, hp]
    simp [getChannel]
  · intro p h hs hp
    rw [f1]
    exact lineRaw_Host_one tags source _ params p h hs hp
  · intro p n u h hs hp
    rw [f1]
    exact lineRaw_Host_three tags source _ params p n u h hs hp

theorem C13_clearchat_witness :
    ∃ m, bytesToIrcMessage (inboundLine (some (ascii "ban-duration=10"))
        (some (ascii "tmi.twitch.tv")) (ascii "CLEARCHAT") [ascii "#dallas", ascii ":ronni"]) =
          some (IrcMessage.clearChat m) ∧
      m.User = ascii "ronni" ∧ m.BanDuration = 10 ∧ m.Channel = ascii "dallas" ∧
      m.RawIrcMessage.Host = ascii "tmi.twitch.tv" := by
  obtain ⟨m, hm, hu, _, hb, _, hc, hh, _⟩ :=
    (C13_clearchat (some (ascii "ban-duration=10")) (some (ascii "tmi.twitch.tv"))
      [ascii "#dallas", ascii ":ronni"]
      (by intro g hg; rw [← Option.some.inj hg]; decide)
      (by intro p hp; rw [← Option.some.inj hp]; decide)
      (by decide)).1
  refine ⟨m, hm, hu (ascii "#dallas") (ascii "ronni") [] (by decide), ?_,
    hc (ascii "dallas") [ascii ":ronni"] (by decide),
    hh (ascii "tmi.twitch.tv") (ascii "tmi.twitch.tv") rfl (by decide)⟩
  rw [hb]
  decide

/-- C14: for every HOSTTARGET line, TargetChannel is the second parameter with
one leading `:` removed (empty without a second parameter), and NumberOfViewers
is the third parameter read as a base-10 unsigned 32-bit number, or 0 when the
third parameter is absent or is not such a number; the line
`:tmi.twitch.tv HOSTTARGET #dallas :ronni 1600` gives ronni and 1600. -/
theorem C14_hosttarget (tags source : Option Bytes) (params : List Bytes)
    (htags : ∀ g, tags = some g → 32 ∉ g) (hsrc : ∀ p, source = some p → 32 ∉ p)
    (hparams : ∀ p ∈ params, 32 ∉ p) :
    (∃ m, bytesToIrcMessage (inboundLine tags source (ascii "HOSTTARGET") params) =
        some (IrcMessage.hostTarget m) ∧
      (∀ p0 p1 rest, params = p0 :: p1 :: rest → m.TargetChannel = stripColon p1) ∧
      (params.length < 2 → m.TargetChannel = []) ∧
      (∀ p0 p1 p2 rest, params = p0 :: p1 :: p2 :: rest →
        m.NumberOfViewers = specUint32 p2) ∧
      (params.length < 3 → m.NumberOfViewers = 0)) ∧
    (bytesToIrcMessage (ascii ":tmi.twitch.tv HOSTTARGET #dallas :ronni 1600")).map
      (fun ev => match ev with
        | IrcMessage.hostTarget m => some (m.TargetChannel, m.NumberOfViewers)
        | _ => none) = some (some (ascii "ronni", 1600)) := by
  have hline := bytesToIrcMessage_line tags source (ascii "HOSTTARGET") params htags hsrc
    (by decide) (by decide) (by decide) hparams
  have hcmd : MessageCommandLookup (ascii "HOSTTARGET") = MessageCommand.HOSTTARGET := by
    decide
  refine ⟨⟨newHostTargetMsg (lineRaw tags source (ascii "HOSTTARGET") params), ?_, ?_, ?_,
    ?_, ?_⟩, by decide⟩
  · rw [hline]
    simp [newIrcMessage, hcmd]
  · intro p0 p1 rest hp
    exact newHostTargetMsg_target _ p0 p1 rest (by rw [lineRaw_RawParams, hp])
  · intro hlen
    exact newHostTargetMsg_target_none _ (by rw [lineRaw_RawParams]; exact hlen)
  · intro p0 p1 p2 rest hp
    exact newHostTargetMsg_viewers _ p0 p1 p2 rest (by rw [lineRaw_RawParams, hp])
  · intro hlen
    exact newHostTargetMsg_viewers_none _ (by rw [lineRaw_RawParams]; exact hlen)

theorem C14_hosttarget_witness :
    ∃ m, bytesToIrcMessage (inboundLine none (some (ascii "tmi.twitch.tv")) (ascii "HOSTTARGET")
        [ascii "#dallas", ascii "::ronni", ascii "4294967296"]) =
          some (IrcMessage.hostTarget m) ∧
      m.TargetChannel = ascii ":ronni" ∧ m.NumberOfViewers = 0 := by
  obtain ⟨m, hm, ht, _, hv, _⟩ :=
    (C14_hosttarget none (some (ascii "tmi.twitch.tv"))
      [ascii "#dallas", ascii "::ronni", ascii "4294967296"]
      (by intro g hg; exact absurd hg (by simp))
      (by intro p hp; rw [← Option.some.inj hp]; decide)
      (by decide)).1
  refine ⟨m, hm, ?_, ?_⟩
  · rw [ht (ascii "#dallas") (ascii "::ronni") [ascii "4294967296"] (by decide)]
    decide
  · rw [hv (ascii "#dallas") (ascii "::ronni") (ascii "4294967296") [] (by decide)]
    decide

/-- C15: for every ROOMSTATE line, FollowersOnly is the base-10 signed 32-bit
value of the emote-only tag (0 when the tag is missing or unparsable) and not of
a followers-only tag: two lines that differ only in the value of their
followers-only tag give the same FollowersOnly, and a line with `emote-only=1`
and `followers-only=30` gives FollowersOnly = 1. -/
theorem C15_followers_only (tags source : Option Bytes) (params : List Bytes)
    (front back : List TagEntry) (v w : Bytes)
    (htags : ∀ g, tags = some g → 32 ∉ g) (hsrc : ∀ p, source = some p → 32 ∉ p)
    (hparams : ∀ p ∈ params, 32 ∉ p)
    (hvalid : ∀ e ∈ front ++ back, e.valid)
    (hv : (TagEntry.keyValue (ascii "followers-only") v).valid)
    (hw : (TagEntry.keyValue (ascii "followers-only") w).valid)
    (hkeys : (((front ++ TagEntry.keyValue (ascii "followers-only") v :: back).filterMap
      TagEntry.pair).map Prod.fst).Nodup) :
    (∃ m, bytesToIrcMessage (inboundLine tags source (ascii "ROOMSTATE") params) =
        some (IrcMessage.roomState m) ∧
      m.FollowersOnly = specInt32 ((mapGet (lineTags tags) (ascii "emote-only")).getD []) ∧
      (mapGet (lineTags tags) (ascii "emote-only") = none → m.FollowersOnly = 0)) ∧
    (∃ m1 m2,
      bytesToIrcMessage (inboundLine
        (some (List.intercalate [59]
          ((front ++ TagEntry.keyValue (ascii "followers-only") v :: back).map TagEntry.text)))
        source (ascii "ROOMSTATE") params) = some (IrcMessage.roomState m1) ∧
      bytesToIrcMessage (inboundLine
        (some (List.intercalate [59]
          ((front ++ TagEntry.keyValue (ascii "followers-only") w :: back).map TagEntry.text)))
        source (ascii "ROOMSTATE") params) = some (IrcMessage.roomState m2) ∧
      m1.FollowersOnly = m2.FollowersOnly) ∧
    (bytesToIrcMessage (ascii
        "@emote-only=1;followers-only=30;r9k=0;slow=10;subs-only=0 :tmi.twitch.tv ROOMSTATE #dallas")).map
      (fun ev => match ev with
        | IrcMessage.roomState m => some m.FollowersOnly
        | _ => none) = some (some 1) := by
  refine ⟨?_, ?_, by decide⟩
  · obtain ⟨h1, h2⟩ := roomState_of_line tags source params htags hsrc hparams
    refine ⟨_, h1, h2, ?_⟩
    intro hnone
    rw [h2, hnone]
    rfl
  · have hvalidV : ∀ e ∈ front ++ TagEntry.keyValue (ascii "followers-only") v :: back,
        e.valid := by
      intro e he
      rcases List.mem_append.1 he with h | h
      · exact hvalid e (List.mem_append.2 (Or.inl h))
      · rcases List.mem_cons.1 h with h | h
        · rw [h]
          exact hv
        · exact hvalid e (List.mem_append.2 (Or.inr h))
    have hvalidW : ∀ e ∈ front ++ TagEntry.keyValue (ascii "followers-only") w :: back,
        e.valid := by
      intro e he
      rcases List.mem_append.1 he with h | h
      · exact hvalid e (List.mem_append.2 (Or.inl h))
      · rcases List.mem_cons.1 h with h | h
        · rw [h]
          exact hw
        · exact hvalid e (List.mem_append.2 (Or.inr h))
    have hkeysW : (((front ++ TagEntry.keyValue (ascii "followers-only") w :: back).filterMap
        TagEntry.pair).map Prod.fst).Nodup := by
      simpa [List.filterMap_append, TagEntry.pair] using hkeys
    obtain ⟨a1, a2⟩ := roomState_of_line
      (some (List.intercalate [59]
        ((front ++ TagEntry.keyValue (ascii "followers-only") v :: back).map TagEntry.text)))
      source params
      (by intro g hg; rw [← Option.some.inj hg]; exact not_mem_tag_section _ hvalidV)
      hsrc hparams
    obtain ⟨b1, b2⟩ := roomState_of_line
      (some (List.intercalate [59]
        ((front ++ TagEntry.keyValue (ascii "followers-only") w :: back).map TagEntry.text)))
      source params
      (by intro g hg; rw [← Option.some.inj hg]; exact not_mem_tag_section _ hvalidW)
      hsrc hparams
    refine ⟨_, _, a1, b1, ?_⟩
    rw [a2, b2, lineTags_entries _ hvalidV hkeys, lineTags_entries _ hvalidW hkeysW]
    simp only [List.filterMap_append, List.filterMap_cons, TagEntry.pair]
    rw [mapGet_append_cons_ne _ _ (ascii "followers-only") v w (ascii "emote-only")
      (by decide)]

theorem C15_followers_only_witness :
    ∃ m1 m2,
      bytesToIrcMessage (inboundLine
        (some (List.intercalate [59]
          (([TagEntry.keyValue (ascii "emote-only") (ascii "-7")] ++
            TagEntry.keyValue (ascii "followers-only") (ascii "0") ::
              [TagEntry.keyValue (ascii "slow") (ascii "10")]).map TagEntry.text)))
        (some (ascii "tmi.twitch.tv")) (ascii "ROOMSTATE") [ascii "#dallas"]) =
          some (IrcMessage.roomState m1) ∧
      bytesToIrcMessage (inboundLine
        (some (List.intercalate [59]
          (([TagEntry.keyValue (ascii "emote-only") (ascii "-7")] ++
            TagEntry.keyValue (ascii "followers-only") (ascii "30") ::
              [TagEntry.keyValue (ascii "slow") (ascii "10")]).map TagEntry.text)))
        (some (ascii "tmi.twitch.tv")) (ascii "ROOMSTATE") [ascii "#dallas"]) =
          some (IrcMessage.roomState m2) ∧
      m1.FollowersOnly = m2.FollowersOnly :=
  (C15_followers_only none (some (ascii "tmi.twitch.tv")) [ascii "#dallas"]
    [TagEntry.keyValue (ascii "emote-only") (ascii "-7")]
    [TagEntry.keyValue (ascii "slow") (ascii "10")] (ascii "0") (ascii "30")
    (by intro g hg; exact absurd hg (by simp))
    (by intro p hp; rw [← Option.some.inj hp]; decide)
    (by decide) (by decide) (by decide) (by decide) (by decide)).2.1

/-- C16: AddEvent fails if and only if the bucket is closed: on a closed bucket
it returns ErrBucketClosed and leaves the pending sequence, the closed flag and
everything else unchanged; on an open bucket it returns no error, whatever the
event, the priority flag and the backlog. -/
theorem C16_addEvent_fails_iff_closed {ε : Type} (s : System ε) (event : Event ε)
    (highPriority : Bool) :
    ((s.bucket.AddEvent event highPriority).err ≠ none ↔ s.bucket.closed = true) ∧
    (s.bucket.closed = true →
      (s.bucket.AddEvent event highPriority).err = some GoError.ErrBucketClosed ∧
      (s.bucket.AddEvent event highPriority).bucket = s.bucket ∧
      s.AddEvent event highPriority = s) ∧
    (s.bucket.closed = false → (s.bucket.AddEvent event highPriority).err = none) := by
  refine ⟨?_, ?_, ?_⟩
  · cases hcl : s.bucket.closed <;> simp [Bucket.AddEvent, hcl]
  · intro hcl
    exact ⟨by simp [Bucket.AddEvent, hcl], by simp [Bucket.AddEvent, hcl],
      AddEvent_of_closed s event highPriority hcl⟩
  · intro hcl
    simp [Bucket.AddEvent, hcl]

theorem C16_addEvent_fails_iff_closed_witness :
    (run (NewBucket : System Nat) [Action.addEvent (some 7) false, Action.close]).AddEvent
        (some 8) true =
      run (NewBucket : System Nat) [Action.addEvent (some 7) false, Action.close] ∧
    ((NewBucket : System Nat).bucket.AddEvent (some 8) true).err = none :=
  ⟨((C16_addEvent_fails_iff_closed
      (run (NewBucket : System Nat) [Action.addEvent (some 7) false, Action.close])
      (some 8) true).2.1 (by decide)).2.2,
   (C16_addEvent_fails_iff_closed (NewBucket : System Nat) (some 8) true).2.2 (by decide)⟩

/-- C18, the claim as stated fails for high priority: the events 1 and 2 are
enqueued in that order on a new bucket, both with high priority, both are
pending, and the drip goroutine delivers 2 before 1. -/
theorem C18_counterexample :
    (run (NewBucket : System Nat) [Action.addEvent (some 1) true,
      Action.addEvent (some 2) true]).bucket.events = [some 2, some 1] ∧
    (run (NewBucket : System Nat) [Action.addEvent (some 1) true,
      Action.addEvent (some 2) true, Action.drip none none, Action.drip none none,
      Action.drip none none, Action.drip none none]).emitted = [some 2, some 1] := by
  decide

/-- C18 amended: FIFO within normal priority. For every open bucket and every
two events `a` and `b` enqueued in that order with normal priority, whatever
else happens in between and afterwards, `b` is delivered only after `a`, `a` is
ahead of `b` while both are pending, and `b` is never in the hand of the drip
goroutine while `a` is pending. Two events enqueued in that order with high
priority, the first still pending when the second is enqueued, are delivered in
the reverse order. -/
theorem C18_fifo_normal_priority {ε : Type} [DecidableEq ε] (s : System ε) (a b : Event ε)
    (t1 t2 : List (Action ε)) (hopen : s.bucket.closed = false) (hab : a ≠ b)
    (ha : a ∉ s.handled) (hb : b ∉ s.handled)
    (h1 : ∀ act ∈ t1, ¬ act.adds a ∧ ¬ act.adds b)
    (h2 : ∀ act ∈ t2, ¬ act.adds a ∧ ¬ act.adds b) :
    (b ∈ (run s (Action.addEvent a false :: t1 ++ Action.addEvent b false :: t2)).emitted →
      List.Sublist [a, b]
        (run s (Action.addEvent a false :: t1 ++ Action.addEvent b false :: t2)).emitted) ∧
    (a ∈ (run s (Action.addEvent a false :: t1 ++ Action.addEvent b false :: t2)).bucket.events →
      b ∈ (run s (Action.addEvent a false :: t1 ++ Action.addEvent b false :: t2)).bucket.events →
      List.Sublist [a, b]
        (run s (Action.addEvent a false :: t1 ++ Action.addEvent b false :: t2)).bucket.events) ∧
    ((run s (Action.addEvent a false :: t1 ++ Action.addEvent b false :: t2)).drip =
        DripAt.limiter b →
      a ∉ (run s (Action.addEvent a false :: t1 ++ Action.addEvent b false :: t2)).bucket.events) ∧
    ((run (step s (Action.addEvent a true)) t1).bucket.closed = false →
      a ∈ (run (step s (Action.addEvent a true)) t1).bucket.events →
      a ∈ (run s (Action.addEvent a true :: t1 ++ Action.addEvent b true :: t2)).emitted →
      List.Sublist [b, a]
        (run s (Action.addEvent a true :: t1 ++ Action.addEvent b true :: t2)).emitted) := by
  have hk : orderKept a b
      (run s (Action.addEvent a false :: t1 ++ Action.addEvent b false :: t2)) := by
    rw [run_append, run_cons, run_cons]
    refine orderKept_run a b _ t2 h2 ?_
    exact orderKept_of_add_second a b _ hab
      (firstQueued_run a b _ t1 h1 (firstQueued_of_add a b s hopen hab ha hb))
  refine ⟨hk.2.1, orderKept_pending a b _ hk, orderKept_in_hand a b _ hk, ?_⟩
  intro hopen2 hpending
  have hq := firstQueued_run a b _ t1 h1 (firstQueued_of_add_front a b s hopen hab ha hb)
  have hr : orderKept b a
      (run s (Action.addEvent a true :: t1 ++ Action.addEvent b true :: t2)) := by
    rw [run_append, run_cons, run_cons]
    refine orderKept_run b a _ t2 (fun act hact => ⟨(h2 act hact).2, (h2 act hact).1⟩) ?_
    exact orderKept_of_add_front b a _ hopen2 hq.1 hpending hq.2.1
  exact hr.2.1

theorem C18_fifo_normal_priority_witness :
    (run (NewBucket : System Nat)
      (Action.addEvent (some 1) false :: [Action.addEvent (some 5) true] ++
        Action.addEvent (some 2) false :: [Action.drip none none, Action.drip none none,
          Action.drip none none, Action.drip none none, Action.drip none none,
          Action.drip none none])).emitted = [some 5, some 1, some 2] ∧
    List.Sublist [some 1, some 2]
      (run (NewBucket : System Nat)
        (Action.addEvent (some 1) false :: [Action.addEvent (some 5) true] ++
          Action.addEvent (some 2) false :: [Action.drip none none, Action.drip none none,
            Action.drip none none, Action.drip none none, Action.drip none none,
            Action.drip none none])).emitted :=
  ⟨by decide,
   (C18_fifo_normal_priority (NewBucket : System Nat) (some 1) (some 2)
      [Action.addEvent (some 5) true]
      [Action.drip none none, Action.drip none none, Action.drip none none,
        Action.drip none none, Action.drip none none, Action.drip none none]
      (by decide) (by decide) (by decide) (by decide) (by decide) (by decide)).1 (by decide)⟩

/-- C19 fails on the code: in every run of a new bucket, whatever is enqueued
and whenever Close is called, the emitter's Close is never called and Close
never returns; the goroutine in Close stays in `cond.Wait()`, because nothing
signals the condition variable of a closed bucket. -/
theorem C19_close_never_returns {ε : Type} (acts : List (Action ε)) :
    EmitterCall.Close ∉ (run (NewBucket : System ε) acts).calls ∧
    (∀ err, (run (NewBucket : System ε) acts).close ≠ CloseAt.returned err) ∧
    (run (NewBucket : System ε) acts).close ≠ CloseAt.woken := by
  have h := closeStuck_run (NewBucket : System ε) acts
    ⟨by simp [NewBucket], Or.inl rfl⟩
  obtain ⟨hc, hp⟩ := h
  refine ⟨hc, ?_, ?_⟩
  · intro err he
    rcases hp with h1 | ⟨h1, _⟩ <;> rw [h1] at he <;> exact absurd he (by simp)
  · intro he
    rcases hp with h1 | ⟨h1, _⟩ <;> rw [h1] at he <;> exact absurd he (by simp)

/-- C20 fails on the code: on a closed bucket with no pending event `next` does
not report that there is no further event; it blocks in `cond.Wait()`, and in
every run from there the drip goroutine never returns. -/
theorem C20_drip_waits_after_close {ε : Type} (waiters : List Goroutine) (close : CloseAt)
    (calls : List (EmitterCall ε)) (limiterErr emitErr : Option GoError)
    (acts : List (Action ε)) :
    Bucket.next ({ events := [], closed := true } : Bucket ε) = NextResult.wait ∧
    (System.dripStep
      { bucket := { events := [], closed := true }, waiters := waiters, drip := DripAt.next,
        close := close, calls := calls } limiterErr emitErr).drip = DripAt.condWait ∧
    (run
      { bucket := { events := [], closed := true }, waiters := waiters, drip := DripAt.next,
        close := close, calls := calls } acts).drip ≠ DripAt.returned := by
  refine ⟨rfl, rfl, ?_⟩
  have h := dripStuck_run
    ({ bucket := { events := [], closed := true }, waiters := waiters, drip := DripAt.next,
       close := close, calls := calls } : System ε) acts ⟨rfl, rfl, Or.inl rfl⟩
  intro he
  rcases h.2.2 with h1 | h1 <;> rw [h1] at he <;> exact absurd he (by simp)

/-- C21: Close on a bucket that is already closed returns no error at once and
changes nothing: the closed flag stays set, the pending events, the waiting
goroutines and the calls made on the emitter are as before, so the Close of
the emitter is not called again. -/
theorem C21_close_on_closed_bucket {ε : Type} (s : System ε) (h : s.bucket.closed = true) :
    s.CloseReturn = some none ∧
    s.Close = s ∧
    step s Action.close = s ∧
    s.Close.bucket.closed = true ∧
    s.Close.bucket.events = s.bucket.events ∧
    s.Close.calls = s.calls := by
  have hc : s.Close = s := Close_of_closed s h
  refine ⟨by simp [System.CloseReturn, h], hc, hc, ?_, ?_, ?_⟩
  · rw [hc]; exact h
  · rw [hc]
  · rw [hc]

theorem C21_close_on_closed_bucket_witness :
    (run (NewBucket : System Nat)
        [Action.addEvent (some 3) true, Action.addEvent (some 4) false, Action.close]).CloseReturn =
      some none ∧
    (run (NewBucket : System Nat)
        [Action.addEvent (some 3) true, Action.addEvent (some 4) false, Action.close]).Close =
      run (NewBucket : System Nat)
        [Action.addEvent (some 3) true, Action.addEvent (some 4) false, Action.close] :=
  ⟨(C21_close_on_closed_bucket
      (run (NewBucket : System Nat)
        [Action.addEvent (some 3) true, Action.addEvent (some 4) false, Action.close])
      (by decide)).1,
   (C21_close_on_closed_bucket
      (run (NewBucket : System Nat)
        [Action.addEvent (some 3) true, Action.addEvent (some 4) false, Action.close])
      (by decide)).2.1⟩

/-- C23 fails on the code: the second and third messages that Connect writes
are `PASS oauth:` with the token and `NICK ` with the name and nothing after
them; neither ends in the line end that Join, Part, Pong and Privmsg append. -/
theorem C23_connect_lines_lack_line_end (user pass : Bytes) :
    (Irc.Connect user pass)[1]? = some (ascii "PASS oauth:" ++ pass) ∧
    (Irc.Connect user pass)[2]? = some (ascii "NICK " ++ user) ∧
    ascii "PASS oauth:" ++ pass ≠ ascii "PASS oauth:" ++ pass ++ [13, 10] ∧
    ascii "NICK " ++ user ≠ ascii "NICK " ++ user ++ [13, 10] ∧
    Irc.Connect (ascii "nick") (ascii "token") =
      [ascii "CAP REQ :twitch.tv/tags twitch.tv/commands twitch.tv/membership",
        ascii "PASS oauth:token", ascii "NICK nick"] := by
  refine ⟨rfl, rfl, ?_, ?_, by decide⟩
  · intro he
    have := congrArg List.length he
    simp at this
  · intro he
    have := congrArg List.length he
    simp at this

/-- C25 as stated fails: a function of one `*int` is no handler for an event
kind, `int` not being an event type, and yet RegisterCallback returns no error
for it and stores it in the handler table under `int`. -/
theorem C25_counterexample :
    ascii "int" ∉ recognizedTypes ∧
    (NewTwitchChat defaultOptions).1.map
      (fun tc =>
        ((tc.RegisterCallback (Callback.func 1 [ParamType.ptr (ascii "int")])).2,
          tableGet (tc.RegisterCallback (Callback.func 1 [ParamType.ptr (ascii "int")])).1.messageRouter
            (ascii "int"))) =
      some (none, some (Callback.func 1 [ParamType.ptr (ascii "int")])) := by
  decide

/-- C25, amended: RegisterCallback returns an error if and only if the value is
not a function of exactly one parameter of pointer type; on an error the
session, and with it the handler table, is unchanged; on success the table maps
the name of the type pointed to to this handler, whatever was registered under
that name before, every other entry is as before, and nothing else in the
session changes. -/
theorem C25_register_callback (tc : TwitchChat) (cb : Callback) :
    ((tc.RegisterCallback cb).2 ≠ none ↔
      ¬ ∃ id elem, cb = Callback.func id [ParamType.ptr elem]) ∧
    ((tc.RegisterCallback cb).2 ≠ none → (tc.RegisterCallback cb).1 = tc) ∧
    (∀ id elem, cb = Callback.func id [ParamType.ptr elem] →
      (tc.RegisterCallback cb).2 = none ∧
      tableGet (tc.RegisterCallback cb).1.messageRouter elem = some cb ∧
      (∀ other, other ≠ elem →
        tableGet (tc.RegisterCallback cb).1.messageRouter other =
          tableGet tc.messageRouter other) ∧
      (tc.RegisterCallback cb).1 =
        { tc with messageRouter := (tc.RegisterCallback cb).1.messageRouter }) := by
  have hok : ∀ id elem, cb = Callback.func id [ParamType.ptr elem] →
      tc.RegisterCallback cb =
        ({ tc with messageRouter := tableSet tc.messageRouter elem cb }, none) := by
    intro id elem hcb
    subst hcb
    simp [TwitchChat.RegisterCallback]
  have hbad : (¬ ∃ id elem, cb = Callback.func id [ParamType.ptr elem]) →
      (tc.RegisterCallback cb).2 ≠ none ∧ (tc.RegisterCallback cb).1 = tc := by
    intro hno
    cases cb with
    | notFunc id => simp [TwitchChat.RegisterCallback]
    | func id params =>
      cases params with
      | nil => simp [TwitchChat.RegisterCallback]
      | cons p rest =>
        cases rest with
        | cons q more => simp [TwitchChat.RegisterCallback]
        | nil =>
          cases p with
          | other => simp [TwitchChat.RegisterCallback]
          | ptr elem => exact absurd ⟨id, elem, rfl⟩ hno
  refine ⟨⟨?_, fun hno => (hbad hno).1⟩, ?_, ?_⟩
  · rintro herr ⟨id, elem, hcb⟩
    rw [hok id elem hcb] at herr
    exact herr rfl
  · intro herr
    by_cases hex : ∃ id elem, cb = Callback.func id [ParamType.ptr elem]
    · obtain ⟨id, elem, hcb⟩ := hex
      rw [hok id elem hcb] at herr
      exact absurd rfl herr
    · exact (hbad hex).2
  · intro id elem hcb
    rw [hok id elem hcb]
    exact ⟨rfl, tableGet_tableSet_self _ _ _,
      fun other hne => tableGet_tableSet_ne _ _ _ _ hne, rfl⟩

theorem C25_register_callback_witness :
    tableGet
      ((sessionWith NewBucket NewBucket).RegisterCallback
        (Callback.func 7 [ParamType.ptr (ascii "twitchchat.Ping")])).1.messageRouter
      (ascii "twitchchat.Ping") =
      some (Callback.func 7 [ParamType.ptr (ascii "twitchchat.Ping")]) ∧
    ((sessionWith NewBucket NewBucket).RegisterCallback (Callback.notFunc 3)).1 =
      sessionWith NewBucket NewBucket :=
  ⟨((C25_register_callback (sessionWith NewBucket NewBucket)
      (Callback.func 7 [ParamType.ptr (ascii "twitchchat.Ping")])).2.2
        7 (ascii "twitchchat.Ping") rfl).2.1,
   (C25_register_callback (sessionWith NewBucket NewBucket) (Callback.notFunc 3)).2.1
      (by decide)⟩

/-- C26: NewTwitchChat returns an error, and no session, if and only if Nick is
empty or Pass is empty; otherwise it returns a session and no error, and each
of ChatLimit, JoinLimit and AuthLimit of the session is 20 where the caller
gave 0 and the given value otherwise, Nick, Pass and EnableTags being kept. -/
theorem C26_new_session (options : Options) :
    ((NewTwitchChat options).2 ≠ none ↔ (options.Nick = [] ∨ options.Pass = [])) ∧
    ((NewTwitchChat options).1 = none ↔ (options.Nick = [] ∨ options.Pass = [])) ∧
    (options.Nick ≠ [] → options.Pass ≠ [] →
      ∃ tc, NewTwitchChat options = (some tc, none) ∧
        tc.options.ChatLimit = (if options.ChatLimit = 0 then 20 else options.ChatLimit) ∧
        tc.options.JoinLimit = (if options.JoinLimit = 0 then 20 else options.JoinLimit) ∧
        tc.options.AuthLimit = (if options.AuthLimit = 0 then 20 else options.AuthLimit) ∧
        tc.options.Nick = options.Nick ∧ tc.options.Pass = options.Pass ∧
        tc.options.EnableTags = options.EnableTags) := by
  by_cases hn : options.Nick = []
  · simp [NewTwitchChat, hn]
  · by_cases hp : options.Pass = []
    · simp [NewTwitchChat, hn, hp]
    · refine ⟨by simp [NewTwitchChat, hn, hp], by simp [NewTwitchChat, hn, hp], ?_⟩
      intro _ _
      have h1 : (NewTwitchChat options).1 ≠ none := by simp [NewTwitchChat, hn, hp]
      have h2 : (NewTwitchChat options).2 = none := by simp [NewTwitchChat, hn, hp]
      obtain ⟨tc, htc⟩ := Option.ne_none_iff_exists'.1 h1
      refine ⟨tc, Prod.ext htc h2, ?_⟩
      simp only [NewTwitchChat, hn, hp, if_false, Option.some.injEq] at htc
      subst htc
      simp [TwitchChat.RegisterCallback, pongCallback]

theorem C26_new_session_witness :
    ∃ tc, NewTwitchChat defaultOptions = (some tc, none) ∧
      tc.options.ChatLimit = (if defaultOptions.ChatLimit = 0 then 20 else defaultOptions.ChatLimit) ∧
      tc.options.JoinLimit = (if defaultOptions.JoinLimit = 0 then 20 else defaultOptions.JoinLimit) ∧
      tc.options.AuthLimit = (if defaultOptions.AuthLimit = 0 then 20 else defaultOptions.AuthLimit) ∧
      tc.options.Nick = defaultOptions.Nick ∧ tc.options.Pass = defaultOptions.Pass ∧
      tc.options.EnableTags = defaultOptions.EnableTags :=
  (C26_new_session defaultOptions).2.2 (by decide) (by decide)

/-- C27 fails on the code: with the default limit 20 the spacing is one second,
and twenty spacings make 20 seconds, less than 30; with the limit 31 the
spacing is zero. The division truncates. -/
theorem C27_spacing_truncates :
    (NewTwitchChat defaultOptions).1.map
      (fun tc => (tc.options.ChatLimit, tc.privMsgEvery, tc.options.JoinLimit, tc.joinEvery)) =
      some (20, 1000000000, 20, 1000000000) ∧
    20 * everyDuration 20 = 20 * 1000000000 ∧
    20 * everyDuration 20 < 30 * 1000000000 ∧
    (NewTwitchChat { defaultOptions with ChatLimit := 31 }).1.map
      (fun tc => (tc.options.ChatLimit, tc.privMsgEvery)) = some (31, 0) := by
  decide

/-- C28 fails on the code: a USERNOTICE line with the tag `system-msg=hello`
gives a UserNotice whose Login and MsgId hold their tag values and whose
SystemMsg is empty; the constructor leaves SystemMsg empty on every message. -/
theorem C28_system_msg_empty :
    (∀ rawMsg, (newUserNoticeMsg rawMsg).SystemMsg = []) ∧
    ((bytesToIrcMessage (ascii
        "@login=ronni;msg-id=resub;system-msg=hello :tmi.twitch.tv USERNOTICE #dallas :Great")).bind
      IrcMessage.userNoticeOf).map
      (fun m => (m.Login, m.MsgId,
        getStringFromTags m.RawIrcMessage.RawTags (ascii "system-msg"), m.SystemMsg)) =
      some (ascii "ronni", ascii "resub", ascii "hello", []) := by
  refine ⟨fun _ => rfl, by decide⟩

end Twitchchat

